import Mathlib

/-!
# Cartridge memory mapping (`Core/BaseMapper.cpp`)

A shallow embedding of the page-table core of `BaseMapper`.

* A pointer is an arena together with a byte offset; the null pointer is `none`.
* Every arena has an allocated length; reading or writing outside of it, or through the
  null pointer, is undefined behaviour in the source and is the result `none` here.
  Division or modulo by zero and indexing past a fixed-size member array are `none` too.
* `uint16_t` / `uint32_t` values are natural numbers reduced with `%` where the source
  truncates; `int16_t` / `int8_t` values are integers, `toInt16` being the conversion.
* The virtual member functions a concrete mapper overrides are the fields of `Config`.
* The `_DEBUG`-only alignment check of the mapping primitives is not part of the model
  (release build).
-/

namespace BaseMapper

/-! ## Data model -/

/-- The buffers a page-table entry can point into. -/
inductive Arena where
  | PrgRom
  | ChrRom
  | ChrRam
  | WorkRam
  | SaveRam
  /-- The block `new uint8_t[0x400]` that `SetNametable` stores in `_cartNametableRam[i]`. -/
  | CartNametable (i : Nat)
  /-- A buffer owned by the caller (NES nametables, mapper-supplied nametables). -/
  | Host (i : Nat)
  deriving DecidableEq, Repr

/-- A non-null `uint8_t*`: a position inside (or past) an arena. -/
structure Ptr where
  arena : Arena
  off : Nat
  deriving DecidableEq, Repr

/-- Pointer arithmetic `p + n` on a non-null pointer. -/
def Ptr.add (p : Ptr) (n : Nat) : Ptr := ⟨p.arena, p.off + n⟩

inductive PrgMemoryType where
  | PrgRom
  | SaveRam
  | WorkRam
  deriving DecidableEq, Repr

inductive ChrMemoryType where
  | Default
  | ChrRom
  | ChrRam
  deriving DecidableEq, Repr

inductive MirroringType where
  | Horizontal
  | Vertical
  | ScreenAOnly
  | ScreenBOnly
  | FourScreens
  deriving DecidableEq, Repr

namespace MemoryAccessType

/-- Modelled from the spec: the enumeration `MemoryAccessType` is declared in a header that is
not part of the sources; the spec lists `NoAccess, Read, Write, Read|Write`. -/
def NoAccess : Nat := 0

/-- Modelled from the spec: see `NoAccess`. -/
def Read : Nat := 1

/-- Modelled from the spec: see `NoAccess`. -/
def Write : Nat := 2

/-- Modelled from the spec: see `NoAccess`. -/
def ReadWrite : Nat := 3

end MemoryAccessType

/-- Modelled from the spec: the constant `PrgAddressRangeSize` is declared in the header;
the spec gives it as 32 KiB. -/
def PrgAddressRangeSize : Nat := 0x8000

/-- The sentinel `0xEEEEEEEE` that `memset(_, 0xEE, _)` leaves in a `uint32_t` page number. -/
def pageSentinel : Nat := 0xEEEEEEEE

/-- Conversion of an integer to `int16_t` (two's complement truncation). -/
def toInt16 (x : Int) : Int :=
  let r := x % 65536
  if r < 32768 then r else r - 65536

/-- Conversion of an integer to `uint8_t`. -/
def toUInt8 (x : Int) : Nat := (x % 256).toNat

/-- A `vector<uint8_t>` or the contents of a file: its length and its bytes. -/
structure Bytes where
  size : Nat
  get : Nat → Nat

/-- Function update at one index, used for all member arrays. -/
def upd {α : Type} (f : Nat → α) (i : Nat) (v : α) : Nat → α :=
  fun j => if j = i then v else f j

/-- The member variables of `BaseMapper` together with the contents of the arenas. -/
structure Mapper where
  /-- Byte contents of each arena. -/
  mem : Arena → Nat → Nat
  /-- Allocated length of each arena (`0` when it has not been allocated). -/
  size : Arena → Nat
  _prgSize : Nat
  _chrRomSize : Nat
  _chrRamSize : Nat
  _saveRamSize : Nat
  /-- The member `_chrRam`, null until `InitializeChrRam` allocates it. -/
  _chrRam : Option Ptr
  _onlyChrRam : Bool
  _hasBattery : Bool
  _allowRegisterRead : Bool
  _hasBusConflicts : Bool
  _mirroringType : MirroringType
  _isRegisterAddr : Nat → Bool
  _prgPages : Nat → Option Ptr
  _prgPageAccessType : Nat → Nat
  _chrPages : Nat → Option Ptr
  _chrPageAccessType : Nat → Nat
  _prgPageNumbers : Nat → Nat
  _chrPageNumbers : Nat → Nat
  _nametableIndexes : Nat → Nat
  _nesNametableRam : Nat → Option Ptr
  _cartNametableRam : Nat → Option Ptr
  _originalPrgRom : Bytes

/-- The fields of `RomData` that `Initialize` reads into the modelled members. -/
structure RomData where
  PrgRom : Bytes
  ChrRom : Bytes
  MirroringType : MirroringType
  HasBattery : Bool

/-- The virtual member functions of `BaseMapper` that a concrete mapper supplies.
`InitMapper` is the overload without arguments, `InitMapperRom` the overload taking the
`RomData`. -/
structure Config where
  GetPRGPageSize : Nat
  GetCHRPageSize : Nat
  GetSaveRamPageSize : Nat
  GetWorkRamPageSize : Nat
  GetChrRamPageSize : Nat
  GetSaveRamSize : Nat
  GetWorkRamSize : Nat
  GetChrRamSize : Nat
  RegisterStartAddress : Nat
  RegisterEndAddress : Nat
  AllowRegisterRead : Bool
  HasBusConflicts : Bool
  ForceBattery : Bool
  ReadRegister : Mapper → Nat → Nat
  WriteRegister : Nat → Nat → Mapper → Option Mapper
  InitMapper : Mapper → Option Mapper
  InitMapperRom : RomData → Mapper → Option Mapper

/-- What `BaseMapper` uses of the world outside the class: the contents of the battery file
(if it exists) and the cheat engine `CheatManager::ApplyPrgCodes(prgRom, size)`, a function of
the PRG bytes. -/
structure Env where
  batteryFile : Option Bytes
  ApplyPrgCodes : (Nat → Nat) → Nat → (Nat → Nat)

/-- The member `_prgRom` (allocated once in `Initialize`). -/
def prgRomPtr : Ptr := ⟨Arena.PrgRom, 0⟩

/-- The member `_chrRom`. -/
def chrRomPtr : Ptr := ⟨Arena.ChrRom, 0⟩

/-- The member `_saveRam`. -/
def saveRamPtr : Ptr := ⟨Arena.SaveRam, 0⟩

/-- The member `_workRam`. -/
def workRamPtr : Ptr := ⟨Arena.WorkRam, 0⟩

/-- The expression `p[idx]` as an rvalue: `none` for the null pointer or a byte outside the
arena. -/
def Mapper.load (m : Mapper) (p : Option Ptr) (idx : Nat) : Option Nat :=
  match p with
  | none => none
  | some q => if q.off + idx < m.size q.arena then some (m.mem q.arena (q.off + idx)) else none

/-- The assignment `p[idx] = value`. -/
def Mapper.store (m : Mapper) (p : Option Ptr) (idx : Nat) (value : Nat) : Option Mapper :=
  match p with
  | none => none
  | some q =>
    if q.off + idx < m.size q.arena then
      some { m with mem := fun a o => if a = q.arena ∧ o = q.off + idx then value else m.mem a o }
    else none

/-- The test `access & MemoryAccessType::X` of the bus functions. -/
def hasAccess (access flag : Nat) : Bool := access &&& flag != 0

/-! ## Page sizes and page counts -/

def InternalGetPrgPageSize (cfg : Config) (m : Mapper) : Nat :=
  min (cfg.GetPRGPageSize % 2 ^ 32) m._prgSize % 65536

def InternalGetChrPageSize (cfg : Config) (m : Mapper) : Nat :=
  min (cfg.GetCHRPageSize % 2 ^ 32) m._chrRomSize % 65536

def GetPRGPageCount (cfg : Config) (m : Mapper) : Option Nat :=
  if InternalGetPrgPageSize cfg m = 0 then none
  else some (m._prgSize / InternalGetPrgPageSize cfg m)

def GetCHRPageCount (cfg : Config) (m : Mapper) : Option Nat :=
  if InternalGetChrPageSize cfg m = 0 then none
  else some (m._chrRomSize / InternalGetChrPageSize cfg m)

/-! ## CPU mapping -/

/-- The loop of `SetCpuMemoryMapping`: `n` iterations starting at slot `i`. -/
def cpuMapLoop : Nat → Nat → Ptr → Nat → Mapper → Mapper
  | 0, _, _, _, m => m
  | n + 1, i, source, access, m =>
    cpuMapLoop n (i + 1) (source.add 0x100) access
      { m with _prgPages := upd m._prgPages i (some source)
               _prgPageAccessType := upd m._prgPageAccessType i access }

/-- The source arena, page count, page size and default access of a PRG memory type
(the `switch` of `SetCpuMemoryMapping`). -/
def prgTypeInfo (cfg : Config) (m : Mapper) : PrgMemoryType → Option (Ptr × Nat × Nat × Nat)
  | PrgMemoryType.PrgRom =>
    (GetPRGPageCount cfg m).map fun c =>
      (prgRomPtr, c, InternalGetPrgPageSize cfg m, MemoryAccessType.Read)
  | PrgMemoryType.SaveRam =>
    if cfg.GetSaveRamPageSize = 0 then none
    else some (saveRamPtr, m._saveRamSize / cfg.GetSaveRamPageSize, cfg.GetSaveRamPageSize,
      MemoryAccessType.Read ||| MemoryAccessType.Write)
  | PrgMemoryType.WorkRam =>
    if cfg.GetWorkRamPageSize = 0 then none
    else some (workRamPtr, cfg.GetWorkRamSize / cfg.GetWorkRamPageSize, cfg.GetWorkRamPageSize,
      MemoryAccessType.Read ||| MemoryAccessType.Write)

/-- The page-number adjustment of `SetCpuMemoryMapping` (lines 55-60): the new value of the
`int16_t` variable `pageNumber`. -/
def effectivePage (pageCount : Nat) (pageNumber : Int) : Option Int :=
  if pageNumber < 0 then
    some (toInt16 (((pageCount : Int) + pageNumber) % 2 ^ 32))
  else if pageCount = 0 then none
  else some (toInt16 (pageNumber % (pageCount : Int)))

def SetCpuMemoryMapping (cfg : Config) (m : Mapper) (startAddr endAddr : Nat)
    (pageNumber : Int) (type : PrgMemoryType) (accessType : Int) : Option Mapper :=
  match prgTypeInfo cfg m type with
  | none => none
  | some (source, pageCount, pageSize, defaultAccessType) =>
    match effectivePage pageCount pageNumber with
    | none => none
    | some page =>
      let source := source.add ((page * (pageSize : Int)) % 2 ^ 32).toNat
      let access := if accessType ≠ -1 then toUInt8 accessType else defaultAccessType
      some (cpuMapLoop ((endAddr >>> 8) + 1 - (startAddr >>> 8)) (startAddr >>> 8) source access m)

/-! ## Bus facade, CPU side -/

def ReadRAM (cfg : Config) (m : Mapper) (addr : Nat) : Option Nat :=
  if m._allowRegisterRead && m._isRegisterAddr addr then
    some (cfg.ReadRegister m addr)
  else if hasAccess (m._prgPageAccessType (addr >>> 8)) MemoryAccessType.Read then
    m.load (m._prgPages (addr >>> 8)) (addr &&& 0xFF)
  else
    some ((addr &&& 0xFF00) >>> 8)

def WritePrgRam (m : Mapper) (addr value : Nat) : Option Mapper :=
  if hasAccess (m._prgPageAccessType (addr >>> 8)) MemoryAccessType.Write then
    m.store (m._prgPages (addr >>> 8)) (addr &&& 0xFF) value
  else some m

def WriteRAM (cfg : Config) (m : Mapper) (addr value : Nat) : Option Mapper :=
  if m._isRegisterAddr addr then
    if m._hasBusConflicts then
      match m.load (m._prgPages (addr >>> 8)) (addr &&& 0xFF) with
      | none => none
      | some b => cfg.WriteRegister addr (value &&& b) m
    else cfg.WriteRegister addr value m
  else WritePrgRam m addr value

/-! ## PPU mapping -/

/-- The loop of the pointer overload of `SetPpuMemoryMapping`: `n` iterations starting at
slot `i`; a null source stays null. -/
def ppuMapLoop : Nat → Nat → Option Ptr → Nat → Mapper → Mapper
  | 0, _, _, _, m => m
  | n + 1, i, source, access, m =>
    ppuMapLoop n (i + 1) (source.map fun p => p.add 0x100) access
      { m with _chrPages := upd m._chrPages i source
               _chrPageAccessType := upd m._chrPageAccessType i access }

/-- The overload `SetPpuMemoryMapping(startAddr, endAddr, uint8_t* sourceMemory, accessType)`. -/
def SetPpuMemoryMappingPtr (m : Mapper) (startAddr endAddr : Nat) (sourceMemory : Option Ptr)
    (accessType : Int) : Mapper :=
  let access := if accessType ≠ -1 then toUInt8 accessType else MemoryAccessType.ReadWrite
  ppuMapLoop ((endAddr >>> 8) + 1 - (startAddr >>> 8)) (startAddr >>> 8) sourceMemory access m

/-- The source pointer, page count, page size and default access of a CHR memory type
(the `switch` of the typed `SetPpuMemoryMapping`). -/
def chrTypeInfo (cfg : Config) (m : Mapper) :
    ChrMemoryType → Option (Option Ptr × Nat × Nat × Nat)
  | ChrMemoryType.Default =>
    (GetCHRPageCount cfg m).map fun c =>
      (if m._onlyChrRam then m._chrRam else some chrRomPtr, c, InternalGetChrPageSize cfg m,
        if m._onlyChrRam then MemoryAccessType.Read ||| MemoryAccessType.Write
        else MemoryAccessType.Read)
  | ChrMemoryType.ChrRom =>
    (GetCHRPageCount cfg m).map fun c =>
      (some chrRomPtr, c, InternalGetChrPageSize cfg m, MemoryAccessType.Read)
  | ChrMemoryType.ChrRam =>
    if cfg.GetChrRamPageSize = 0 then none
    else some (m._chrRam, m._chrRamSize / cfg.GetChrRamPageSize, cfg.GetChrRamPageSize,
      MemoryAccessType.Read ||| MemoryAccessType.Write)

/-- Pointer arithmetic `p + n` where `p` may be null: null plus a non-zero offset is
undefined. -/
def ptrAdd (p : Option Ptr) (n : Nat) : Option (Option Ptr) :=
  match p with
  | some q => some (some (q.add n))
  | none => if n = 0 then some none else none

/-- The overload `SetPpuMemoryMapping(startAddr, endAddr, pageNumber, type, accessType)`. -/
def SetPpuMemoryMapping (cfg : Config) (m : Mapper) (startAddr endAddr pageNumber : Nat)
    (type : ChrMemoryType) (accessType : Int) : Option Mapper :=
  match chrTypeInfo cfg m type with
  | none => none
  | some (sourceMemory, pageCount, pageSize, defaultAccessType) =>
    if pageCount = 0 then none
    else
      match ptrAdd sourceMemory ((pageNumber % pageCount) * pageSize % 2 ^ 32) with
      | none => none
      | some source =>
        some (SetPpuMemoryMappingPtr m startAddr endAddr source
          (if accessType = -1 then (defaultAccessType : Int) else accessType))

def RemovePpuMemoryMapping (m : Mapper) (startAddr endAddr : Nat) : Mapper :=
  SetPpuMemoryMappingPtr m startAddr endAddr none (MemoryAccessType.NoAccess : Nat)

def InternalReadRam (m : Mapper) (addr : Nat) : Option Nat :=
  match m._prgPages (addr >>> 8) with
  | some p => m.load (some p) (addr &&& 0xFF)
  | none => some 0

/-! ## Page selectors -/

/-- The loop of the small-ROM branch of `SelectPRGPage`: `n` iterations starting with the
loop variable `slot`. -/
def prgRepeatLoop (cfg : Config) (memoryType : PrgMemoryType) : Nat → Nat → Mapper → Option Mapper
  | 0, _, m => some m
  | n + 1, slot, m =>
    let startAddr := (0x8000 + slot * m._prgSize) % 65536
    let endAddr := (startAddr + m._prgSize - 1) % 65536
    match SetCpuMemoryMapping cfg m startAddr endAddr 0 memoryType (-1) with
    | none => none
    | some m1 => prgRepeatLoop cfg memoryType n (slot + 1) m1

/-- `SelectPRGPage(slot, page, memoryType)`; `_prgPageNumbers` has 64 entries. -/
def SelectPRGPage (cfg : Config) (m : Mapper) (slot page : Nat) (memoryType : PrgMemoryType) :
    Option Mapper :=
  if 64 ≤ slot then none
  else
    let m1 := { m with _prgPageNumbers := upd m._prgPageNumbers slot page }
    if m1._prgSize < PrgAddressRangeSize then
      if m1._prgSize = 0 then none
      else prgRepeatLoop cfg memoryType (PrgAddressRangeSize / m1._prgSize) 0 m1
    else
      let startAddr := (0x8000 + slot * InternalGetPrgPageSize cfg m1) % 65536
      let endAddr := (startAddr + InternalGetPrgPageSize cfg m1 - 1) % 65536
      SetCpuMemoryMapping cfg m1 startAddr endAddr (toInt16 page) memoryType (-1)

def SelectPrgPage2x (cfg : Config) (m : Mapper) (slot page : Nat) (memoryType : PrgMemoryType) :
    Option Mapper :=
  (SelectPRGPage cfg m (slot * 2 % 65536) page memoryType).bind fun m1 =>
    SelectPRGPage cfg m1 ((slot * 2 + 1) % 65536) ((page + 1) % 65536) memoryType

def SelectPrgPage4x (cfg : Config) (m : Mapper) (slot page : Nat) (memoryType : PrgMemoryType) :
    Option Mapper :=
  (SelectPrgPage2x cfg m (slot * 2 % 65536) page memoryType).bind fun m1 =>
    SelectPrgPage2x cfg m1 ((slot * 2 + 1) % 65536) ((page + 2) % 65536) memoryType

/-- `SelectCHRPage(slot, page, memoryType)`; `_chrPageNumbers` has 64 entries.  The end
address `startAddr + pageSize - 1` is computed in `int` and truncated to 16 bits. -/
def SelectCHRPage (cfg : Config) (m : Mapper) (slot page : Nat) (memoryType : ChrMemoryType) :
    Option Mapper :=
  if 64 ≤ slot then none
  else
    let m1 := { m with _chrPageNumbers := upd m._chrPageNumbers slot page }
    let startAddr := (slot * InternalGetChrPageSize cfg m1) % 65536
    let endAddr := (startAddr + InternalGetChrPageSize cfg m1 + 65535) % 65536
    SetPpuMemoryMapping cfg m1 startAddr endAddr page memoryType (-1)

def SelectChrPage2x (cfg : Config) (m : Mapper) (slot page : Nat) (memoryType : ChrMemoryType) :
    Option Mapper :=
  (SelectCHRPage cfg m (slot * 2 % 65536) page memoryType).bind fun m1 =>
    SelectCHRPage cfg m1 ((slot * 2 + 1) % 65536) ((page + 1) % 65536) memoryType

def SelectChrPage4x (cfg : Config) (m : Mapper) (slot page : Nat) (memoryType : ChrMemoryType) :
    Option Mapper :=
  (SelectChrPage2x cfg m (slot * 2 % 65536) page memoryType).bind fun m1 =>
    SelectChrPage2x cfg m1 ((slot * 2 + 1) % 65536) ((page + 2) % 65536) memoryType

def SelectChrPage8x (cfg : Config) (m : Mapper) (slot page : Nat) (memoryType : ChrMemoryType) :
    Option Mapper :=
  (SelectChrPage4x cfg m slot page memoryType).bind fun m1 =>
    SelectChrPage4x cfg m1 ((slot * 2 + 1) % 65536) ((page + 4) % 65536) memoryType

/-! ## Register ranges -/

/-- The loops of `AddRegisterRange` / `RemoveRegisterRange`: `n` iterations from `i`. -/
def registerLoop (value : Bool) : Nat → Nat → (Nat → Bool) → (Nat → Bool)
  | 0, _, f => f
  | n + 1, i, f => registerLoop value n (i + 1) (upd f i value)

def AddRegisterRange (m : Mapper) (startAddr endAddr : Nat) : Mapper :=
  { m with
    _isRegisterAddr := registerLoop true (endAddr + 1 - startAddr) startAddr m._isRegisterAddr }

def RemoveRegisterRange (m : Mapper) (startAddr endAddr : Nat) : Mapper :=
  { m with
    _isRegisterAddr := registerLoop false (endAddr + 1 - startAddr) startAddr m._isRegisterAddr }

/-! ## Nametables and mirroring -/

def GetNametable (m : Mapper) (index : Nat) : Option Ptr :=
  if index ≤ 1 then m._nesNametableRam index else m._cartNametableRam (index - 2)

/-- The statement `_cartNametableRam[i] = new uint8_t[0x400]` (contents indeterminate). -/
def allocCartNametable (m : Mapper) (i : Nat) : Mapper :=
  { m with
    _cartNametableRam := upd m._cartNametableRam i (some ⟨Arena.CartNametable i, 0⟩)
    size := fun a => if a = Arena.CartNametable i then 0x400 else m.size a }

/-- The two lazy allocations at the head of `SetNametable`. -/
def lazyAllocNametable (m : Mapper) (nametableIndex : Nat) : Mapper :=
  let m1 := if nametableIndex = 2 ∧ m._cartNametableRam 0 = none then allocCartNametable m 0
    else m
  if nametableIndex = 3 ∧ m1._cartNametableRam 1 = none then allocCartNametable m1 1 else m1

/-- `SetNametable(index, nametableIndex)`; `_nametableIndexes` has 4 entries. -/
def SetNametable (m : Mapper) (index nametableIndex : Nat) : Option Mapper :=
  let m2 := lazyAllocNametable m nametableIndex
  if 4 ≤ index then none
  else
    let m3 := { m2 with _nametableIndexes := upd m2._nametableIndexes index nametableIndex }
    some (SetPpuMemoryMappingPtr m3 ((0x2000 + index * 0x400) % 65536)
      ((0x2000 + (index + 1) * 0x400 - 1) % 65536) (GetNametable m3 nametableIndex) (-1))

def SetNametables (m : Mapper) (nametable1Index nametable2Index nametable3Index
    nametable4Index : Nat) : Option Mapper :=
  (SetNametable m 0 nametable1Index).bind fun m1 =>
  (SetNametable m1 1 nametable2Index).bind fun m2 =>
  (SetNametable m2 2 nametable3Index).bind fun m3 =>
  SetNametable m3 3 nametable4Index

def SetMirroringType (m : Mapper) (type : MirroringType) : Option Mapper :=
  let m1 := { m with _mirroringType := type }
  match type with
  | MirroringType.Vertical => SetNametables m1 0 1 0 1
  | MirroringType.Horizontal => SetNametables m1 0 0 1 1
  | MirroringType.FourScreens => SetNametables m1 0 1 2 3
  | MirroringType.ScreenAOnly => SetNametables m1 0 0 0 0
  | MirroringType.ScreenBOnly => SetNametables m1 1 1 1 1

def SetDefaultNametables (m : Mapper) (nametableA nametableB : Option Ptr) : Option Mapper :=
  SetMirroringType
    { m with _nesNametableRam := upd (upd m._nesNametableRam 0 nametableA) 1 nametableB }
    m._mirroringType

/-- Nametable slots `i` and `j` hold the same pointers: the four page-table entries
`0x20 + 4*i ..` and `0x20 + 4*j ..` agree. -/
def sameNametableSlot (m : Mapper) (i j : Nat) : Prop :=
  ∀ k, k < 4 → m._chrPages (0x20 + 4 * i + k) = m._chrPages (0x20 + 4 * j + k)

/-- The cartridge nametable pointers 0 and 1 are null or the blocks `SetNametable`
allocated. -/
def CartNametablesOwned (m : Mapper) : Prop :=
  (m._cartNametableRam 0 = none ∨ m._cartNametableRam 0 = some ⟨Arena.CartNametable 0, 0⟩) ∧
  (m._cartNametableRam 1 = none ∨ m._cartNametableRam 1 = some ⟨Arena.CartNametable 1, 0⟩)

/-- A pointer into a buffer owned by the caller. -/
def Ptr.isHost (p : Ptr) : Prop := ∃ i, p.arena = Arena.Host i

/-- The pointer `GetNametable(nt)` yields inside `SetNametable(_, nt)` for `nt < 4` when the
cartridge nametables are owned: NES nametable A or B, or cartridge block 0 or 1. -/
def nametablePointer (m : Mapper) (nt : Nat) : Option Ptr :=
  if nt ≤ 1 then m._nesNametableRam nt else some ⟨Arena.CartNametable (nt - 2), 0⟩

/-- The nametable index is one `SetNametable` resolves to a known page: an NES nametable, or
a cartridge nametable of a mapper that owns its cartridge nametables. -/
def NametableOk (m : Mapper) (nt : Nat) : Prop :=
  nt ≤ 1 ∨ (nt < 4 ∧ CartNametablesOwned m)

/-- What one `SetNametable(index, nt)` call does to the mapper, field by field. -/
structure NametableStep (m m2 : Mapper) (index nt : Nat) : Prop where
  owned : CartNametablesOwned m → CartNametablesOwned m2
  sizeNes : nt ≤ 1 → m2.size = m.size
  nes : m2._nesNametableRam = m._nesNametableRam
  mirroring : m2._mirroringType = m._mirroringType
  indexes : m2._nametableIndexes = upd m._nametableIndexes index nt
  pages : ∀ j, m2._chrPages j =
    if 0x20 + 4 * index ≤ j ∧ j ≤ 0x23 + 4 * index then
      (nametablePointer m nt).map (fun p => p.add ((j - (0x20 + 4 * index)) * 0x100))
    else m._chrPages j
  access : ∀ j, m2._chrPageAccessType j =
    if 0x20 + 4 * index ≤ j ∧ j ≤ 0x23 + 4 * index then MemoryAccessType.ReadWrite
    else m._chrPageAccessType j
  mem : m2.mem = m.mem
  size : ∀ a, (∀ i, a ≠ Arena.CartNametable i) → m2.size a = m.size a
  rest :
    { m2 with
      _cartNametableRam := m._cartNametableRam
      size := m.size
      _nametableIndexes := m._nametableIndexes
      _chrPages := m._chrPages
      _chrPageAccessType := m._chrPageAccessType } = m

/-! ## Bus facade, PPU side -/

def ReadVRAM (m : Mapper) (addr : Nat) : Option Nat :=
  if hasAccess (m._chrPageAccessType (addr >>> 8)) MemoryAccessType.Read then
    m.load (m._chrPages (addr >>> 8)) (addr &&& 0xFF)
  else some 0

def WriteVRAM (m : Mapper) (addr value : Nat) : Option Mapper :=
  if hasAccess (m._chrPageAccessType (addr >>> 8)) MemoryAccessType.Write then
    m.store (m._chrPages (addr >>> 8)) (addr &&& 0xFF) value
  else some m

/-! ## Battery, cheats and initialisation -/

/-- A mapper object with every member zero / null and empty arenas. -/
def zeroMapper : Mapper where
  mem := fun _ _ => 0
  size := fun _ => 0
  _prgSize := 0
  _chrRomSize := 0
  _chrRamSize := 0
  _saveRamSize := 0
  _chrRam := none
  _onlyChrRam := false
  _hasBattery := false
  _allowRegisterRead := false
  _hasBusConflicts := false
  _mirroringType := MirroringType.Horizontal
  _isRegisterAddr := fun _ => false
  _prgPages := fun _ => none
  _prgPageAccessType := fun _ => 0
  _chrPages := fun _ => none
  _chrPageAccessType := fun _ => 0
  _prgPageNumbers := fun _ => 0
  _chrPageNumbers := fun _ => 0
  _nametableIndexes := fun _ => 0
  _nesNametableRam := fun _ => none
  _cartNametableRam := fun _ => none
  _originalPrgRom := ⟨0, fun _ => 0⟩

/-- `LoadBattery()`: the bytes of the battery file, if there is one, are read into save RAM
(at most `_saveRamSize` of them); then save RAM is mapped at `0x6000-0x7FFF`. -/
def LoadBattery (cfg : Config) (env : Env) (m : Mapper) : Option Mapper :=
  let m1 := match env.batteryFile with
    | some bytes =>
      { m with mem := fun a o =>
          if a = Arena.SaveRam ∧ o < min bytes.size m._saveRamSize then bytes.get o
          else m.mem a o }
    | none => m
  SetCpuMemoryMapping cfg m1 0x6000 0x7FFF 0 PrgMemoryType.SaveRam (-1)

/-- `SaveBattery()`: the bytes written to the battery file. -/
def SaveBattery (m : Mapper) : Bytes :=
  ⟨m._saveRamSize, m.mem Arena.SaveRam⟩

def RestoreOriginalPrgRam (m : Mapper) : Mapper :=
  { m with mem := fun a o =>
      if a = Arena.PrgRom ∧ o < m._originalPrgRom.size then m._originalPrgRom.get o
      else m.mem a o }

def ApplyCheats (env : Env) (m : Mapper) : Mapper :=
  let m1 := RestoreOriginalPrgRam m
  { m1 with mem := fun a o =>
      if a = Arena.PrgRom then env.ApplyPrgCodes (m1.mem Arena.PrgRom) m1._prgSize o
      else m1.mem a o }

def InitializeChrRam (cfg : Config) (m : Mapper) : Mapper :=
  let m1 := { m with _chrRamSize := cfg.GetChrRamSize % 2 ^ 32 }
  if 0 < m1._chrRamSize then
    { m1 with
      _chrRam := some ⟨Arena.ChrRam, 0⟩
      size := fun a => if a = Arena.ChrRam then m1._chrRamSize else m1.size a
      mem := fun a o => if a = Arena.ChrRam then 0 else m1.mem a o }
  else m1

/-- `Initialize(romData)`, from an object whose members hold their defaults (null pointers,
zero sizes, `false`): the members that `Initialize` does not assign keep them. -/
def Initialize (cfg : Config) (env : Env) (romData : RomData) : Option Mapper :=
  let m0 : Mapper :=
    { zeroMapper with
      _saveRamSize := cfg.GetSaveRamSize % 2 ^ 32
      _allowRegisterRead := cfg.AllowRegisterRead
      _mirroringType := romData.MirroringType
      _prgSize := romData.PrgRom.size % 2 ^ 32
      _chrRomSize := romData.ChrRom.size % 2 ^ 32
      _originalPrgRom := romData.PrgRom
      _hasBattery := romData.HasBattery || cfg.ForceBattery
      _hasBusConflicts := cfg.HasBusConflicts
      mem := fun a o =>
        if a = Arena.PrgRom then romData.PrgRom.get o
        else if a = Arena.ChrRom then romData.ChrRom.get o
        else 0
      size := fun a =>
        if a = Arena.PrgRom then romData.PrgRom.size % 2 ^ 32
        else if a = Arena.ChrRom then romData.ChrRom.size % 2 ^ 32
        else if a = Arena.SaveRam then cfg.GetSaveRamSize % 2 ^ 32
        else if a = Arena.WorkRam then cfg.GetWorkRamSize
        else 0
      _prgPageNumbers := fun _ => pageSentinel
      _chrPageNumbers := fun _ => pageSentinel
      _cartNametableRam := fun _ => none
      _nametableIndexes := fun _ => 0
      _prgPages := fun _ => none
      _prgPageAccessType := fun _ => MemoryAccessType.NoAccess
      _chrPages := fun _ => none
      _chrPageAccessType := fun _ => MemoryAccessType.NoAccess }
  let m1 := AddRegisterRange { m0 with _isRegisterAddr := fun _ => false }
    cfg.RegisterStartAddress cfg.RegisterEndAddress
  (if m1._hasBattery then LoadBattery cfg env m1 else some m1).bind fun m2 =>
  let m3 :=
    if m2._chrRomSize = 0 then
      let c := InitializeChrRam cfg { m2 with _onlyChrRam := true }
      { c with _chrRomSize := c._chrRamSize }
    else m2
  (SetCpuMemoryMapping cfg m3 0x6000 0x7FFF 0
    (if m3._hasBattery then PrgMemoryType.SaveRam else PrgMemoryType.WorkRam) (-1)).bind fun m4 =>
  (cfg.InitMapper m4).bind fun m5 =>
  (cfg.InitMapperRom romData m5).bind fun m6 =>
  some (ApplyCheats env m6)

/-! ## Save states -/

/-- The values `StreamState` writes to or reads from the stream, in stream order: CHR RAM,
mirroring type, work RAM, save RAM, the 64 PRG and 64 CHR page numbers, the 4 nametable
indexes. -/
structure Snapshot where
  chrRam : Nat → Nat
  mirroringType : MirroringType
  workRam : Nat → Nat
  saveRam : Nat → Nat
  prgPageNumbers : Nat → Nat
  chrPageNumbers : Nat → Nat
  nametableIndexes : Nat → Nat

/-- The first loop of `StreamState(false)`: `n` iterations from slot `i`. -/
def replayPrgPages (cfg : Config) : Nat → Nat → Mapper → Option Mapper
  | 0, _, m => some m
  | n + 1, i, m =>
    if m._prgPageNumbers i ≠ pageSentinel then
      (SelectPRGPage cfg m i (m._prgPageNumbers i % 65536) PrgMemoryType.PrgRom).bind
        (replayPrgPages cfg n (i + 1))
    else replayPrgPages cfg n (i + 1) m

/-- The second loop of `StreamState(false)`: `n` iterations from slot `i`. -/
def replayChrPages (cfg : Config) : Nat → Nat → Mapper → Option Mapper
  | 0, _, m => some m
  | n + 1, i, m =>
    if m._chrPageNumbers i ≠ pageSentinel then
      (SelectCHRPage cfg m i (m._chrPageNumbers i % 65536) ChrMemoryType.Default).bind
        (replayChrPages cfg n (i + 1))
    else replayChrPages cfg n (i + 1) m

/-- The third loop of `StreamState(false)`: `n` iterations from slot `i`. -/
def replayNametables : Nat → Nat → Mapper → Option Mapper
  | 0, _, m => some m
  | n + 1, i, m => (SetNametable m i (m._nametableIndexes i)).bind (replayNametables n (i + 1))

/-- The `Stream` / `StreamArray` calls of `StreamState` when saving: what goes to the
stream. -/
def saveSnapshot (cfg : Config) (m : Mapper) : Snapshot where
  chrRam := fun i => if i < m._chrRamSize then m.mem Arena.ChrRam i else 0
  mirroringType := m._mirroringType
  workRam := fun i => if i < cfg.GetWorkRamSize then m.mem Arena.WorkRam i else 0
  saveRam := fun i => if i < m._saveRamSize then m.mem Arena.SaveRam i else 0
  prgPageNumbers := fun i => if i < 64 then m._prgPageNumbers i else 0
  chrPageNumbers := fun i => if i < 64 then m._chrPageNumbers i else 0
  nametableIndexes := fun i => if i < 4 then m._nametableIndexes i else 0

/-- The `Stream` / `StreamArray` calls of `StreamState` when loading: the members take the
values of the stream. -/
def loadSnapshot (cfg : Config) (m : Mapper) (stream : Snapshot) : Mapper :=
  { m with
    mem := fun a o =>
      if a = Arena.ChrRam ∧ o < m._chrRamSize then stream.chrRam o
      else if a = Arena.WorkRam ∧ o < cfg.GetWorkRamSize then stream.workRam o
      else if a = Arena.SaveRam ∧ o < m._saveRamSize then stream.saveRam o
      else m.mem a o
    _mirroringType := stream.mirroringType
    _prgPageNumbers := fun i => if i < 64 then stream.prgPageNumbers i else m._prgPageNumbers i
    _chrPageNumbers := fun i => if i < 64 then stream.chrPageNumbers i else m._chrPageNumbers i
    _nametableIndexes := fun i =>
      if i < 4 then stream.nametableIndexes i else m._nametableIndexes i }

/-- `StreamState(saving)` against a stream holding `stream`: saving leaves the mapper alone
and produces the stream contents; loading copies the stream into the members and replays the
page selections. -/
def StreamState (cfg : Config) (saving : Bool) (m : Mapper) (stream : Snapshot) :
    Option (Mapper × Snapshot) :=
  if saving then some (m, saveSnapshot cfg m)
  else
    ((replayPrgPages cfg 64 0 (loadSnapshot cfg m stream)).bind fun m2 =>
      (replayChrPages cfg 64 0 m2).bind fun m3 =>
      replayNametables 4 0 m3).map fun m4 => (m4, stream)

/-- The calls of a concrete mapper that the save state replays. -/
inductive Call where
  | selectPrg (slot page : Nat)
  | selectChr (slot page : Nat)
  | setNametable (slot index : Nat)
  deriving DecidableEq, Repr

/-- One call with the default memory types (`PrgRom`, `Default`). -/
def Call.run (cfg : Config) (m : Mapper) : Call → Option Mapper
  | Call.selectPrg slot page => SelectPRGPage cfg m slot page PrgMemoryType.PrgRom
  | Call.selectChr slot page => SelectCHRPage cfg m slot page ChrMemoryType.Default
  | Call.setNametable slot index => SetNametable m slot index

/-- A sequence of calls, first to last. -/
def runCalls (cfg : Config) : List Call → Mapper → Option Mapper
  | [], m => some m
  | c :: cs, m => (c.run cfg m).bind (runCalls cfg cs)

/-! ## Page tables as values, and patches of page tables

Used to compare the page tables a sequence of calls builds with the page tables the replay of
a save state builds. -/

/-- One page-table entry: the pointer and the access byte. -/
abbrev Entry := Option Ptr × Nat

/-- Both page tables: the PRG table at `false`, the CHR table at `true`. -/
abbrev Tables := Bool → Nat → Entry

/-- New values for some entries of the page tables. -/
abbrev Patch := Bool → Nat → Option Entry

def Mapper.tables (m : Mapper) : Tables := fun b j =>
  if b then (m._chrPages j, m._chrPageAccessType j) else (m._prgPages j, m._prgPageAccessType j)

def Patch.apply (P : Patch) (t : Tables) : Tables := fun b j =>
  match P b j with
  | some e => e
  | none => t b j

/-- The patch that overwrites the entries `lo .. hi` of one table with consecutive 256-byte
steps from `src` and the access byte `access`. -/
def windowPatch (lo hi : Nat) (src : Option Ptr) (access : Nat) : Nat → Option Entry := fun j =>
  if lo ≤ j ∧ j ≤ hi then some (src.map (fun p => p.add ((j - lo) * 0x100)), access) else none

/-- Replay of the selections recorded in `num`, for the `n` slots from `i`, in ascending
order: slot `k` applies `patchOf k (num k)` when `live k (num k)`. -/
def tableReplay (patchOf : Nat → Nat → Patch) (live : Nat → Nat → Bool) (num : Nat → Nat) :
    Nat → Nat → Tables → Tables
  | 0, _, t => t
  | n + 1, i, t =>
    tableReplay patchOf live num n (i + 1)
      (if live i (num i) then (patchOf i (num i)).apply t else t)

/-- Patches of different slots agree wherever both write, and the entries a slot writes do
not depend on the selected value. -/
def PatchFamily (patchOf : Nat → Nat → Patch) : Prop :=
  (∀ i k v w b j, i ≠ k →
    patchOf i v b j = none ∨ patchOf k w b j = none ∨ patchOf i v b j = patchOf k w b j) ∧
  (∀ i v w b j, patchOf i w b j ≠ none → patchOf i v b j ≠ none)

/-- The mapper with some entries of its PRG page table overwritten. -/
def Mapper.patchPrg (m : Mapper) (P : Nat → Option Entry) : Mapper :=
  { m with
    _prgPages := fun j =>
      match P j with
      | some e => e.1
      | none => m._prgPages j
    _prgPageAccessType := fun j =>
      match P j with
      | some e => e.2
      | none => m._prgPageAccessType j }

/-- The mapper with some entries of its CHR page table overwritten. -/
def Mapper.patchChr (m : Mapper) (P : Nat → Option Entry) : Mapper :=
  { m with
    _chrPages := fun j =>
      match P j with
      | some e => e.1
      | none => m._chrPages j
    _chrPageAccessType := fun j =>
      match P j with
      | some e => e.2
      | none => m._chrPageAccessType j }

/-- The entries the small-ROM loop of `SelectPRGPage` writes for a ROM of `sz` bytes, `n`
iterations from `slot`: the later iteration wins where two iterations write the same entry. -/
def prgRepeatPatch (sz : Nat) : Nat → Nat → Nat → Option Entry
  | 0, _ => fun _ => none
  | n + 1, slot => fun j =>
    match prgRepeatPatch sz n (slot + 1) j with
    | some e => some e
    | none =>
      windowPatch ((0x8000 + slot * sz) % 65536 / 256)
        (((0x8000 + slot * sz) % 65536 + sz - 1) % 65536 / 256)
        (some prgRomPtr) MemoryAccessType.Read j

/-- The byte offset into PRG-ROM that `SetCpuMemoryMapping` computes for the page `p` handed
to `SelectPRGPage` (`0` where the computation is undefined). -/
def prgPageOffset (cfg : Config) (F : Mapper) (p : Nat) : Nat :=
  ((GetPRGPageCount cfg F).bind fun cnt =>
    (effectivePage cnt (toInt16 p)).map fun page =>
      ((page * (InternalGetPrgPageSize cfg F : Int)) % 2 ^ 32).toNat).getD 0

/-- The entries `SelectPRGPage(s, p, PrgRom)` writes on a cartridge with the sizes of `F`:
everything the small-ROM loop writes, or the window of slot `s` when it lies inside
`0x8000-0xFFFF`. -/
def prgPatch (cfg : Config) (F : Mapper) (s p : Nat) : Nat → Option Entry :=
  if F._prgSize < PrgAddressRangeSize then
    prgRepeatPatch F._prgSize (PrgAddressRangeSize / F._prgSize) 0
  else if s < 64 ∧ 0x8000 + (s + 1) * InternalGetPrgPageSize cfg F ≤ 0x10000 then
    windowPatch ((0x8000 + s * InternalGetPrgPageSize cfg F) / 256)
      ((0x8000 + s * InternalGetPrgPageSize cfg F + InternalGetPrgPageSize cfg F - 1) / 256)
      (some ⟨Arena.PrgRom, prgPageOffset cfg F p⟩) MemoryAccessType.Read
  else fun _ => none

/-- The source pointer the typed `SetPpuMemoryMapping` computes for page `p` of the `Default`
CHR memory type. -/
def chrSource (cfg : Config) (F : Mapper) (p : Nat) : Option Ptr :=
  (chrTypeInfo cfg F ChrMemoryType.Default).bind fun info =>
    info.1.map (fun q => q.add ((p % info.2.1) * info.2.2.1 % 2 ^ 32))

/-- The default access of the `Default` CHR memory type. -/
def chrDefaultAccess (F : Mapper) : Nat :=
  if F._onlyChrRam then MemoryAccessType.Read ||| MemoryAccessType.Write
  else MemoryAccessType.Read

/-- The entries `SelectCHRPage(s, p, Default)` writes when the window of slot `s` lies inside
`0x0000-0x1FFF`. -/
def chrPatch (cfg : Config) (F : Mapper) (s p : Nat) : Nat → Option Entry :=
  if s < 64 ∧ (s + 1) * InternalGetChrPageSize cfg F ≤ 0x2000 then
    windowPatch (s * InternalGetChrPageSize cfg F / 256)
      ((s * InternalGetChrPageSize cfg F + InternalGetChrPageSize cfg F - 1) / 256)
      (chrSource cfg F p) (chrDefaultAccess F)
  else fun _ => none

/-- The entries `SetNametable(s, v)` writes. -/
def ntPatch (F : Mapper) (s v : Nat) : Nat → Option Entry :=
  if s < 4 then
    windowPatch (0x20 + 4 * s) (0x23 + 4 * s) (nametablePointer F v) MemoryAccessType.ReadWrite
  else fun _ => none

/-- The selections a save state replays, numbered in replay order: PRG slots are `0..63`, CHR
slots `64..127`, nametable slots `128..131`. -/
def replayPatch (cfg : Config) (F : Mapper) (i v : Nat) : Patch := fun b j =>
  if i < 64 then (if b then none else prgPatch cfg F i v j)
  else if i < 128 then (if b then chrPatch cfg F (i - 64) v j else none)
  else (if b then ntPatch F (i - 128) v j else none)

/-- The members that neither `SetNametable` nor the PPU mapping touches. -/
def Mapper.core (m : Mapper) :=
  (m._prgSize, m._chrRomSize, m._onlyChrRam, m._chrRam, m._prgPageNumbers, m._chrPageNumbers,
    m._prgPages, m._prgPageAccessType)

/-- Whether the replay acts on slot `i` holding `v`: page numbers other than the sentinel, and
every nametable index. -/
def replayLive (i v : Nat) : Bool := if i < 128 then v != pageSentinel else true

/-- The value recorded for replay slot `i`. -/
def Mapper.replayNumbers (m : Mapper) (i : Nat) : Nat :=
  if i < 64 then m._prgPageNumbers i
  else if i < 128 then m._chrPageNumbers (i - 64)
  else m._nametableIndexes (i - 128)

/-- The conditions on the page sizes of a cartridge under which the page selections can be
replayed in any order: the PRG and CHR page sizes in use are positive, the CHR page size is a
multiple of 256, the PRG page size too when the ROM has at least 32 KiB (below that every
selection maps the whole ROM), and the `Default` CHR memory exists. -/
structure ReplayConfig (cfg : Config) (F : Mapper) : Prop where
  prgPos : 0 < InternalGetPrgPageSize cfg F
  prgAligned : 0x8000 ≤ F._prgSize → InternalGetPrgPageSize cfg F % 256 = 0
  chrPos : 0 < InternalGetChrPageSize cfg F
  chrAligned : InternalGetChrPageSize cfg F % 256 = 0
  chrSrc : F._onlyChrRam = true → F._chrRam ≠ none

/-- The mapper `m` belongs to the same cartridge as `F`: same sizes, same CHR memory, same NES
nametables, and it owns its cartridge nametables. -/
structure SameCartridge (F m : Mapper) : Prop where
  prgSize : m._prgSize = F._prgSize
  chrRomSize : m._chrRomSize = F._chrRomSize
  onlyChrRam : m._onlyChrRam = F._onlyChrRam
  chrRam : m._chrRam = F._chrRam
  nes : m._nesNametableRam = F._nesNametableRam
  owned : CartNametablesOwned m

/-- The calls whose windows do not leave their area: a PRG slot below 64 whose window ends at
or before `0x10000` (for a ROM of at least 32 KiB), a CHR slot below 64 whose window ends at or
before `0x2000`, a nametable slot and a nametable index below 4; page numbers are 16-bit. -/
def Call.ok (cfg : Config) (F : Mapper) : Call → Prop
  | Call.selectPrg s p =>
    s < 64 ∧ p < 65536 ∧
      (0x8000 ≤ F._prgSize → 0x8000 + (s + 1) * InternalGetPrgPageSize cfg F ≤ 0x10000)
  | Call.selectChr s p =>
    s < 64 ∧ p < 65536 ∧ (s + 1) * InternalGetChrPageSize cfg F ≤ 0x2000
  | Call.setNametable s v => s < 4 ∧ v < 4

/-- The replay slot of a call. -/
def Call.slot : Call → Nat
  | Call.selectPrg s _ => s
  | Call.selectChr s _ => 64 + s
  | Call.setNametable s _ => 128 + s

/-- The value a call records. -/
def Call.value : Call → Nat
  | Call.selectPrg _ p => p
  | Call.selectChr _ p => p
  | Call.setNametable _ v => v

/-- The call the replay makes for slot `i` holding `v`. -/
def slotCall (i v : Nat) : Call :=
  if i < 64 then Call.selectPrg i v
  else if i < 128 then Call.selectChr (i - 64) v
  else Call.setNametable (i - 128) v

/-- Every recorded value the replay acts on belongs to a call whose window does not leave its
area. -/
def NumbersOk (cfg : Config) (F m : Mapper) : Prop :=
  ∀ i, i < 132 → replayLive i (m.replayNumbers i) = true →
    (slotCall i (m.replayNumbers i)).ok cfg F

/-- The members that `SetCpuMemoryMapping` never writes and the replay depends on. -/
def Mapper.frame (m : Mapper) :=
  (m._prgPageNumbers, m._chrPageNumbers, m._cartNametableRam, m._onlyChrRam, m._chrRam,
    m._chrRomSize)

/-- No page was selected yet, no cartridge nametable was allocated, and a mapper that has only
CHR RAM but no CHR RAM block has no CHR memory at all. -/
def Fresh (m : Mapper) : Prop :=
  (∀ i, m._prgPageNumbers i = pageSentinel) ∧ (∀ i, m._chrPageNumbers i = pageSentinel) ∧
    (∀ i, m._cartNametableRam i = none) ∧
    (m._onlyChrRam = true → m._chrRam = none → m._chrRomSize = 0)

/-- A stream with nothing in it. -/
def emptySnapshot : Snapshot :=
  ⟨fun _ => 0, MirroringType.Horizontal, fun _ => 0, fun _ => 0, fun _ => 0, fun _ => 0,
    fun _ => 0⟩

/-- Save the state of `S` with `StreamState(true)`, then load the saved stream into `F` with
`StreamState(false)`. -/
def saveThenRestore (cfg : Config) (F S : Mapper) : Option Mapper :=
  (StreamState cfg true S emptySnapshot).bind fun r =>
    (StreamState cfg false F r.2).map fun q => q.1

/-! ## Concrete mappers used to instantiate the theorems -/

/-- A concrete mapper class: 16 KiB PRG pages, 8 KiB CHR pages, registers at
`0x8000-0xFFFF`, register hooks that do nothing. -/
def demoConfig : Config where
  GetPRGPageSize := 0x4000
  GetCHRPageSize := 0x2000
  GetSaveRamPageSize := 0x2000
  GetWorkRamPageSize := 0x2000
  GetChrRamPageSize := 0x2000
  GetSaveRamSize := 0x2000
  GetWorkRamSize := 0x2000
  GetChrRamSize := 0x2000
  RegisterStartAddress := 0x8000
  RegisterEndAddress := 0xFFFF
  AllowRegisterRead := false
  HasBusConflicts := false
  ForceBattery := false
  ReadRegister := fun _ _ => 0
  WriteRegister := fun _ _ m => some m
  InitMapper := fun m => some m
  InitMapperRom := fun _ m => some m

/-- A 32 KiB PRG-ROM whose byte at offset `o` is `o % 256`, except that offset 0 holds
`0b10110000`; slot `0x80` maps its first 256 bytes read-only, `0x8000` is a register
address and the cartridge has bus conflicts. -/
def busConflictMapper : Mapper :=
  { zeroMapper with
    mem := fun a o => if a = Arena.PrgRom then (if o = 0 then 0b10110000 else o % 256) else 0
    size := fun a => if a = Arena.PrgRom then 0x8000 else 0
    _prgSize := 0x8000
    _hasBusConflicts := true
    _isRegisterAddr := fun a => decide (a = 0x8000)
    _prgPages := fun i => if i = 0x80 then some prgRomPtr else none
    _prgPageAccessType := fun i => if i = 0x80 then MemoryAccessType.Read else 0 }

/-- The class `demoConfig` with a register that latches the written value as the page
number of PRG slot 0. -/
def latchConfig : Config :=
  { demoConfig with
    WriteRegister := fun _ value m =>
      some { m with _prgPageNumbers := upd m._prgPageNumbers 0 value } }

/-- A mapper whose slot `0x60` maps 256 bytes of work RAM read/write; every other slot,
slot `0x50` included, is unmapped with `NoAccess`. -/
def workRamMapper : Mapper :=
  { zeroMapper with
    size := fun a => if a = Arena.WorkRam then 0x2000 else 0
    _prgPages := fun i => if i = 0x60 then some workRamPtr else none
    _prgPageAccessType := fun i => if i = 0x60 then MemoryAccessType.ReadWrite else 0 }

/-- A cartridge with 128 KiB of PRG-ROM (the byte at offset `o` is `o % 251`), 8 KiB of
work RAM and empty page tables. -/
def prg128Mapper : Mapper :=
  { zeroMapper with
    mem := fun a o => if a = Arena.PrgRom then o % 251 else 0
    size := fun a =>
      if a = Arena.PrgRom then 0x20000 else if a = Arena.WorkRam then 0x2000 else 0
    _prgSize := 0x20000 }

/-- A cartridge with `32769 * 256` bytes of PRG-ROM, for a mapper class with 256-byte PRG
pages (32769 pages). -/
def prgHugeMapper : Mapper :=
  { zeroMapper with
    mem := fun a o => if a = Arena.PrgRom then o % 251 else 0
    size := fun a => if a = Arena.PrgRom then 8388864 else 0
    _prgSize := 8388864 }

/-- The class `demoConfig` with 256-byte PRG pages. -/
def smallPageConfig : Config :=
  { demoConfig with GetPRGPageSize := 0x100 }

/-- The class `demoConfig` with a register read hook that answers `0xAB` everywhere. -/
def readableConfig : Config :=
  { demoConfig with AllowRegisterRead := true, ReadRegister := fun _ _ => 0xAB }

/-- The 128 KiB cartridge with readable registers at `0x8000-0xFFFF`. -/
def prg128ReadableMapper : Mapper :=
  { prg128Mapper with
    _allowRegisterRead := true
    _isRegisterAddr := fun a => decide (0x8000 ≤ a ∧ a ≤ 0xFFFF) }

/-- A cartridge with 16 KiB of PRG-ROM (the byte at offset `o` is `o % 251`). -/
def prg16Mapper : Mapper :=
  { zeroMapper with
    mem := fun a o => if a = Arena.PrgRom then o % 251 else 0
    size := fun a => if a = Arena.PrgRom then 0x4000 else 0
    _prgSize := 0x4000 }

/-- The class `demoConfig` with a PRG page size of zero. -/
def zeroPageConfig : Config :=
  { demoConfig with GetPRGPageSize := 0 }

/-- A mapper that was handed two 1 KiB NES nametables, the host buffers 0 and 1. -/
def nametableMapper : Mapper :=
  { zeroMapper with
    size := fun a => if a = Arena.Host 0 ∨ a = Arena.Host 1 then 0x400 else 0
    _nesNametableRam := fun i =>
      if i = 0 then some ⟨Arena.Host 0, 0⟩ else if i = 1 then some ⟨Arena.Host 1, 0⟩ else none }

/-- A ROM image with 32 KiB of PRG-ROM and 8 KiB of CHR-ROM, horizontal mirroring, no
battery. -/
def demoRom : RomData where
  PrgRom := ⟨0x8000, fun o => o % 251⟩
  ChrRom := ⟨0x2000, fun o => o % 241⟩
  MirroringType := MirroringType.Horizontal
  HasBattery := false

/-- No battery file and no cheats. -/
def demoEnv : Env where
  batteryFile := none
  ApplyPrgCodes := fun prg _ => prg

/-- The class `demoConfig` with 8 KiB PRG pages, so that PRG slots 0 and 8 share the window
`0x8000-0x9FFF` (`0x8000 + 8 * 0x2000` is `0x8000` in 16 bits). -/
def bankConfig : Config :=
  { demoConfig with GetPRGPageSize := 0x2000 }

/-- A mapper whose CHR slot 0 maps the first 256 bytes of an 8 KiB CHR RAM read/write; every
other slot is unmapped with `NoAccess`. -/
def chrRamMapper : Mapper :=
  { zeroMapper with
    size := fun a => if a = Arena.ChrRam then 0x2000 else 0
    _chrRamSize := 0x2000
    _chrRam := some ⟨Arena.ChrRam, 0⟩
    _chrPages := fun i => if i = 0 then some ⟨Arena.ChrRam, 0⟩ else none
    _chrPageAccessType := fun i => if i = 0 then MemoryAccessType.ReadWrite else 0 }

/-- Conversion of an integer to `int32_t` (two's complement truncation). -/
def toInt32 (x : Int) : Int :=
  let r := x % 2 ^ 32
  if r < 2 ^ 31 then r else r - 2 ^ 32

/-- `ToAbsoluteAddress(addr)`.  The two comparisons with the PRG-ROM block are made on
addresses: a pointer into another arena is outside `[_prgRom, _prgRom + _prgSize)`, and so is
the address `addr & 0xFF` that a null slot gives, which lies below every allocated block.  The
difference `prgAddr - _prgRom` goes through `uint32_t` to the `int32_t` result. -/
def ToAbsoluteAddress (m : Mapper) (addr : Nat) : Int :=
  match m._prgPages (addr >>> 8) with
  | some p =>
    let prgAddr := p.add (addr &&& 0xFF)
    if prgAddr.arena = Arena.PrgRom ∧ prgAddr.off < m._prgSize then
      toInt32 ((prgAddr.off % 2 ^ 32 : Nat) : Int)
    else -1
  | none => -1

/-- The loop of `FromAbsoluteAddress` and the `return -1` after it: `n` slots from `i`.  The
comparisons of `_prgRom + addr` with a page pointer are made on addresses. -/
def fromAbsoluteLoop (m : Mapper) (addr : Nat) : Nat → Nat → Int
  | 0, _ => -1
  | n + 1, i =>
    match m._prgPages i with
    | some pageAddress =>
      if pageAddress.arena = Arena.PrgRom ∧ pageAddress.off ≤ addr ∧
          addr ≤ pageAddress.off + 0xFF then
        toInt32 ((((i <<< 8) + (addr - pageAddress.off) % 2 ^ 32) % 2 ^ 32 : Nat) : Int)
      else fromAbsoluteLoop m addr n (i + 1)
    | none => fromAbsoluteLoop m addr n (i + 1)

def FromAbsoluteAddress (m : Mapper) (addr : Nat) : Int :=
  fromAbsoluteLoop m (addr % 2 ^ 32) 256 0

/-- Slot `i` holds a non-null pointer whose 256-byte window contains the byte
`_prgRom + off`. -/
def coversByte (m : Mapper) (off i : Nat) : Prop :=
  ∃ p, m._prgPages i = some p ∧ p.arena = Arena.PrgRom ∧ p.off ≤ off ∧ off ≤ p.off + 0xFF

/-- The 128 KiB cartridge with its last 16 KiB mapped at `0xC000-0xFFFF` and again, one page
further, at `0x8000-0xBFFF` shifted by 256 bytes: slot `0x80 + k` and slot `0xC0 + k + 1` hold
the same pointer. -/
def prg128MappedMapper : Mapper :=
  { prg128Mapper with
    _prgPages := fun i =>
      if 0xC0 ≤ i ∧ i ≤ 0xFF then some ⟨Arena.PrgRom, 0x1C000 + (i - 0xC0) * 0x100⟩
      else if 0x80 ≤ i ∧ i ≤ 0xBF then some ⟨Arena.PrgRom, 0x1C100 + (i - 0x80) * 0x100⟩
      else none
    _prgPageAccessType := fun i => if 0x80 ≤ i ∧ i ≤ 0xFF then MemoryAccessType.Read else 0 }

/-- The members as `Initialize` has set them when it reaches the `HasBattery()` test (lines
307-354 of the source): the first stage of `Initialize`. -/
def initialMembers (cfg : Config) (romData : RomData) : Mapper :=
  AddRegisterRange
    { zeroMapper with
      _saveRamSize := cfg.GetSaveRamSize % 2 ^ 32
      _allowRegisterRead := cfg.AllowRegisterRead
      _mirroringType := romData.MirroringType
      _prgSize := romData.PrgRom.size % 2 ^ 32
      _chrRomSize := romData.ChrRom.size % 2 ^ 32
      _originalPrgRom := romData.PrgRom
      _hasBattery := romData.HasBattery || cfg.ForceBattery
      _hasBusConflicts := cfg.HasBusConflicts
      mem := fun a o =>
        if a = Arena.PrgRom then romData.PrgRom.get o
        else if a = Arena.ChrRom then romData.ChrRom.get o
        else 0
      size := fun a =>
        if a = Arena.PrgRom then romData.PrgRom.size % 2 ^ 32
        else if a = Arena.ChrRom then romData.ChrRom.size % 2 ^ 32
        else if a = Arena.SaveRam then cfg.GetSaveRamSize % 2 ^ 32
        else if a = Arena.WorkRam then cfg.GetWorkRamSize
        else 0
      _prgPageNumbers := fun _ => pageSentinel
      _chrPageNumbers := fun _ => pageSentinel
      _isRegisterAddr := fun _ => false
      _prgPageAccessType := fun _ => MemoryAccessType.NoAccess
      _chrPageAccessType := fun _ => MemoryAccessType.NoAccess }
    cfg.RegisterStartAddress cfg.RegisterEndAddress

/-- The CHR RAM stage of `Initialize` (lines 361-366 of the source). -/
def chrRamStage (cfg : Config) (m : Mapper) : Mapper :=
  if m._chrRomSize = 0 then
    { InitializeChrRam cfg { m with _onlyChrRam := true } with
      _chrRomSize := (InitializeChrRam cfg { m with _onlyChrRam := true })._chrRamSize }
  else m

/-- `Initialize(romData)` up to the calls of the `InitMapper` hooks (lines 307-367 of the
source): the state the first hook is handed. -/
def initPrefix (cfg : Config) (env : Env) (romData : RomData) : Option Mapper :=
  (if (initialMembers cfg romData)._hasBattery then
      LoadBattery cfg env (initialMembers cfg romData)
    else some (initialMembers cfg romData)).bind fun m2 =>
  SetCpuMemoryMapping cfg (chrRamStage cfg m2) 0x6000 0x7FFF 0
    (if (chrRamStage cfg m2)._hasBattery then PrgMemoryType.SaveRam
      else PrgMemoryType.WorkRam) (-1)

/-- The calls `InitMapper(); InitMapper(romData);` of `Initialize` (lines 369-370 of the
source), on the state `m`. -/
def runHooks (cfg : Config) (romData : RomData) (m : Mapper) : Option Mapper :=
  (cfg.InitMapper m).bind (cfg.InitMapperRom romData)

/-- The members of a mapper that decide how a CPU read or write of RAM goes, apart from the
page table: register bitmap and flags, the sizes of the PRG arenas, and the save RAM. -/
def Mapper.busView (m : Mapper) :=
  (m._isRegisterAddr, m._allowRegisterRead, m._hasBattery, m._saveRamSize, m._prgSize,
    m.size Arena.PrgRom, m.size Arena.SaveRam, m.size Arena.WorkRam, m.mem Arena.SaveRam)

/-- The contents of save RAM after `LoadBattery` read the battery file into a zeroed save RAM
of `size` bytes. -/
def batteryContents (file : Option Bytes) (size : Nat) : Nat → Nat := fun o =>
  match file with
  | some bytes => if o < min bytes.size size then bytes.get o else 0
  | none => 0

/-- The default RAM of a cartridge (save RAM with a battery, work RAM without) has a page size
and at least one page, so that `Initialize` can map it. -/
def DefaultRamOk (cfg : Config) (romData : RomData) : Prop :=
  if (romData.HasBattery || cfg.ForceBattery) = true then
    cfg.GetSaveRamPageSize ≠ 0 ∧ 0 < cfg.GetSaveRamSize % 2 ^ 32 / cfg.GetSaveRamPageSize
  else cfg.GetWorkRamPageSize ≠ 0 ∧ 0 < cfg.GetWorkRamSize / cfg.GetWorkRamPageSize

/-- The demo ROM on a cartridge with a battery. -/
def batteryRom : RomData :=
  { demoRom with HasBattery := true }

/-- A battery file of 8 KiB whose byte at offset `o` is `o % 7`. -/
def batteryEnv : Env :=
  { demoEnv with batteryFile := some ⟨0x2000, fun o => o % 7⟩ }

/-- The bank-switching calls of a concrete mapper, with the default `PrgRom` memory type. -/
inductive PrgCall where
  | select (slot page : Nat)
  | select2x (slot page : Nat)
  | select4x (slot page : Nat)
  deriving DecidableEq, Repr

/-- One bank-switching call. -/
def PrgCall.run (cfg : Config) (m : Mapper) : PrgCall → Option Mapper
  | PrgCall.select slot page => SelectPRGPage cfg m slot page PrgMemoryType.PrgRom
  | PrgCall.select2x slot page => SelectPrgPage2x cfg m slot page PrgMemoryType.PrgRom
  | PrgCall.select4x slot page => SelectPrgPage4x cfg m slot page PrgMemoryType.PrgRom

/-- A sequence of bank-switching calls, first call first. -/
def runPrgCalls (cfg : Config) : List PrgCall → Mapper → Option Mapper
  | [], m => some m
  | c :: cs, m => (c.run cfg m).bind (runPrgCalls cfg cs)

/-- The invariant of claim C16: every slot with the Read bit holds a non-null pointer into the
PRG-ROM, save RAM or work RAM arena whose 256 bytes lie inside that arena. -/
def PrgTableValid (m : Mapper) : Prop :=
  ∀ i, i < 256 → hasAccess (m._prgPageAccessType i) MemoryAccessType.Read = true →
    ∃ p, m._prgPages i = some p ∧
      (p.arena = Arena.PrgRom ∨ p.arena = Arena.SaveRam ∨ p.arena = Arena.WorkRam) ∧
      p.off + 0xFF < m.size p.arena

/-- The 16-bit page numbers that select a page of a ROM of `cnt` pages: a number below
`0x8000` (taken modulo `cnt`), or `65536 - k`, the `int16_t` value `-k`, for `1 <= k <= cnt`
with `cnt - k` an `int16_t` value. -/
def pageOk (cnt page : Nat) : Prop :=
  page < 32768 ∨ (page < 65536 ∧ 65536 - page ≤ cnt ∧ cnt - (65536 - page) < 32768)

/-- The calls of claim C16 whose slots index `_prgPageNumbers` and whose page numbers select a
page of the ROM (every page number does on a ROM below 32 KiB, where it is ignored). -/
def PrgCall.ok (prgSize cnt : Nat) : PrgCall → Prop
  | PrgCall.select slot page => slot < 64 ∧ (0x8000 ≤ prgSize → pageOk cnt page)
  | PrgCall.select2x slot page =>
    2 * slot + 1 < 64 ∧
      (0x8000 ≤ prgSize → pageOk cnt page ∧ pageOk cnt ((page + 1) % 65536))
  | PrgCall.select4x slot page =>
    4 * slot + 3 < 64 ∧
      (0x8000 ≤ prgSize → pageOk cnt page ∧ pageOk cnt ((page + 1) % 65536) ∧
        pageOk cnt ((page + 2) % 65536) ∧ pageOk cnt (((page + 2) % 65536 + 1) % 65536))

instance (cnt page : Nat) : Decidable (pageOk cnt page) := by
  unfold pageOk
  infer_instance

instance (prgSize cnt : Nat) : (c : PrgCall) → Decidable (c.ok prgSize cnt)
  | PrgCall.select _ _ => by unfold PrgCall.ok; infer_instance
  | PrgCall.select2x _ _ => by unfold PrgCall.ok; infer_instance
  | PrgCall.select4x _ _ => by unfold PrgCall.ok; infer_instance

/-- The default RAM of a cartridge (save RAM with a battery, work RAM without) covers the
8 KiB window `0x6000-0x7FFF` that `Initialize` maps. -/
def DefaultRamCoversWindow (cfg : Config) (romData : RomData) : Prop :=
  if (romData.HasBattery || cfg.ForceBattery) = true then 0x2000 ≤ cfg.GetSaveRamSize % 2 ^ 32
  else 0x2000 ≤ cfg.GetWorkRamSize

instance (cfg : Config) (romData : RomData) : Decidable (DefaultRamOk cfg romData) := by
  unfold DefaultRamOk
  infer_instance

instance (cfg : Config) (romData : RomData) :
    Decidable (DefaultRamCoversWindow cfg romData) := by
  unfold DefaultRamCoversWindow
  infer_instance

/-- The class `bankConfig` with 2 KiB of work RAM in one page. -/
def smallRamConfig : Config :=
  { bankConfig with GetWorkRamSize := 0x800, GetWorkRamPageSize := 0x800 }
/-- What the bank-switching calls keep true on a cartridge with `n` bytes of PRG-ROM. -/
structure PrgInv (n : Nat) (m : Mapper) : Prop where
  prgSize : m._prgSize = n
  romSize : m.size Arena.PrgRom = n
  valid : PrgTableValid m

/-- The PRG page size in use on a cartridge with `n` bytes of PRG-ROM. -/
def prgPageSizeOf (cfg : Config) (n : Nat) : Nat :=
  min (cfg.GetPRGPageSize % 2 ^ 32) n % 65536

/-- A cartridge without CHR ROM: 8 KiB of CHR RAM stand in for it (`_onlyChrRam`, with
`_chrRomSize = _chrRamSize` as `Initialize` leaves them). -/
def chrRamOnlyMapper : Mapper :=
  { chrRamMapper with _onlyChrRam := true, _chrRomSize := 0x2000 }

/-- The class `demoConfig` with 1 KiB CHR RAM pages (and 8 KiB CHR pages). -/
def chrRam1kConfig : Config :=
  { demoConfig with GetChrRamPageSize := 0x400 }

/-- The eight `SelectCHRPage(slot, page)` calls that claim C18 ascribes to
`SelectChrPage8x(slot, page)`, in call order: slots `4*slot + j` and `8*slot + 4 + j` with the
pages `page + j` and `page + 4 + j` in 16-bit arithmetic. -/
def chr8xSelections (slot page : Nat) : List (Nat × Nat) :=
  [(4 * slot, page % 65536), (4 * slot + 1, (page + 1) % 65536),
    (4 * slot + 2, (page + 2) % 65536), (4 * slot + 3, (page + 3) % 65536),
    (8 * slot + 4, (page + 4) % 65536), (8 * slot + 5, (page + 5) % 65536),
    (8 * slot + 6, (page + 6) % 65536), (8 * slot + 7, (page + 7) % 65536)]

/-- A sequence of `SelectCHRPage` calls with the `Default` memory type, first call first. -/
def runChrSelections (cfg : Config) : List (Nat × Nat) → Mapper → Option Mapper
  | [], m => some m
  | sp :: rest, m =>
    (SelectCHRPage cfg m sp.1 sp.2 ChrMemoryType.Default).bind (runChrSelections cfg rest)

/-- Slot `j` of the CHR page table lies in the window `SelectCHRPage(slot, _)` writes: between
`startAddr >> 8` and `endAddr >> 8` for the 16-bit `startAddr = slot * pageSize` and
`endAddr = startAddr + pageSize - 1`. -/
def chrWindow (cfg : Config) (m : Mapper) (slot j : Nat) : Prop :=
  slot * InternalGetChrPageSize cfg m % 65536 / 256 ≤ j ∧
    j ≤ (slot * InternalGetChrPageSize cfg m % 65536 + InternalGetChrPageSize cfg m + 65535)
      % 65536 / 256

instance (cfg : Config) (m : Mapper) (slot j : Nat) : Decidable (chrWindow cfg m slot j) := by
  unfold chrWindow
  infer_instance

/-- The class `demoConfig` with 1 KiB CHR pages. -/
def chr1kConfig : Config :=
  { demoConfig with GetCHRPageSize := 0x400 }

/-- A cartridge with 8 KiB of CHR ROM (the byte at offset `o` is `o % 241`) and empty page
tables. -/
def chr8kMapper : Mapper :=
  { zeroMapper with
    mem := fun a o => if a = Arena.ChrRom then o % 241 else 0
    size := fun a => if a = Arena.ChrRom then 0x2000 else 0
    _chrRomSize := 0x2000 }

/-- The CHR members that decide what a page selection maps. -/
def Mapper.chrCore (m : Mapper) := (m._chrRomSize, m._onlyChrRam, m._chrRam)

/-- The class `demoConfig` with 32 KiB PRG pages. -/
def bigPageConfig : Config :=
  { demoConfig with GetPRGPageSize := 0x8000 }

/-- The class `demoConfig` with readable registers whose read hook answers the page number
recorded for PRG slot 0. -/
def bankReadConfig : Config :=
  { demoConfig with
    AllowRegisterRead := true
    ReadRegister := fun m _ => m._prgPageNumbers 0 % 256 }

/-- The class `bankConfig` with an `InitMapper` hook that maps work RAM over the whole window
`0x8000-0xFFFF`: `SetCpuMemoryMapping(0x8000, 0xFFFF, 0, WorkRam)`. -/
def wideRamConfig : Config :=
  { bankConfig with
    InitMapper := fun m =>
      SetCpuMemoryMapping bankConfig m 0x8000 0xFFFF 0 PrgMemoryType.WorkRam (-1) }

/-- The class `bankConfig` with hooks that select banks: `InitMapper()` calls
`SelectPRGPage(0, 0)` and `InitMapper(romData)` calls `SelectPRGPage(3, -1)`. -/
def bankHookConfig : Config :=
  { bankConfig with
    InitMapper := fun m => SelectPRGPage bankConfig m 0 0 PrgMemoryType.PrgRom
    InitMapperRom := fun _ m => SelectPRGPage bankConfig m 3 0xFFFF PrgMemoryType.PrgRom }

/-- The save RAM (size and contents), the page-table entries of `0x6000-0x7FFF` and the
register bits of these addresses are in `m2` what they are in `m`. -/
def SaveRamKept (m m2 : Mapper) : Prop :=
  m2._saveRamSize = m._saveRamSize ∧ m2.size Arena.SaveRam = m.size Arena.SaveRam ∧
    m2.mem Arena.SaveRam = m.mem Arena.SaveRam ∧
    (∀ i, 0x60 ≤ i → i ≤ 0x7F →
      m2._prgPages i = m._prgPages i ∧ m2._prgPageAccessType i = m._prgPageAccessType i) ∧
    ∀ a, 0x6000 ≤ a → a ≤ 0x7FFF → m2._isRegisterAddr a = m._isRegisterAddr a

/-- The class `demoConfig` with a single register, at `0x8000`, and an `InitMapper` hook that
takes all access from `0x6000-0x7FFF`:
`SetCpuMemoryMapping(0x6000, 0x7FFF, 0, SaveRam, NoAccess)`. -/
def lockedRamConfig : Config :=
  { demoConfig with
    RegisterEndAddress := 0x8000
    InitMapper := fun m =>
      SetCpuMemoryMapping demoConfig m 0x6000 0x7FFF 0 PrgMemoryType.SaveRam
        (MemoryAccessType.NoAccess : Nat) }

/-- Every selection recorded in the first `lim` replay slots of `m` has a window that stays
inside its area and is visible in the page tables of `m`: replaying it changes nothing. -/
def Replayed (cfg : Config) (F m : Mapper) (lim : Nat) : Prop :=
  ∀ k, k < lim → replayLive k (m.replayNumbers k) = true →
    (slotCall k (m.replayNumbers k)).ok cfg F ∧
      (replayPatch cfg F k (m.replayNumbers k)).apply m.tables = m.tables

/-- The class `bankConfig` with an `InitMapper` hook that selects page 1 for PRG slot 0 and
then maps page 3 over the same window directly:
`SelectPRGPage(0, 1); SetCpuMemoryMapping(0x8000, 0x9FFF, 3, PrgRom)`. -/
def directMapConfig : Config :=
  { bankConfig with
    InitMapper := fun m =>
      (SelectPRGPage bankConfig m 0 1 PrgMemoryType.PrgRom).bind fun m1 =>
        SetCpuMemoryMapping bankConfig m1 0x8000 0x9FFF 3 PrgMemoryType.PrgRom (-1) }

/-- The state `Initialize` hands to the hooks of `bankHookConfig` on the demo ROM (the zero
mapper if it failed). -/
def bankPrefix : Mapper :=
  (initPrefix bankHookConfig demoEnv demoRom).getD zeroMapper

/-! ## Arithmetic of addresses -/

theorem and_255 (a : Nat) : a &&& 0xFF = a % 256 :=
  Nat.and_pow_two_sub_one_eq_mod a 8

theorem shr_8 (a : Nat) : a >>> 8 = a / 256 :=
  Nat.shiftRight_eq_div_pow a 8

theorem open_bus_byte (addr : Nat) : (addr &&& 0xFF00) >>> 8 = (addr >>> 8) &&& 0xFF := by
  apply Nat.eq_of_testBit_eq
  intro i
  have key : Nat.testBit 65280 (8 + i) = Nat.testBit 255 i := by
    have h := @Nat.testBit_shiftLeft 8 (8 + i) 255
    simpa using h
  simp [Nat.testBit_shiftRight, Nat.testBit_and, key]

theorem toInt16_of_small (x : Int) (h0 : 0 ≤ x) (h1 : x < 32768) : toInt16 x = x := by
  unfold toInt16
  simp only []
  split_ifs <;> omega

/-! ## Closed form of the mapping loops -/

theorem cpuMapLoop_eq (n : Nat) : ∀ (i : Nat) (src : Ptr) (acc : Nat) (m : Mapper),
    cpuMapLoop n i src acc m =
      { m with
        _prgPages := fun j =>
          if i ≤ j ∧ j < i + n then some (src.add ((j - i) * 0x100)) else m._prgPages j
        _prgPageAccessType := fun j =>
          if i ≤ j ∧ j < i + n then acc else m._prgPageAccessType j } := by
  induction n with
  | zero =>
    intro i src acc m
    have h : ∀ j, ¬ (i ≤ j ∧ j < i + 0) := fun j => by omega
    simp only [cpuMapLoop, h, if_false]
  | succ n ih =>
    intro i src acc m
    rw [cpuMapLoop, ih]
    congr 1
    · funext j
      by_cases h1 : i + 1 ≤ j ∧ j < i + 1 + n
      · have h2 : i ≤ j ∧ j < i + (n + 1) := by omega
        rw [if_pos h1, if_pos h2]
        simp only [Ptr.add, Option.some.injEq, Ptr.mk.injEq, true_and]
        omega
      · rw [if_neg h1]
        by_cases h3 : j = i
        · subst h3
          simp [upd, Ptr.add]
        · have h2 : ¬ (i ≤ j ∧ j < i + (n + 1)) := by omega
          simp [upd, h3, h2]
    · funext j
      by_cases h1 : i + 1 ≤ j ∧ j < i + 1 + n
      · have h2 : i ≤ j ∧ j < i + (n + 1) := by omega
        rw [if_pos h1, if_pos h2]
      · rw [if_neg h1]
        by_cases h3 : j = i
        · subst h3
          simp [upd]
        · have h2 : ¬ (i ≤ j ∧ j < i + (n + 1)) := by omega
          simp [upd, h3, h2]

/-- The state `SetCpuMemoryMapping` produces once the memory type and the effective page
are known. -/
theorem SetCpuMemoryMapping_eq (cfg : Config) (m : Mapper) (s e : Nat) (pn : Int)
    (type : PrgMemoryType) (accessType : Int) (src : Ptr) (cnt psz dflt : Nat) (page : Int)
    (h1 : prgTypeInfo cfg m type = some (src, cnt, psz, dflt))
    (h2 : effectivePage cnt pn = some page) :
    SetCpuMemoryMapping cfg m s e pn type accessType =
      some { m with
        _prgPages := fun j =>
          if s / 256 ≤ j ∧ j ≤ e / 256 then
            some ⟨src.arena, src.off + ((page * (psz : Int)) % 2 ^ 32).toNat + (j - s / 256) * 256⟩
          else m._prgPages j
        _prgPageAccessType := fun j =>
          if s / 256 ≤ j ∧ j ≤ e / 256 then
            (if accessType ≠ -1 then toUInt8 accessType else dflt)
          else m._prgPageAccessType j } := by
  unfold SetCpuMemoryMapping
  rw [h1]
  simp only [h2, cpuMapLoop_eq, shr_8, Ptr.add]
  congr 2
  · funext j
    by_cases h : s / 256 ≤ j ∧ j ≤ e / 256
    · have h3 : s / 256 ≤ j ∧ j < s / 256 + (e / 256 + 1 - s / 256) := by omega
      rw [if_pos h, if_pos h3]
    · have h3 : ¬ (s / 256 ≤ j ∧ j < s / 256 + (e / 256 + 1 - s / 256)) := by omega
      rw [if_neg h, if_neg h3]
  · funext j
    by_cases h : s / 256 ≤ j ∧ j ≤ e / 256
    · have h3 : s / 256 ≤ j ∧ j < s / 256 + (e / 256 + 1 - s / 256) := by omega
      rw [if_pos h, if_pos h3]
    · have h3 : ¬ (s / 256 ≤ j ∧ j < s / 256 + (e / 256 + 1 - s / 256)) := by omega
      rw [if_neg h, if_neg h3]

theorem offset_toNat (a b : Nat) (ha : a < 32768) (hb : b < 65536) :
    ((((a : Nat) : Int) * ((b : Nat) : Int)) % 2 ^ 32).toNat = a * b := by
  have h1 : a * b < 2 ^ 32 := by nlinarith
  have h2 : ((a : Nat) : Int) * ((b : Nat) : Int) = ((a * b : Nat) : Int) := by push_cast; ring
  rw [h2, Int.emod_eq_of_lt (by positivity) (by exact_mod_cast h1)]
  exact Int.toNat_ofNat _

theorem InternalGetPrgPageSize_lt (cfg : Config) (m : Mapper) :
    InternalGetPrgPageSize cfg m < 65536 := by
  unfold InternalGetPrgPageSize
  exact Nat.mod_lt _ (by decide)

theorem prgTypeInfo_PrgRom (cfg : Config) (m : Mapper) (N : Nat)
    (hN : GetPRGPageCount cfg m = some N) :
    prgTypeInfo cfg m PrgMemoryType.PrgRom =
      some (prgRomPtr, N, InternalGetPrgPageSize cfg m, MemoryAccessType.Read) := by
  simp [prgTypeInfo, hN]

theorem effectivePage_nonneg (N p : Nat) (hN0 : 0 < N) (hp : p < 32768) :
    effectivePage N (p : Int) = some (((p % N : Nat) : Int)) := by
  unfold effectivePage
  have h1 : ¬ ((p : Int) < 0) := by omega
  have h2 : N ≠ 0 := by omega
  rw [if_neg h1, if_neg h2]
  have h3 : (p : Int) % (N : Int) = ((p % N : Nat) : Int) := by norm_cast
  have h4 : p % N ≤ p := Nat.mod_le p N
  rw [h3, toInt16_of_small _ (by positivity) (by omega)]

theorem effectivePage_negative (N k : Nat) (hk1 : 1 ≤ k) (hkN : k ≤ N) (hN : N - k < 32768) :
    effectivePage N (-(k : Int)) = some (((N - k : Nat) : Int)) := by
  unfold effectivePage
  have h1 : (-(k : Int)) < 0 := by omega
  rw [if_pos h1]
  have h2 : ((N : Int) + -(k : Int)) = ((N - k : Nat) : Int) := by omega
  rw [h2, Int.emod_eq_of_lt (by positivity) (by omega), toInt16_of_small _ (by positivity) (by omega)]

theorem toInt16_neg (k : Nat) (hk1 : 1 ≤ k) (hk : k ≤ 32768) :
    toInt16 (((65536 - k : Nat) : Int)) = -(k : Int) := by
  unfold toInt16
  simp only []
  split_ifs <;> omega

theorem effectivePage_zero (cnt : Nat) (h : 0 < cnt) : effectivePage cnt 0 = some 0 := by
  have h1 := effectivePage_nonneg cnt 0 h (by decide)
  simpa using h1

/-- Closed form of the small-ROM loop of `SelectPRGPage` for a ROM of `256 * q` bytes:
iterations `slot, ..., slot + n - 1` tile the slots `0x80 + slot*q .. 0x80 + (slot+n)*q - 1`
with copies of the ROM. -/
theorem prgRepeatLoop_eq (cfg : Config) (q cnt : Nat) (hq : 0 < q) (hc : 0 < cnt) (n : Nat) :
    ∀ (slot : Nat) (m : Mapper), m._prgSize = 256 * q → GetPRGPageCount cfg m = some cnt →
      (slot + n) * q ≤ 0x80 →
      prgRepeatLoop cfg PrgMemoryType.PrgRom n slot m =
        some { m with
          _prgPages := fun j =>
            if 0x80 + slot * q ≤ j ∧ j < 0x80 + (slot + n) * q then
              some ⟨Arena.PrgRom, ((j - 0x80) % q) * 256⟩
            else m._prgPages j
          _prgPageAccessType := fun j =>
            if 0x80 + slot * q ≤ j ∧ j < 0x80 + (slot + n) * q then MemoryAccessType.Read
            else m._prgPageAccessType j } := by
  induction n with
  | zero =>
    intro slot m _ _ _
    have h : ∀ j, ¬ (0x80 + slot * q ≤ j ∧ j < 0x80 + (slot + 0) * q) := fun j => by
      simp only [Nat.add_zero]; omega
    simp only [prgRepeatLoop, h, if_false]
  | succ n ih =>
    intro slot m hsz hcnt hle
    have e1 : (slot + (n + 1)) * q = slot * q + n * q + q := by ring
    have e2 : (slot + 1 + n) * q = slot * q + n * q + q := by ring
    have e3 : (slot + 1) * q = slot * q + q := by ring
    have e4 : slot * (256 * q) = 256 * (slot * q) := by ring
    rw [e1] at hle
    have hstart : (0x8000 + slot * m._prgSize) % 65536 = 0x8000 + 256 * (slot * q) := by
      rw [hsz, e4]; exact Nat.mod_eq_of_lt (by omega)
    have hend : (0x8000 + 256 * (slot * q) + m._prgSize - 1) % 65536
        = 0x8000 + 256 * (slot * q) + 256 * q - 1 := by
      rw [hsz]; exact Nat.mod_eq_of_lt (by omega)
    have hmap := SetCpuMemoryMapping_eq cfg m (0x8000 + 256 * (slot * q))
      (0x8000 + 256 * (slot * q) + 256 * q - 1) 0 PrgMemoryType.PrgRom (-1) _ _ _ _ _
      (prgTypeInfo_PrgRom cfg m cnt hcnt) (effectivePage_zero cnt hc)
    rw [prgRepeatLoop]
    simp only [hstart, hend, hmap]
    refine (ih (slot + 1) _ (by exact hsz) (by exact hcnt) (by rw [e2]; exact hle)).trans ?_
    have hs1 : (0x8000 + 256 * (slot * q)) / 256 = 0x80 + slot * q := by omega
    have hs2 : (0x8000 + 256 * (slot * q) + 256 * q - 1) / 256 = 0x80 + slot * q + q - 1 := by
      omega
    simp only [hs1, hs2, e1, e2, e3]
    congr 2
    · funext j
      by_cases hA : 0x80 + (slot * q + q) ≤ j ∧ j < 0x80 + (slot * q + n * q + q)
      · have hB : 0x80 + slot * q ≤ j ∧ j < 0x80 + (slot * q + n * q + q) := by omega
        rw [if_pos hA, if_pos hB]
      · rw [if_neg hA]
        by_cases hC : 0x80 + slot * q ≤ j ∧ j ≤ 0x80 + slot * q + q - 1
        · have hB : 0x80 + slot * q ≤ j ∧ j < 0x80 + (slot * q + n * q + q) := by omega
          rw [if_pos hC, if_pos hB]
          have hj : j - 0x80 = (j - (0x80 + slot * q)) + slot * q := by omega
          have hmod : (j - 0x80) % q = j - (0x80 + slot * q) := by
            rw [hj, Nat.add_mul_mod_self_right]
            exact Nat.mod_eq_of_lt (by omega)
          simp [hmod, prgRomPtr]
        · have hB : ¬ (0x80 + slot * q ≤ j ∧ j < 0x80 + (slot * q + n * q + q)) := by omega
          rw [if_neg hC, if_neg hB]
    · funext j
      by_cases hA : 0x80 + (slot * q + q) ≤ j ∧ j < 0x80 + (slot * q + n * q + q)
      · have hB : 0x80 + slot * q ≤ j ∧ j < 0x80 + (slot * q + n * q + q) := by omega
        rw [if_pos hA, if_pos hB]
      · rw [if_neg hA]
        by_cases hC : 0x80 + slot * q ≤ j ∧ j ≤ 0x80 + slot * q + q - 1
        · have hB : 0x80 + slot * q ≤ j ∧ j < 0x80 + (slot * q + n * q + q) := by omega
          rw [if_pos hC, if_pos hB]
          simp
        · have hB : ¬ (0x80 + slot * q ≤ j ∧ j < 0x80 + (slot * q + n * q + q)) := by omega
          rw [if_neg hC, if_neg hB]

theorem ppuMapLoop_eq (n : Nat) : ∀ (i : Nat) (src : Option Ptr) (acc : Nat) (m : Mapper),
    ppuMapLoop n i src acc m =
      { m with
        _chrPages := fun j =>
          if i ≤ j ∧ j < i + n then src.map (fun p => p.add ((j - i) * 0x100))
          else m._chrPages j
        _chrPageAccessType := fun j =>
          if i ≤ j ∧ j < i + n then acc else m._chrPageAccessType j } := by
  induction n with
  | zero =>
    intro i src acc m
    have h : ∀ j, ¬ (i ≤ j ∧ j < i + 0) := fun j => by omega
    simp only [ppuMapLoop, h, if_false]
  | succ n ih =>
    intro i src acc m
    rw [ppuMapLoop, ih]
    congr 1
    · funext j
      by_cases h1 : i + 1 ≤ j ∧ j < i + 1 + n
      · have h2 : i ≤ j ∧ j < i + (n + 1) := by omega
        rw [if_pos h1, if_pos h2]
        cases src with
        | none => simp only [Option.map]
        | some p =>
          simp only [Option.map, Ptr.add, Option.some.injEq, Ptr.mk.injEq, true_and]
          omega
      · rw [if_neg h1]
        by_cases h3 : j = i
        · subst h3
          cases src <;> simp [upd, Ptr.add]
        · have h2 : ¬ (i ≤ j ∧ j < i + (n + 1)) := by omega
          simp [upd, h3, h2]
    · funext j
      by_cases h1 : i + 1 ≤ j ∧ j < i + 1 + n
      · have h2 : i ≤ j ∧ j < i + (n + 1) := by omega
        rw [if_pos h1, if_pos h2]
      · rw [if_neg h1]
        by_cases h3 : j = i
        · subst h3
          simp [upd]
        · have h2 : ¬ (i ≤ j ∧ j < i + (n + 1)) := by omega
          simp [upd, h3, h2]

theorem SetPpuMemoryMappingPtr_eq (m : Mapper) (s e : Nat) (src : Option Ptr)
    (accessType : Int) :
    SetPpuMemoryMappingPtr m s e src accessType =
      { m with
        _chrPages := fun j =>
          if s / 256 ≤ j ∧ j ≤ e / 256 then src.map (fun p => p.add ((j - s / 256) * 0x100))
          else m._chrPages j
        _chrPageAccessType := fun j =>
          if s / 256 ≤ j ∧ j ≤ e / 256 then
            (if accessType ≠ -1 then toUInt8 accessType else MemoryAccessType.ReadWrite)
          else m._chrPageAccessType j } := by
  unfold SetPpuMemoryMappingPtr
  simp only [ppuMapLoop_eq, shr_8]
  congr 1
  · funext j
    by_cases h : s / 256 ≤ j ∧ j ≤ e / 256
    · have h3 : s / 256 ≤ j ∧ j < s / 256 + (e / 256 + 1 - s / 256) := by omega
      rw [if_pos h, if_pos h3]
    · have h3 : ¬ (s / 256 ≤ j ∧ j < s / 256 + (e / 256 + 1 - s / 256)) := by omega
      rw [if_neg h, if_neg h3]
  · funext j
    by_cases h : s / 256 ≤ j ∧ j ≤ e / 256
    · have h3 : s / 256 ≤ j ∧ j < s / 256 + (e / 256 + 1 - s / 256) := by omega
      rw [if_pos h, if_pos h3]
    · have h3 : ¬ (s / 256 ≤ j ∧ j < s / 256 + (e / 256 + 1 - s / 256)) := by omega
      rw [if_neg h, if_neg h3]

/-- The state `SetNametable` produces for a slot below 4: the lazy allocations, the recorded
index, and the four page-table entries `0x20 + 4*index .. 0x23 + 4*index`. -/
theorem SetNametable_eq (m : Mapper) (index nt : Nat) (h : index < 4) :
    SetNametable m index nt =
      some { lazyAllocNametable m nt with
        _nametableIndexes := upd (lazyAllocNametable m nt)._nametableIndexes index nt
        _chrPages := fun j =>
          if 0x20 + 4 * index ≤ j ∧ j ≤ 0x23 + 4 * index then
            (GetNametable (lazyAllocNametable m nt) nt).map
              (fun p => p.add ((j - (0x20 + 4 * index)) * 0x100))
          else (lazyAllocNametable m nt)._chrPages j
        _chrPageAccessType := fun j =>
          if 0x20 + 4 * index ≤ j ∧ j ≤ 0x23 + 4 * index then MemoryAccessType.ReadWrite
          else (lazyAllocNametable m nt)._chrPageAccessType j } := by
  unfold SetNametable
  have h4 : ¬ (4 ≤ index) := by omega
  have hs : (0x2000 + index * 0x400) % 65536 / 256 = 0x20 + 4 * index := by omega
  have he : (0x2000 + (index + 1) * 0x400 - 1) % 65536 / 256 = 0x23 + 4 * index := by omega
  simp only [h4, if_false, SetPpuMemoryMappingPtr_eq, hs, he]
  simp [GetNametable]

theorem lazyAllocNametable_zero (m : Mapper) : lazyAllocNametable m 0 = m := by
  simp [lazyAllocNametable]

theorem lazyAllocNametable_one (m : Mapper) : lazyAllocNametable m 1 = m := by
  simp [lazyAllocNametable]

theorem lazyAllocNametable_eq (m : Mapper) (nt : Nat) :
    lazyAllocNametable m nt =
      { m with _cartNametableRam := (lazyAllocNametable m nt)._cartNametableRam
               size := (lazyAllocNametable m nt).size } := by
  unfold lazyAllocNametable allocCartNametable
  simp only []
  split_ifs <;> rfl

theorem lazyAllocNametable_size (m : Mapper) (nt : Nat) (a : Arena)
    (h : ∀ i, a ≠ Arena.CartNametable i) : (lazyAllocNametable m nt).size a = m.size a := by
  unfold lazyAllocNametable allocCartNametable
  simp only []
  split_ifs <;> simp [h]

theorem lazyAllocNametable_owned (m : Mapper) (nt : Nat) (hc : CartNametablesOwned m) :
    CartNametablesOwned (lazyAllocNametable m nt) := by
  obtain ⟨h0, h1⟩ := hc
  unfold CartNametablesOwned lazyAllocNametable allocCartNametable
  by_cases h2 : nt = 2
  · subst h2
    rcases h0 with h0 | h0 <;> rcases h1 with h1 | h1 <;> simp [h0, h1, upd]
  · by_cases h3 : nt = 3
    · subst h3
      rcases h0 with h0 | h0 <;> rcases h1 with h1 | h1 <;> simp [h0, h1, upd]
    · simp only [h2, h3, false_and, if_false]
      exact ⟨h0, h1⟩

theorem lazyAllocNametable_pointer (m : Mapper) (nt : Nat) (h : NametableOk m nt) :
    GetNametable (lazyAllocNametable m nt) nt = nametablePointer m nt := by
  rcases h with h | ⟨hnt, h0, h1⟩
  · unfold GetNametable nametablePointer lazyAllocNametable
    have h2 : ¬ (nt = 2) := by omega
    have h3 : ¬ (nt = 3) := by omega
    simp [h, h2, h3]
  · unfold GetNametable nametablePointer lazyAllocNametable allocCartNametable
    interval_cases nt <;> rcases h0 with h0 | h0 <;> rcases h1 with h1 | h1 <;>
      simp [h0, h1, upd]

theorem lazyAllocNametable_nes (m : Mapper) (nt : Nat) (h : nt ≤ 1) :
    lazyAllocNametable m nt = m := by
  have h2 : ¬ (nt = 2) := by omega
  have h3 : ¬ (nt = 3) := by omega
  simp [lazyAllocNametable, h2, h3]

theorem SetNametable_spec (m : Mapper) (index nt : Nat) (hi : index < 4)
    (h : NametableOk m nt) :
    ∃ m2, SetNametable m index nt = some m2 ∧ NametableStep m m2 index nt := by
  have hp := lazyAllocNametable_pointer m nt h
  have hl := lazyAllocNametable_eq m nt
  refine ⟨_, SetNametable_eq m index nt hi, ?_⟩
  constructor
  · intro hc
    exact lazyAllocNametable_owned m nt hc
  · intro h1
    simp only [lazyAllocNametable_nes m nt h1]
  · rw [hl]
  · rw [hl]
  · rw [hl]
  · intro j
    simp only [hp]
    rw [hl]
  · intro j
    simp only []
    rw [hl]
  · rw [hl]
  · intro a ha
    exact lazyAllocNametable_size m nt a ha
  · rw [hl]

theorem nametablePointer_congr (m m2 : Mapper) (h : m2._nesNametableRam = m._nesNametableRam)
    (nt : Nat) : nametablePointer m2 nt = nametablePointer m nt := by
  unfold nametablePointer
  rw [h]

/-- The four `SetNametable` calls of `SetNametables`, for NES nametables only or for a
mapper that owns its cartridge nametables: slot `i` ends up pointing at the page selected for
it, and the four indexes are recorded. -/
theorem SetNametables_core (m : Mapper) (a b c d : Nat)
    (h : (a ≤ 1 ∧ b ≤ 1 ∧ c ≤ 1 ∧ d ≤ 1) ∨
      (a < 4 ∧ b < 4 ∧ c < 4 ∧ d < 4 ∧ CartNametablesOwned m)) :
    ∃ m4, SetNametables m a b c d = some m4 ∧
      (CartNametablesOwned m → CartNametablesOwned m4) ∧
      (a ≤ 1 → b ≤ 1 → c ≤ 1 → d ≤ 1 → m4.size = m.size) ∧
      m4._nesNametableRam = m._nesNametableRam ∧ m4._mirroringType = m._mirroringType ∧
      m4.mem = m.mem ∧ (∀ x, (∀ i, x ≠ Arena.CartNametable i) → m4.size x = m.size x) ∧
      (m4._nametableIndexes 0 = a ∧ m4._nametableIndexes 1 = b ∧
        m4._nametableIndexes 2 = c ∧ m4._nametableIndexes 3 = d) ∧
      (∀ k, k < 4 →
        m4._chrPages (0x20 + k) = (nametablePointer m a).map (fun p => p.add (k * 0x100)) ∧
        m4._chrPages (0x24 + k) = (nametablePointer m b).map (fun p => p.add (k * 0x100)) ∧
        m4._chrPages (0x28 + k) = (nametablePointer m c).map (fun p => p.add (k * 0x100)) ∧
        m4._chrPages (0x2C + k) = (nametablePointer m d).map (fun p => p.add (k * 0x100))) ∧
      (∀ j, 0x20 ≤ j → j ≤ 0x2F → m4._chrPageAccessType j = MemoryAccessType.ReadWrite) ∧
      (∀ j, ¬ (0x20 ≤ j ∧ j ≤ 0x2F) →
        m4._chrPages j = m._chrPages j ∧ m4._chrPageAccessType j = m._chrPageAccessType j) := by
  have ok : ∀ (x : Mapper) (nt : Nat), (CartNametablesOwned m → CartNametablesOwned x) →
      (nt ≤ 1 ∨ (nt < 4 ∧ CartNametablesOwned m)) → NametableOk x nt := by
    intro x nt hx hnt
    rcases hnt with h1 | ⟨h1, h2⟩
    · exact Or.inl h1
    · exact Or.inr ⟨h1, hx h2⟩
  have oa : a ≤ 1 ∨ (a < 4 ∧ CartNametablesOwned m) := by
    rcases h with ⟨h1, _, _, _⟩ | ⟨h1, _, _, _, h5⟩
    · exact Or.inl h1
    · exact Or.inr ⟨h1, h5⟩
  have ob : b ≤ 1 ∨ (b < 4 ∧ CartNametablesOwned m) := by
    rcases h with ⟨_, h1, _, _⟩ | ⟨_, h1, _, _, h5⟩
    · exact Or.inl h1
    · exact Or.inr ⟨h1, h5⟩
  have oc : c ≤ 1 ∨ (c < 4 ∧ CartNametablesOwned m) := by
    rcases h with ⟨_, _, h1, _⟩ | ⟨_, _, h1, _, h5⟩
    · exact Or.inl h1
    · exact Or.inr ⟨h1, h5⟩
  have od : d ≤ 1 ∨ (d < 4 ∧ CartNametablesOwned m) := by
    rcases h with ⟨_, _, _, h1⟩ | ⟨_, _, _, h1, h5⟩
    · exact Or.inl h1
    · exact Or.inr ⟨h1, h5⟩
  obtain ⟨m1, e1, s1⟩ := SetNametable_spec m 0 a (by decide) (ok m a id oa)
  obtain ⟨m2, e2, s2⟩ := SetNametable_spec m1 1 b (by decide) (ok m1 b s1.owned ob)
  obtain ⟨m3, e3, s3⟩ := SetNametable_spec m2 2 c (by decide)
    (ok m2 c (fun x => s2.owned (s1.owned x)) oc)
  obtain ⟨m4, e4, s4⟩ := SetNametable_spec m3 3 d (by decide)
    (ok m3 d (fun x => s3.owned (s2.owned (s1.owned x))) od)
  have n1 : m1._nesNametableRam = m._nesNametableRam := s1.nes
  have n2 : m2._nesNametableRam = m._nesNametableRam := s2.nes.trans n1
  have n3 : m3._nesNametableRam = m._nesNametableRam := s3.nes.trans n2
  have p1 := nametablePointer_congr m m1 n1
  have p2 := nametablePointer_congr m m2 n2
  have p3 := nametablePointer_congr m m3 n3
  refine ⟨m4, by simp [SetNametables, e1, e2, e3, e4],
    fun x => s4.owned (s3.owned (s2.owned (s1.owned x))),
    fun ha hb hc hd => by rw [s4.sizeNes hd, s3.sizeNes hc, s2.sizeNes hb, s1.sizeNes ha],
    s4.nes.trans n3,
    (s4.mirroring.trans (s3.mirroring.trans (s2.mirroring.trans s1.mirroring))),
    (s4.mem.trans (s3.mem.trans (s2.mem.trans s1.mem))), ?_, ?_, ?_, ?_, ?_⟩
  · intro x hx
    rw [s4.size x hx, s3.size x hx, s2.size x hx, s1.size x hx]
  · simp [s4.indexes, s3.indexes, s2.indexes, s1.indexes, upd]
  · intro k hk
    refine ⟨?_, ?_, ?_, ?_⟩
    · have a3 : ¬ (0x20 + 4 * 3 ≤ 0x20 + k ∧ 0x20 + k ≤ 0x23 + 4 * 3) := by omega
      have a2 : ¬ (0x20 + 4 * 2 ≤ 0x20 + k ∧ 0x20 + k ≤ 0x23 + 4 * 2) := by omega
      have a1 : ¬ (0x20 + 4 * 1 ≤ 0x20 + k ∧ 0x20 + k ≤ 0x23 + 4 * 1) := by omega
      have a0 : 0x20 + 4 * 0 ≤ 0x20 + k ∧ 0x20 + k ≤ 0x23 + 4 * 0 := by omega
      rw [s4.pages, s3.pages, s2.pages, s1.pages, if_neg a3, if_neg a2, if_neg a1, if_pos a0]
      simp
    · have a3 : ¬ (0x20 + 4 * 3 ≤ 0x24 + k ∧ 0x24 + k ≤ 0x23 + 4 * 3) := by omega
      have a2 : ¬ (0x20 + 4 * 2 ≤ 0x24 + k ∧ 0x24 + k ≤ 0x23 + 4 * 2) := by omega
      have a1 : 0x20 + 4 * 1 ≤ 0x24 + k ∧ 0x24 + k ≤ 0x23 + 4 * 1 := by omega
      rw [s4.pages, s3.pages, s2.pages, if_neg a3, if_neg a2, if_pos a1, p1]
      simp
    · have a3 : ¬ (0x20 + 4 * 3 ≤ 0x28 + k ∧ 0x28 + k ≤ 0x23 + 4 * 3) := by omega
      have a2 : 0x20 + 4 * 2 ≤ 0x28 + k ∧ 0x28 + k ≤ 0x23 + 4 * 2 := by omega
      rw [s4.pages, s3.pages, if_neg a3, if_pos a2, p2]
      simp
    · have a3 : 0x20 + 4 * 3 ≤ 0x2C + k ∧ 0x2C + k ≤ 0x23 + 4 * 3 := by omega
      rw [s4.pages, if_pos a3, p3]
      simp
  · intro j h1 h2
    rw [s4.access, s3.access, s2.access, s1.access]
    by_cases h3 : 0x20 + 4 * 3 ≤ j ∧ j ≤ 0x23 + 4 * 3
    · rw [if_pos h3]
    · rw [if_neg h3]
      by_cases h4 : 0x20 + 4 * 2 ≤ j ∧ j ≤ 0x23 + 4 * 2
      · rw [if_pos h4]
      · rw [if_neg h4]
        by_cases h5 : 0x20 + 4 * 1 ≤ j ∧ j ≤ 0x23 + 4 * 1
        · rw [if_pos h5]
        · rw [if_neg h5, if_pos (by omega)]
  · intro j hj
    have a3 : ¬ (0x20 + 4 * 3 ≤ j ∧ j ≤ 0x23 + 4 * 3) := by omega
    have a2 : ¬ (0x20 + 4 * 2 ≤ j ∧ j ≤ 0x23 + 4 * 2) := by omega
    have a1 : ¬ (0x20 + 4 * 1 ≤ j ∧ j ≤ 0x23 + 4 * 1) := by omega
    have a0 : ¬ (0x20 + 4 * 0 ≤ j ∧ j ≤ 0x23 + 4 * 0) := by omega
    constructor
    · rw [s4.pages, s3.pages, s2.pages, s1.pages, if_neg a3, if_neg a2, if_neg a1, if_neg a0]
    · rw [s4.access, s3.access, s2.access, s1.access, if_neg a3, if_neg a2, if_neg a1,
        if_neg a0]

theorem SetNametables_spec (m : Mapper) (a b c d : Nat) (ha : a < 4) (hb : b < 4) (hc : c < 4)
    (hd : d < 4) (ho : CartNametablesOwned m) :
    ∃ m4, SetNametables m a b c d = some m4 ∧ CartNametablesOwned m4 ∧
      m4._nesNametableRam = m._nesNametableRam ∧ m4._mirroringType = m._mirroringType ∧
      m4.mem = m.mem ∧ (∀ x, (∀ i, x ≠ Arena.CartNametable i) → m4.size x = m.size x) ∧
      (m4._nametableIndexes 0 = a ∧ m4._nametableIndexes 1 = b ∧
        m4._nametableIndexes 2 = c ∧ m4._nametableIndexes 3 = d) ∧
      (∀ k, k < 4 →
        m4._chrPages (0x20 + k) = (nametablePointer m a).map (fun p => p.add (k * 0x100)) ∧
        m4._chrPages (0x24 + k) = (nametablePointer m b).map (fun p => p.add (k * 0x100)) ∧
        m4._chrPages (0x28 + k) = (nametablePointer m c).map (fun p => p.add (k * 0x100)) ∧
        m4._chrPages (0x2C + k) = (nametablePointer m d).map (fun p => p.add (k * 0x100))) ∧
      (∀ j, 0x20 ≤ j → j ≤ 0x2F → m4._chrPageAccessType j = MemoryAccessType.ReadWrite) ∧
      (∀ j, ¬ (0x20 ≤ j ∧ j ≤ 0x2F) →
        m4._chrPages j = m._chrPages j ∧ m4._chrPageAccessType j = m._chrPageAccessType j) := by
  obtain ⟨m4, e, h1, _, h3⟩ := SetNametables_core m a b c d (Or.inr ⟨ha, hb, hc, hd, ho⟩)
  exact ⟨m4, e, h1 ho, h3⟩

/-- `SetMirroringType` succeeds on a mapper that owns its cartridge nametables and leaves
the NES nametable pointers, the arena contents and the sizes of all other arenas alone. -/
theorem SetMirroringType_spec (m : Mapper) (t : MirroringType) (ho : CartNametablesOwned m) :
    ∃ m2, SetMirroringType m t = some m2 ∧ CartNametablesOwned m2 ∧
      m2._nesNametableRam = m._nesNametableRam ∧ m2.mem = m.mem ∧
      (∀ x, (∀ i, x ≠ Arena.CartNametable i) → m2.size x = m.size x) := by
  have key : ∀ a b c d, a < 4 → b < 4 → c < 4 → d < 4 →
      ∃ m4, SetNametables { m with _mirroringType := t } a b c d = some m4 ∧
        CartNametablesOwned m4 ∧ m4._nesNametableRam = m._nesNametableRam ∧ m4.mem = m.mem ∧
        (∀ x, (∀ i, x ≠ Arena.CartNametable i) → m4.size x = m.size x) := by
    intro a b c d ha hb hc hd
    obtain ⟨m4, e, h1, h2, _, h4, h5, _⟩ :=
      SetNametables_spec { m with _mirroringType := t } a b c d ha hb hc hd ho
    exact ⟨m4, e, h1, h2, h4, h5⟩
  cases t with
  | Vertical => exact key 0 1 0 1 (by decide) (by decide) (by decide) (by decide)
  | Horizontal => exact key 0 0 1 1 (by decide) (by decide) (by decide) (by decide)
  | FourScreens => exact key 0 1 2 3 (by decide) (by decide) (by decide) (by decide)
  | ScreenAOnly => exact key 0 0 0 0 (by decide) (by decide) (by decide) (by decide)
  | ScreenBOnly => exact key 1 1 1 1 (by decide) (by decide) (by decide) (by decide)

/-- `SetDefaultNametables(A, B)` succeeds and leaves `A` and `B` in `_nesNametableRam`. -/
theorem SetDefaultNametables_spec (m : Mapper) (A B : Option Ptr) (ho : CartNametablesOwned m) :
    ∃ m1, SetDefaultNametables m A B = some m1 ∧ CartNametablesOwned m1 ∧
      m1._nesNametableRam 0 = A ∧ m1._nesNametableRam 1 = B ∧ m1.mem = m.mem ∧
      (∀ x, (∀ i, x ≠ Arena.CartNametable i) → m1.size x = m.size x) := by
  obtain ⟨m1, e, h1, h2, h3, h4⟩ := SetMirroringType_spec
    { m with _nesNametableRam := upd (upd m._nesNametableRam 0 A) 1 B } m._mirroringType ho
  refine ⟨m1, e, h1, ?_, ?_, h3, h4⟩
  · rw [h2]; simp [upd]
  · rw [h2]; simp [upd]

/-- Mirroring laws for any mapper state.  In a mapper whose NES nametable pointers are the distinct host
buffers `A` and `B` (as `SetDefaultNametables` installs them), `SetMirroringType(t)` stores `t`,
sets `_nametableIndexes` to the row of the table, and the page-table entries of the four
nametable slots satisfy: Vertical 0 = 2 and 1 = 3; Horizontal 0 = 1 and 2 = 3; FourScreens four
pairwise distinct pages; ScreenAOnly / ScreenBOnly all four equal. -/
theorem mirroring_laws_of_state (m : Mapper) (A B : Ptr) (t : MirroringType)
    (hA : m._nesNametableRam 0 = some A) (hB : m._nesNametableRam 1 = some B) (hAB : A ≠ B)
    (hhA : A.isHost) (hhB : B.isHost) (hcart : CartNametablesOwned m) :
    ∃ m2, SetMirroringType m t = some m2 ∧ m2._mirroringType = t ∧
      match t with
      | MirroringType.Vertical =>
        (m2._nametableIndexes 0 = 0 ∧ m2._nametableIndexes 1 = 1 ∧
          m2._nametableIndexes 2 = 0 ∧ m2._nametableIndexes 3 = 1) ∧
        sameNametableSlot m2 0 2 ∧ sameNametableSlot m2 1 3
      | MirroringType.Horizontal =>
        (m2._nametableIndexes 0 = 0 ∧ m2._nametableIndexes 1 = 0 ∧
          m2._nametableIndexes 2 = 1 ∧ m2._nametableIndexes 3 = 1) ∧
        sameNametableSlot m2 0 1 ∧ sameNametableSlot m2 2 3
      | MirroringType.FourScreens =>
        (m2._nametableIndexes 0 = 0 ∧ m2._nametableIndexes 1 = 1 ∧
          m2._nametableIndexes 2 = 2 ∧ m2._nametableIndexes 3 = 3) ∧
        ∀ i j, i < 4 → j < 4 → i ≠ j →
          m2._chrPages (0x20 + 4 * i) ≠ none ∧
          m2._chrPages (0x20 + 4 * i) ≠ m2._chrPages (0x20 + 4 * j)
      | MirroringType.ScreenAOnly =>
        (m2._nametableIndexes 0 = 0 ∧ m2._nametableIndexes 1 = 0 ∧
          m2._nametableIndexes 2 = 0 ∧ m2._nametableIndexes 3 = 0) ∧
        ∀ i j, i < 4 → j < 4 → sameNametableSlot m2 i j
      | MirroringType.ScreenBOnly =>
        (m2._nametableIndexes 0 = 1 ∧ m2._nametableIndexes 1 = 1 ∧
          m2._nametableIndexes 2 = 1 ∧ m2._nametableIndexes 3 = 1) ∧
        ∀ i j, i < 4 → j < 4 → sameNametableSlot m2 i j := by
  have key : ∀ a b c d, a < 4 → b < 4 → c < 4 → d < 4 →
      ∃ m4, SetNametables { m with _mirroringType := t } a b c d = some m4 ∧
        m4._mirroringType = t ∧
        (m4._nametableIndexes 0 = a ∧ m4._nametableIndexes 1 = b ∧
          m4._nametableIndexes 2 = c ∧ m4._nametableIndexes 3 = d) ∧
        (∀ k, k < 4 →
          m4._chrPages (0x20 + k) = (nametablePointer m a).map (fun p => p.add (k * 0x100)) ∧
          m4._chrPages (0x24 + k) = (nametablePointer m b).map (fun p => p.add (k * 0x100)) ∧
          m4._chrPages (0x28 + k) = (nametablePointer m c).map (fun p => p.add (k * 0x100)) ∧
          m4._chrPages (0x2C + k) = (nametablePointer m d).map (fun p => p.add (k * 0x100))) := by
    intro a b c d ha hb hc hd
    obtain ⟨m4, e, _, _, hm, _, _, hi, hp, _, _⟩ :=
      SetNametables_spec { m with _mirroringType := t } a b c d ha hb hc hd hcart
    exact ⟨m4, e, hm, hi, hp⟩
  have same : ∀ (m4 : Mapper) (a b : Nat) (i j : Nat), i < 4 → j < 4 → a = b →
      (∀ k, k < 4 →
        m4._chrPages (0x20 + 4 * i + k) = (nametablePointer m a).map (fun p => p.add (k * 0x100)))
      → (∀ k, k < 4 →
        m4._chrPages (0x20 + 4 * j + k) = (nametablePointer m b).map (fun p => p.add (k * 0x100)))
      → sameNametableSlot m4 i j := by
    intro m4 a b i j _ _ hab h1 h2 k hk
    rw [h1 k hk, h2 k hk, hab]
  have slots : ∀ (m4 : Mapper) (a b c d : Nat),
      (∀ k, k < 4 →
        m4._chrPages (0x20 + k) = (nametablePointer m a).map (fun p => p.add (k * 0x100)) ∧
        m4._chrPages (0x24 + k) = (nametablePointer m b).map (fun p => p.add (k * 0x100)) ∧
        m4._chrPages (0x28 + k) = (nametablePointer m c).map (fun p => p.add (k * 0x100)) ∧
        m4._chrPages (0x2C + k) = (nametablePointer m d).map (fun p => p.add (k * 0x100))) →
      (∀ k, k < 4 → m4._chrPages (0x20 + 4 * 0 + k)
          = (nametablePointer m a).map (fun p => p.add (k * 0x100))) ∧
      (∀ k, k < 4 → m4._chrPages (0x20 + 4 * 1 + k)
          = (nametablePointer m b).map (fun p => p.add (k * 0x100))) ∧
      (∀ k, k < 4 → m4._chrPages (0x20 + 4 * 2 + k)
          = (nametablePointer m c).map (fun p => p.add (k * 0x100))) ∧
      (∀ k, k < 4 → m4._chrPages (0x20 + 4 * 3 + k)
          = (nametablePointer m d).map (fun p => p.add (k * 0x100))) := by
    intro m4 a b c d hp
    exact ⟨fun k hk => (hp k hk).1, fun k hk => (hp k hk).2.1, fun k hk => (hp k hk).2.2.1,
      fun k hk => (hp k hk).2.2.2⟩
  cases t with
  | Vertical =>
    obtain ⟨m4, e, hm, hi, hp⟩ := key 0 1 0 1 (by decide) (by decide) (by decide) (by decide)
    obtain ⟨q0, q1, q2, q3⟩ := slots m4 _ _ _ _ hp
    exact ⟨m4, e, hm, hi, same m4 0 0 0 2 (by decide) (by decide) rfl q0 q2,
      same m4 1 1 1 3 (by decide) (by decide) rfl q1 q3⟩
  | Horizontal =>
    obtain ⟨m4, e, hm, hi, hp⟩ := key 0 0 1 1 (by decide) (by decide) (by decide) (by decide)
    obtain ⟨q0, q1, q2, q3⟩ := slots m4 _ _ _ _ hp
    exact ⟨m4, e, hm, hi, same m4 0 0 0 1 (by decide) (by decide) rfl q0 q1,
      same m4 1 1 2 3 (by decide) (by decide) rfl q2 q3⟩
  | ScreenAOnly =>
    obtain ⟨m4, e, hm, hi, hp⟩ := key 0 0 0 0 (by decide) (by decide) (by decide) (by decide)
    obtain ⟨q0, q1, q2, q3⟩ := slots m4 _ _ _ _ hp
    refine ⟨m4, e, hm, hi, ?_⟩
    intro i j hi4 hj4
    have hq : ∀ i, i < 4 → ∀ k, k < 4 → m4._chrPages (0x20 + 4 * i + k)
        = (nametablePointer m 0).map (fun p => p.add (k * 0x100)) := by
      intro i hi4
      interval_cases i
      · exact q0
      · exact q1
      · exact q2
      · exact q3
    exact same m4 0 0 i j hi4 hj4 rfl (hq i hi4) (hq j hj4)
  | ScreenBOnly =>
    obtain ⟨m4, e, hm, hi, hp⟩ := key 1 1 1 1 (by decide) (by decide) (by decide) (by decide)
    obtain ⟨q0, q1, q2, q3⟩ := slots m4 _ _ _ _ hp
    refine ⟨m4, e, hm, hi, ?_⟩
    intro i j hi4 hj4
    have hq : ∀ i, i < 4 → ∀ k, k < 4 → m4._chrPages (0x20 + 4 * i + k)
        = (nametablePointer m 1).map (fun p => p.add (k * 0x100)) := by
      intro i hi4
      interval_cases i
      · exact q0
      · exact q1
      · exact q2
      · exact q3
    exact same m4 1 1 i j hi4 hj4 rfl (hq i hi4) (hq j hj4)
  | FourScreens =>
    obtain ⟨m4, e, hm, hi, hp⟩ := key 0 1 2 3 (by decide) (by decide) (by decide) (by decide)
    obtain ⟨h0, h1, h2, h3⟩ := hp 0 (by decide)
    obtain ⟨ia, ha⟩ := hhA
    obtain ⟨ib, hb⟩ := hhB
    have hA2 : ∀ i, A ≠ ⟨Arena.CartNametable i, 0⟩ := by
      intro i h
      rw [h] at ha
      simp at ha
    have hB2 : ∀ i, B ≠ ⟨Arena.CartNametable i, 0⟩ := by
      intro i h
      rw [h] at hb
      simp at hb
    have g0 : m4._chrPages (0x20 + 4 * 0) = some A := by
      rw [show 0x20 + 4 * 0 = 0x20 + 0 from rfl, h0]
      simp [nametablePointer, hA, Ptr.add]
    have g1 : m4._chrPages (0x20 + 4 * 1) = some B := by
      rw [show 0x20 + 4 * 1 = 0x24 + 0 from rfl, h1]
      simp [nametablePointer, hB, Ptr.add]
    have g2 : m4._chrPages (0x20 + 4 * 2) = some ⟨Arena.CartNametable 0, 0⟩ := by
      rw [show 0x20 + 4 * 2 = 0x28 + 0 from rfl, h2]
      simp [nametablePointer, Ptr.add]
    have g3 : m4._chrPages (0x20 + 4 * 3) = some ⟨Arena.CartNametable 1, 0⟩ := by
      rw [show 0x20 + 4 * 3 = 0x2C + 0 from rfl, h3]
      simp [nametablePointer, Ptr.add]
    refine ⟨m4, e, hm, hi, ?_⟩
    intro i j hi4 hj4 hij
    have hBA : B ≠ A := fun h => hAB h.symm
    interval_cases i <;> interval_cases j <;>
      first
      | exact absurd rfl hij
      | (simp only [g0, g1, g2, g3]
         simp [hAB, hBA, hA2, hB2, Ne.symm (hA2 _), Ne.symm (hB2 _)])

/-! ## Replaying patches -/

theorem Patch.apply_comm (P Q : Patch) (t : Tables)
    (h : ∀ b j, P b j = none ∨ Q b j = none ∨ P b j = Q b j) :
    P.apply (Q.apply t) = Q.apply (P.apply t) := by
  funext b j
  unfold Patch.apply
  rcases h b j with h1 | h1 | h1
  · rw [h1]
  · rw [h1]
  · rw [h1]

theorem Patch.apply_absorb (P Q : Patch) (t : Tables)
    (h : ∀ b j, Q b j ≠ none → P b j ≠ none) :
    P.apply (Q.apply t) = P.apply t := by
  funext b j
  unfold Patch.apply
  cases hP : P b j with
  | some e => rfl
  | none =>
    cases hQ : Q b j with
    | none => rfl
    | some e => exact absurd hP (h b j (by rw [hQ]; simp))

theorem tableReplay_congr (patchOf : Nat → Nat → Patch) (live : Nat → Nat → Bool)
    (num num2 : Nat → Nat) (n : Nat) : ∀ (i : Nat) (t : Tables),
    (∀ k, i ≤ k → k < i + n → num k = num2 k) →
    tableReplay patchOf live num n i t = tableReplay patchOf live num2 n i t := by
  induction n with
  | zero => intro i t _; rfl
  | succ n ih =>
    intro i t h
    rw [tableReplay, tableReplay, h i (le_refl i) (by omega)]
    exact ih (i + 1) _ (fun k h1 h2 => h k (by omega) (by omega))

theorem tableReplay_dead (patchOf : Nat → Nat → Patch) (live : Nat → Nat → Bool)
    (num : Nat → Nat) (n : Nat) : ∀ (i : Nat) (t : Tables),
    (∀ k, i ≤ k → k < i + n → live k (num k) = false) →
    tableReplay patchOf live num n i t = t := by
  induction n with
  | zero => intro i t _; rfl
  | succ n ih =>
    intro i t h
    rw [tableReplay, h i (le_refl i) (by omega)]
    exact ih (i + 1) _ (fun k h1 h2 => h k (by omega) (by omega))

theorem tableReplay_add (patchOf : Nat → Nat → Patch) (live : Nat → Nat → Bool)
    (num : Nat → Nat) (a b : Nat) : ∀ (i : Nat) (t : Tables),
    tableReplay patchOf live num (a + b) i t =
      tableReplay patchOf live num b (i + a) (tableReplay patchOf live num a i t) := by
  induction a with
  | zero => intro i t; simp [tableReplay]
  | succ a ih =>
    intro i t
    rw [show a + 1 + b = (a + b) + 1 by omega, tableReplay, tableReplay, ih (i + 1)]
    rw [show i + 1 + a = i + (a + 1) by omega]

theorem tableReplay_comm (patchOf : Nat → Nat → Patch) (live : Nat → Nat → Bool)
    (hf : PatchFamily patchOf) (num : Nat → Nat) (s p : Nat) (n : Nat) :
    ∀ (i : Nat) (t : Tables), (s < i ∨ i + n ≤ s) →
    (patchOf s p).apply (tableReplay patchOf live num n i t) =
      tableReplay patchOf live num n i ((patchOf s p).apply t) := by
  induction n with
  | zero => intro i t _; rfl
  | succ n ih =>
    intro i t h
    rw [tableReplay, tableReplay, ih (i + 1) _ (by omega)]
    by_cases hl : live i (num i) = true
    · rw [if_pos hl, if_pos hl]
      rw [Patch.apply_comm _ _ t (fun b j => hf.1 s i p (num i) b j (by omega))]
    · rw [if_neg hl, if_neg hl]

theorem tableReplay_upd (patchOf : Nat → Nat → Patch) (live : Nat → Nat → Bool)
    (hf : PatchFamily patchOf) (num : Nat → Nat) (s p : Nat) (hl : live s p = true) (n : Nat) :
    ∀ (i : Nat) (t : Tables), i ≤ s → s < i + n →
    tableReplay patchOf live (upd num s p) n i t =
      (patchOf s p).apply (tableReplay patchOf live num n i t) := by
  induction n with
  | zero => intro i t h1 h2; omega
  | succ n ih =>
    intro i t h1 h2
    rw [tableReplay, tableReplay]
    by_cases hi : i = s
    · subst hi
      have hc : tableReplay patchOf live (upd num i p) n (i + 1)
            ((patchOf i p).apply t)
          = tableReplay patchOf live num n (i + 1) ((patchOf i p).apply t) :=
        tableReplay_congr patchOf live _ _ n (i + 1) _
          (fun k hk1 hk2 => by simp [upd]; intro hk; omega)
      have hu : upd num i p i = p := by simp [upd]
      rw [hu, if_pos hl, hc]
      rw [tableReplay_comm patchOf live hf num i p n (i + 1) _ (Or.inl (by omega))]
      by_cases hl2 : live i (num i) = true
      · rw [if_pos hl2, Patch.apply_absorb _ _ t (fun b j => hf.2 i p (num i) b j)]
      · rw [if_neg hl2]
    · have hu : upd num s p i = num i := by simp [upd, hi]
      rw [hu]
      exact ih (i + 1) _ (by omega) (by omega)

/-! ## The selectors as patches -/

theorem SetCpuMemoryMapping_patch (cfg : Config) (m : Mapper) (s e : Nat) (pn : Int)
    (type : PrgMemoryType) (src : Ptr) (cnt psz dflt : Nat) (page : Int)
    (h1 : prgTypeInfo cfg m type = some (src, cnt, psz, dflt))
    (h2 : effectivePage cnt pn = some page) :
    SetCpuMemoryMapping cfg m s e pn type (-1) =
      some (m.patchPrg (windowPatch (s / 256) (e / 256)
        (some ⟨src.arena, src.off + ((page * (psz : Int)) % 2 ^ 32).toNat⟩) dflt)) := by
  rw [SetCpuMemoryMapping_eq cfg m s e pn type (-1) src cnt psz dflt page h1 h2]
  unfold Mapper.patchPrg windowPatch
  congr 2
  · funext j
    by_cases h : s / 256 ≤ j ∧ j ≤ e / 256
    · simp [h, Ptr.add]
    · simp [h]
  · funext j
    by_cases h : s / 256 ≤ j ∧ j ≤ e / 256
    · simp [h]
    · simp [h]

theorem patchPrg_patchPrg (m : Mapper) (P Q : Nat → Option Entry) :
    (m.patchPrg P).patchPrg Q =
      m.patchPrg (fun j =>
        match Q j with
        | some e => some e
        | none => P j) := by
  unfold Mapper.patchPrg
  congr 1
  · funext j
    cases hQ : Q j <;> simp [hQ]
  · funext j
    cases hQ : Q j <;> simp [hQ]

theorem prgRepeatLoop_patch (cfg : Config) (cnt : Nat) (hc : 0 < cnt) (n : Nat) :
    ∀ (slot : Nat) (m : Mapper), GetPRGPageCount cfg m = some cnt →
      prgRepeatLoop cfg PrgMemoryType.PrgRom n slot m =
        some (m.patchPrg (prgRepeatPatch m._prgSize n slot)) := by
  induction n with
  | zero =>
    intro slot m _
    simp [prgRepeatLoop, prgRepeatPatch, Mapper.patchPrg]
  | succ n ih =>
    intro slot m hcnt
    have hmap := SetCpuMemoryMapping_patch cfg m ((0x8000 + slot * m._prgSize) % 65536)
      (((0x8000 + slot * m._prgSize) % 65536 + m._prgSize - 1) % 65536) 0
      PrgMemoryType.PrgRom _ _ _ _ _ (prgTypeInfo_PrgRom cfg m cnt hcnt)
      (effectivePage_zero cnt hc)
    rw [prgRepeatLoop]
    simp only [hmap]
    refine (ih (slot + 1) _ (by exact hcnt)).trans ?_
    rw [patchPrg_patchPrg]
    simp [prgRepeatPatch, Mapper.patchPrg, prgRomPtr]

theorem InternalGetPrgPageSize_le (cfg : Config) (m : Mapper) :
    InternalGetPrgPageSize cfg m ≤ m._prgSize := by
  unfold InternalGetPrgPageSize
  exact le_trans (Nat.mod_le _ _) (Nat.min_le_right _ _)

theorem InternalGetChrPageSize_le (cfg : Config) (m : Mapper) :
    InternalGetChrPageSize cfg m ≤ m._chrRomSize := by
  unfold InternalGetChrPageSize
  exact le_trans (Nat.mod_le _ _) (Nat.min_le_right _ _)

theorem effectivePage_isSome (cnt : Nat) (pn : Int) (h : 0 < cnt) :
    ∃ page, effectivePage cnt pn = some page := by
  unfold effectivePage
  by_cases h1 : pn < 0
  · exact ⟨_, by rw [if_pos h1]⟩
  · exact ⟨_, by rw [if_neg h1, if_neg (by omega)]⟩

/-- `SelectPRGPage` on any mapper with the PRG size of `F`: the page number is recorded and
the PRG page table is patched with `prgPatch`. -/
theorem SelectPRGPage_patch (cfg : Config) (F m : Mapper) (s p : Nat)
    (hsz : m._prgSize = F._prgSize) (h0 : 0 < InternalGetPrgPageSize cfg F) (hs : s < 64)
    (hw : 0x8000 ≤ F._prgSize → 0x8000 + (s + 1) * InternalGetPrgPageSize cfg F ≤ 0x10000) :
    SelectPRGPage cfg m s p PrgMemoryType.PrgRom =
      some (Mapper.patchPrg { m with _prgPageNumbers := upd m._prgPageNumbers s p }
        (prgPatch cfg F s p)) := by
  set m1 : Mapper := { m with _prgPageNumbers := upd m._prgPageNumbers s p } with hm1
  have hsz1 : m1._prgSize = F._prgSize := hsz
  have hips : InternalGetPrgPageSize cfg m1 = InternalGetPrgPageSize cfg F := by
    unfold InternalGetPrgPageSize
    rw [hsz1]
  have hle := InternalGetPrgPageSize_le cfg F
  have hcnt : GetPRGPageCount cfg m1 = some (F._prgSize / InternalGetPrgPageSize cfg F) := by
    unfold GetPRGPageCount
    rw [hips, hsz1, if_neg (by omega)]
  have hcntF : GetPRGPageCount cfg F = some (F._prgSize / InternalGetPrgPageSize cfg F) := by
    unfold GetPRGPageCount
    rw [if_neg (by omega)]
  have hcnt0 : 0 < F._prgSize / InternalGetPrgPageSize cfg F := Nat.div_pos hle h0
  have h64 : ¬ (64 ≤ s) := by omega
  unfold SelectPRGPage
  simp only [h64, if_false]
  by_cases hsmall : F._prgSize < PrgAddressRangeSize
  · have hsmall1 : m._prgSize < PrgAddressRangeSize := by rw [hsz]; exact hsmall
    have hne : ¬ (m._prgSize = 0) := by rw [hsz]; omega
    simp only [hsmall1, if_true, hne, if_false]
    rw [prgRepeatLoop_patch cfg _ hcnt0 _ 0 _ hcnt]
    simp only [prgPatch, hsmall, if_true, hsz]
  · have hbig1 : ¬ (m._prgSize < PrgAddressRangeSize) := by rw [hsz]; exact hsmall
    have hbig : 0x8000 ≤ F._prgSize := by
      unfold PrgAddressRangeSize at hsmall; omega
    have hwin := hw hbig
    have e1 : (s + 1) * InternalGetPrgPageSize cfg F
        = s * InternalGetPrgPageSize cfg F + InternalGetPrgPageSize cfg F := by ring
    rw [e1] at hwin
    obtain ⟨page, hpage⟩ := effectivePage_isSome (F._prgSize / InternalGetPrgPageSize cfg F)
      (toInt16 p) hcnt0
    have hstart : (0x8000 + s * InternalGetPrgPageSize cfg F) % 65536
        = 0x8000 + s * InternalGetPrgPageSize cfg F := Nat.mod_eq_of_lt (by omega)
    have hend : (0x8000 + s * InternalGetPrgPageSize cfg F + InternalGetPrgPageSize cfg F - 1)
        % 65536 = 0x8000 + s * InternalGetPrgPageSize cfg F + InternalGetPrgPageSize cfg F - 1 :=
      Nat.mod_eq_of_lt (by omega)
    simp only [hbig1, if_false, hips, hstart, hend]
    rw [SetCpuMemoryMapping_patch cfg m1 _ _ _ PrgMemoryType.PrgRom _ _ _ _ page
      (prgTypeInfo_PrgRom cfg m1 _ hcnt) hpage]
    have hok : s < 64 ∧ 0x8000 + (s + 1) * InternalGetPrgPageSize cfg F ≤ 0x10000 :=
      ⟨hs, hw hbig⟩
    have ho : prgPageOffset cfg F p
        = ((page * (InternalGetPrgPageSize cfg F : Int)) % 2 ^ 32).toNat := by
      unfold prgPageOffset
      rw [hcntF, Option.some_bind, hpage]
      rfl
    have hp : prgPatch cfg F s p = windowPatch ((0x8000 + s * InternalGetPrgPageSize cfg F) / 256)
        ((0x8000 + s * InternalGetPrgPageSize cfg F + InternalGetPrgPageSize cfg F - 1) / 256)
        (some ⟨Arena.PrgRom, ((page * (InternalGetPrgPageSize cfg F : Int)) % 2 ^ 32).toNat⟩)
        MemoryAccessType.Read := by
      unfold prgPatch
      rw [if_neg hsmall, if_pos hok, ho]
    have hz : prgRomPtr.off + ((page * (InternalGetPrgPageSize cfg F : Int)) % 2 ^ 32).toNat
        = ((page * (InternalGetPrgPageSize cfg F : Int)) % 2 ^ 32).toNat := Nat.zero_add _
    rw [hp, hips, hz]
    rfl

theorem SetPpuMemoryMappingPtr_patch (m : Mapper) (s e : Nat) (src : Option Ptr)
    (access : Nat) (ha : access < 256) :
    SetPpuMemoryMappingPtr m s e src (access : Int) =
      m.patchChr (windowPatch (s / 256) (e / 256) src access) := by
  have h1 : ((access : Nat) : Int) ≠ -1 := by omega
  have h2 : toUInt8 ((access : Nat) : Int) = access := by
    unfold toUInt8
    omega
  rw [SetPpuMemoryMappingPtr_eq]
  unfold Mapper.patchChr windowPatch
  congr 1
  · funext j
    by_cases h : s / 256 ≤ j ∧ j ≤ e / 256
    · simp [h]
    · simp [h]
  · funext j
    by_cases h : s / 256 ≤ j ∧ j ≤ e / 256
    · simp [h, h1, h2]
    · simp [h]

/-- `SelectCHRPage` with the `Default` memory type on any mapper with the CHR members of
`F`: the page number is recorded and the CHR page table is patched with `chrPatch`. -/
theorem SelectCHRPage_patch (cfg : Config) (F m : Mapper) (s p : Nat)
    (hsz : m._chrRomSize = F._chrRomSize) (hoc : m._onlyChrRam = F._onlyChrRam)
    (hcr : m._chrRam = F._chrRam) (h0 : 0 < InternalGetChrPageSize cfg F) (hs : s < 64)
    (hw : (s + 1) * InternalGetChrPageSize cfg F ≤ 0x2000)
    (hsrc : F._onlyChrRam = true → F._chrRam ≠ none) :
    SelectCHRPage cfg m s p ChrMemoryType.Default =
      some (Mapper.patchChr { m with _chrPageNumbers := upd m._chrPageNumbers s p }
        (chrPatch cfg F s p)) := by
  set m1 : Mapper := { m with _chrPageNumbers := upd m._chrPageNumbers s p } with hm1
  have hips : InternalGetChrPageSize cfg m1 = InternalGetChrPageSize cfg F := by
    unfold InternalGetChrPageSize
    rw [show m1._chrRomSize = F._chrRomSize from hsz]
  have hle := InternalGetChrPageSize_le cfg F
  have hcnt0 : 0 < F._chrRomSize / InternalGetChrPageSize cfg F := Nat.div_pos hle h0
  have hinfo : ∀ x : Mapper, x._chrRomSize = F._chrRomSize → x._onlyChrRam = F._onlyChrRam →
      x._chrRam = F._chrRam →
      chrTypeInfo cfg x ChrMemoryType.Default =
        some (if F._onlyChrRam then F._chrRam else some chrRomPtr,
          F._chrRomSize / InternalGetChrPageSize cfg F, InternalGetChrPageSize cfg F,
          chrDefaultAccess F) := by
    intro x h1 h2 h3
    have hx : InternalGetChrPageSize cfg x = InternalGetChrPageSize cfg F := by
      unfold InternalGetChrPageSize
      rw [h1]
    unfold chrTypeInfo GetCHRPageCount chrDefaultAccess
    rw [hx, h1, h2, h3, if_neg (show ¬ (InternalGetChrPageSize cfg F = 0) by omega)]
    rfl
  obtain ⟨q, hq⟩ : ∃ q, (if F._onlyChrRam then F._chrRam else some chrRomPtr) = some q := by
    by_cases h : F._onlyChrRam = true
    · rw [if_pos h]
      exact Option.ne_none_iff_exists'.mp (hsrc h)
    · rw [if_neg h]
      exact ⟨_, rfl⟩
  have e1 : (s + 1) * InternalGetChrPageSize cfg F
      = s * InternalGetChrPageSize cfg F + InternalGetChrPageSize cfg F := by ring
  rw [e1] at hw
  have hstart : (s * InternalGetChrPageSize cfg F) % 65536 = s * InternalGetChrPageSize cfg F :=
    Nat.mod_eq_of_lt (by omega)
  have hend : (s * InternalGetChrPageSize cfg F + InternalGetChrPageSize cfg F + 65535) % 65536
      = s * InternalGetChrPageSize cfg F + InternalGetChrPageSize cfg F - 1 := by omega
  have hacc : chrDefaultAccess F < 256 := by
    unfold chrDefaultAccess
    split_ifs <;> decide
  have hsrcF : chrSource cfg F p = some (q.add
      ((p % (F._chrRomSize / InternalGetChrPageSize cfg F)) * InternalGetChrPageSize cfg F
        % 2 ^ 32)) := by
    unfold chrSource
    rw [hinfo F rfl rfl rfl, Option.some_bind]
    simp only [hq, Option.map]
  have hok : s < 64 ∧ (s + 1) * InternalGetChrPageSize cfg F ≤ 0x2000 := ⟨hs, by rw [e1]; exact hw⟩
  have hp : chrPatch cfg F s p = windowPatch (s * InternalGetChrPageSize cfg F / 256)
      ((s * InternalGetChrPageSize cfg F + InternalGetChrPageSize cfg F - 1) / 256)
      (chrSource cfg F p) (chrDefaultAccess F) := by
    unfold chrPatch
    rw [if_pos hok]
  have h64 : ¬ (64 ≤ s) := by omega
  unfold SelectCHRPage
  simp only [h64, if_false, hips, hstart, hend]
  unfold SetPpuMemoryMapping
  rw [hinfo m1 hsz hoc hcr]
  simp only [hq, ptrAdd]
  rw [if_neg (show ¬ (F._chrRomSize / InternalGetChrPageSize cfg F = 0) by omega)]
  simp only [if_true]
  rw [SetPpuMemoryMappingPtr_patch _ _ _ _ _ hacc, hp, hsrcF]

/-! ## The patches of the replay form a family -/

theorem windowPatch_eq_none (lo hi : Nat) (src : Option Ptr) (a j : Nat) :
    windowPatch lo hi src a j = none ↔ ¬ (lo ≤ j ∧ j ≤ hi) := by
  unfold windowPatch
  by_cases h : lo ≤ j ∧ j ≤ hi <;> simp [h]

theorem window_disjoint (base ps s k j : Nat) (hal : ps % 256 = 0) (h0 : 0 < ps) (hne : s ≠ k) :
    ¬ (((base * 256 + s * ps) / 256 ≤ j ∧ j ≤ (base * 256 + s * ps + ps - 1) / 256) ∧
      ((base * 256 + k * ps) / 256 ≤ j ∧ j ≤ (base * 256 + k * ps + ps - 1) / 256)) := by
  obtain ⟨w, hw⟩ : ∃ w, ps = 256 * w := ⟨ps / 256, by omega⟩
  subst hw
  have e1 : s * (256 * w) = 256 * (s * w) := by ring
  have e2 : k * (256 * w) = 256 * (k * w) := by ring
  rw [e1, e2]
  rcases Nat.lt_or_gt_of_ne hne with h | h
  · have h1 : (s + 1) * w ≤ k * w := Nat.mul_le_mul_right w h
    have h2 : (s + 1) * w = s * w + w := by ring
    omega
  · have h1 : (k + 1) * w ≤ s * w := Nat.mul_le_mul_right w h
    have h2 : (k + 1) * w = k * w + w := by ring
    omega

theorem prgPatch_compat (cfg : Config) (F : Mapper) (hc : ReplayConfig cfg F)
    (i k v w j : Nat) (hik : i ≠ k) :
    prgPatch cfg F i v j = none ∨ prgPatch cfg F k w j = none ∨
      prgPatch cfg F i v j = prgPatch cfg F k w j := by
  unfold prgPatch
  by_cases hsmall : F._prgSize < PrgAddressRangeSize
  · rw [if_pos hsmall, if_pos hsmall]
    exact Or.inr (Or.inr rfl)
  · rw [if_neg hsmall, if_neg hsmall]
    have hbig : 0x8000 ≤ F._prgSize := by
      unfold PrgAddressRangeSize at hsmall; omega
    by_cases h1 : i < 64 ∧ 0x8000 + (i + 1) * InternalGetPrgPageSize cfg F ≤ 0x10000
    · by_cases h2 : k < 64 ∧ 0x8000 + (k + 1) * InternalGetPrgPageSize cfg F ≤ 0x10000
      · rw [if_pos h1, if_pos h2, windowPatch_eq_none, windowPatch_eq_none]
        have hd := window_disjoint 0x80 (InternalGetPrgPageSize cfg F) i k j
          (hc.prgAligned hbig) hc.prgPos hik
        by_cases h3 : (0x8000 + i * InternalGetPrgPageSize cfg F) / 256 ≤ j ∧
            j ≤ (0x8000 + i * InternalGetPrgPageSize cfg F + InternalGetPrgPageSize cfg F - 1) / 256
        · refine Or.inr (Or.inl ?_)
          intro h4
          exact hd ⟨h3, h4⟩
        · exact Or.inl h3
      · rw [if_neg h2]
        exact Or.inr (Or.inl rfl)
    · rw [if_neg h1]
      exact Or.inl rfl

theorem prgPatch_support (cfg : Config) (F : Mapper) (i v w j : Nat)
    (h : prgPatch cfg F i w j ≠ none) : prgPatch cfg F i v j ≠ none := by
  unfold prgPatch at h ⊢
  by_cases hsmall : F._prgSize < PrgAddressRangeSize
  · simp only [hsmall, if_true] at h ⊢
    exact h
  · simp only [hsmall, if_false] at h ⊢
    by_cases h1 : i < 64 ∧ 0x8000 + (i + 1) * InternalGetPrgPageSize cfg F ≤ 0x10000
    · rw [if_pos h1] at h ⊢
      rw [Ne, windowPatch_eq_none] at h ⊢
      exact h
    · rw [if_neg h1] at h
      exact absurd rfl h

theorem chrPatch_compat (cfg : Config) (F : Mapper) (hc : ReplayConfig cfg F)
    (i k v w j : Nat) (hik : i ≠ k) :
    chrPatch cfg F i v j = none ∨ chrPatch cfg F k w j = none ∨
      chrPatch cfg F i v j = chrPatch cfg F k w j := by
  unfold chrPatch
  by_cases h1 : i < 64 ∧ (i + 1) * InternalGetChrPageSize cfg F ≤ 0x2000
  · by_cases h2 : k < 64 ∧ (k + 1) * InternalGetChrPageSize cfg F ≤ 0x2000
    · rw [if_pos h1, if_pos h2, windowPatch_eq_none, windowPatch_eq_none]
      have hd := window_disjoint 0 (InternalGetChrPageSize cfg F) i k j hc.chrAligned hc.chrPos hik
      simp only [Nat.zero_mul, Nat.zero_add] at hd
      by_cases h3 : i * InternalGetChrPageSize cfg F / 256 ≤ j ∧
          j ≤ (i * InternalGetChrPageSize cfg F + InternalGetChrPageSize cfg F - 1) / 256
      · refine Or.inr (Or.inl ?_)
        intro h4
        exact hd ⟨h3, h4⟩
      · exact Or.inl h3
    · rw [if_neg h2]
      exact Or.inr (Or.inl rfl)
  · rw [if_neg h1]
    exact Or.inl rfl

theorem chrPatch_support (cfg : Config) (F : Mapper) (i v w j : Nat)
    (h : chrPatch cfg F i w j ≠ none) : chrPatch cfg F i v j ≠ none := by
  unfold chrPatch at h ⊢
  by_cases h1 : i < 64 ∧ (i + 1) * InternalGetChrPageSize cfg F ≤ 0x2000
  · rw [if_pos h1] at h ⊢
    rw [Ne, windowPatch_eq_none] at h ⊢
    exact h
  · rw [if_neg h1] at h
    exact absurd rfl h

theorem chrPatch_below (cfg : Config) (F : Mapper) (i v j : Nat) (hj : 0x20 ≤ j) :
    chrPatch cfg F i v j = none := by
  unfold chrPatch
  by_cases h1 : i < 64 ∧ (i + 1) * InternalGetChrPageSize cfg F ≤ 0x2000
  · rw [if_pos h1, windowPatch_eq_none]
    have e1 : (i + 1) * InternalGetChrPageSize cfg F
        = i * InternalGetChrPageSize cfg F + InternalGetChrPageSize cfg F := by ring
    have h2 := h1.2
    rw [e1] at h2
    omega
  · rw [if_neg h1]

theorem ntPatch_above (F : Mapper) (i v j : Nat) (hj : j < 0x20) : ntPatch F i v j = none := by
  unfold ntPatch
  by_cases h1 : i < 4
  · rw [if_pos h1, windowPatch_eq_none]
    omega
  · rw [if_neg h1]

theorem ntPatch_compat (F : Mapper) (i k v w j : Nat) (hik : i ≠ k) :
    ntPatch F i v j = none ∨ ntPatch F k w j = none ∨ ntPatch F i v j = ntPatch F k w j := by
  unfold ntPatch
  by_cases h1 : i < 4
  · by_cases h2 : k < 4
    · rw [if_pos h1, if_pos h2, windowPatch_eq_none, windowPatch_eq_none]
      by_cases h3 : 0x20 + 4 * i ≤ j ∧ j ≤ 0x23 + 4 * i
      · exact Or.inr (Or.inl (by omega))
      · exact Or.inl h3
    · rw [if_neg h2]
      exact Or.inr (Or.inl rfl)
  · rw [if_neg h1]
    exact Or.inl rfl

theorem ntPatch_support (F : Mapper) (i v w j : Nat) (h : ntPatch F i w j ≠ none) :
    ntPatch F i v j ≠ none := by
  unfold ntPatch at h ⊢
  by_cases h1 : i < 4
  · rw [if_pos h1] at h ⊢
    rw [Ne, windowPatch_eq_none] at h ⊢
    exact h
  · rw [if_neg h1] at h
    exact absurd rfl h

theorem replayPatch_family (cfg : Config) (F : Mapper) (hc : ReplayConfig cfg F) :
    PatchFamily (replayPatch cfg F) := by
  constructor
  · intro i k v w b j hik
    unfold replayPatch
    cases b with
    | false =>
      by_cases hi : i < 64
      · by_cases hk : k < 64
        · simpa [hi, hk] using prgPatch_compat cfg F hc i k v w j hik
        · right; left
          by_cases hk2 : k < 128 <;> simp [hk, hk2]
      · left
        by_cases hi2 : i < 128 <;> simp [hi, hi2]
    | true =>
      by_cases hi : i < 64
      · left; simp [hi]
      · by_cases hk : k < 64
        · right; left; simp [hk]
        · by_cases hi2 : i < 128
          · by_cases hk2 : k < 128
            · simpa [hi, hk, hi2, hk2] using
                chrPatch_compat cfg F hc (i - 64) (k - 64) v w j (by omega)
            · by_cases hj : j < 0x20
              · right; left
                simp [hk, hk2, ntPatch_above F (k - 128) w j hj]
              · left
                simp [hi, hi2, chrPatch_below cfg F (i - 64) v j (by omega)]
          · by_cases hk2 : k < 128
            · by_cases hj : j < 0x20
              · left
                simp [hi, hi2, ntPatch_above F (i - 128) v j hj]
              · right; left
                simp [hk, hk2, chrPatch_below cfg F (k - 64) w j (by omega)]
            · simpa [hi, hk, hi2, hk2] using
                ntPatch_compat F (i - 128) (k - 128) v w j (by omega)
  · intro i v w b j h
    unfold replayPatch at h ⊢
    cases b with
    | false =>
      by_cases hi : i < 64
      · simp only [hi, if_true] at h ⊢
        exact prgPatch_support cfg F i v w j (by simpa using h)
      · by_cases hi2 : i < 128 <;> simp [hi, hi2] at h
    | true =>
      by_cases hi : i < 64
      · simp [hi] at h
      · by_cases hi2 : i < 128
        · simp only [hi, hi2, if_true, if_false] at h ⊢
          exact chrPatch_support cfg F (i - 64) v w j (by simpa using h)
        · simp only [hi, hi2, if_true, if_false] at h ⊢
          exact ntPatch_support F (i - 128) v w j (by simpa using h)

/-! ## One call is one patch -/

theorem tables_patchPrg (m : Mapper) (P : Nat → Option Entry) :
    (m.patchPrg P).tables = Patch.apply (fun b j => if b then none else P j) m.tables := by
  funext b j
  unfold Mapper.tables Mapper.patchPrg Patch.apply
  cases b with
  | false =>
    cases hP : P j <;> simp [hP]
  | true => simp

theorem tables_patchChr (m : Mapper) (P : Nat → Option Entry) :
    (m.patchChr P).tables = Patch.apply (fun b j => if b then P j else none) m.tables := by
  funext b j
  unfold Mapper.tables Mapper.patchChr Patch.apply
  cases b with
  | false => simp
  | true =>
    cases hP : P j <;> simp [hP]

theorem Call.step (cfg : Config) (F m : Mapper) (c : Call) (hc : ReplayConfig cfg F)
    (hm : SameCartridge F m) (hok : c.ok cfg F) :
    ∃ m2, c.run cfg m = some m2 ∧ SameCartridge F m2 ∧
      m2.tables = (replayPatch cfg F c.slot c.value).apply m.tables ∧
      m2.replayNumbers = upd m.replayNumbers c.slot c.value := by
  cases c with
  | selectPrg s p =>
    obtain ⟨hs, _, hw⟩ := hok
    refine ⟨_, SelectPRGPage_patch cfg F m s p hm.prgSize hc.prgPos hs hw, ?_, ?_, ?_⟩
    · exact ⟨hm.prgSize, hm.chrRomSize, hm.onlyChrRam, hm.chrRam, hm.nes, hm.owned⟩
    · rw [tables_patchPrg]
      have hp : replayPatch cfg F (Call.selectPrg s p).slot (Call.selectPrg s p).value
          = fun b j => if b then none else prgPatch cfg F s p j := by
        funext b j
        simp [replayPatch, Call.slot, Call.value, hs]
      rw [hp]
      rfl
    · funext i
      simp only [Mapper.replayNumbers, Mapper.patchPrg, upd, Call.slot, Call.value]
      by_cases h1 : i < 64
      · simp [h1]
      · have h2 : ¬ (i = s) := by omega
        simp [h1, h2]
  | selectChr s p =>
    obtain ⟨hs, _, hw⟩ := hok
    refine ⟨_, SelectCHRPage_patch cfg F m s p hm.chrRomSize hm.onlyChrRam hm.chrRam hc.chrPos
      hs hw hc.chrSrc, ?_, ?_, ?_⟩
    · exact ⟨hm.prgSize, hm.chrRomSize, hm.onlyChrRam, hm.chrRam, hm.nes, hm.owned⟩
    · rw [tables_patchChr]
      have h1 : ¬ (64 + s < 64) := by omega
      have h2 : 64 + s < 128 := by omega
      have hp : replayPatch cfg F (Call.selectChr s p).slot (Call.selectChr s p).value
          = fun b j => if b then chrPatch cfg F s p j else none := by
        funext b j
        simp [replayPatch, Call.slot, Call.value, h2]
      rw [hp]
      rfl
    · funext i
      simp only [Mapper.replayNumbers, Mapper.patchChr, upd, Call.slot, Call.value]
      by_cases h1 : i < 64
      · have h2 : ¬ (i = 64 + s) := by omega
        simp [h1, h2]
      · by_cases h3 : i < 128
        · by_cases h4 : i = 64 + s
          · subst h4
            simp [h1, h3]
          · have h5 : ¬ (i - 64 = s) := by omega
            simp [h1, h3, h4, h5]
        · have h4 : ¬ (i = 64 + s) := by omega
          simp [h1, h3, h4]
  | setNametable s v =>
    obtain ⟨hs, hv⟩ := hok
    obtain ⟨m2, e, st⟩ := SetNametable_spec m s v hs (Or.inr ⟨hv, hm.owned⟩)
    have hp := nametablePointer_congr F m hm.nes v
    have hrest := st.rest
    have f1 : m2._prgSize = m._prgSize := (congrArg Mapper._prgSize hrest :)
    have f2 : m2._chrRomSize = m._chrRomSize := (congrArg Mapper._chrRomSize hrest :)
    have f3 : m2._onlyChrRam = m._onlyChrRam := (congrArg Mapper._onlyChrRam hrest :)
    have f4 : m2._chrRam = m._chrRam := (congrArg Mapper._chrRam hrest :)
    have f5 : m2._prgPages = m._prgPages := (congrArg Mapper._prgPages hrest :)
    have f6 : m2._prgPageAccessType = m._prgPageAccessType :=
      (congrArg Mapper._prgPageAccessType hrest :)
    have f7 : m2._prgPageNumbers = m._prgPageNumbers := (congrArg Mapper._prgPageNumbers hrest :)
    have f8 : m2._chrPageNumbers = m._chrPageNumbers := (congrArg Mapper._chrPageNumbers hrest :)
    refine ⟨m2, e, ?_, ?_, ?_⟩
    · exact ⟨f1.trans hm.prgSize, f2.trans hm.chrRomSize, f3.trans hm.onlyChrRam,
        f4.trans hm.chrRam, st.nes.trans hm.nes, st.owned hm.owned⟩
    · funext b j
      have h1 : ¬ (128 + s < 64) := by omega
      have h2 : ¬ (128 + s < 128) := by omega
      unfold Mapper.tables Patch.apply replayPatch
      simp only [Call.slot, Call.value, h1, h2, if_false, Nat.add_sub_cancel_left]
      cases b with
      | false => simp [f5, f6]
      | true =>
        simp only [if_true, st.pages j, st.access j, hp, ntPatch, hs, windowPatch]
        by_cases hj : 0x20 + 4 * s ≤ j ∧ j ≤ 0x23 + 4 * s
        · simp [hj]
        · simp [hj]
    · funext i
      simp only [Mapper.replayNumbers, upd, Call.slot, Call.value, f7, f8, st.indexes]
      by_cases h1 : i < 64
      · have h2 : ¬ (i = 128 + s) := by omega
        simp [h1, h2]
      · by_cases h3 : i < 128
        · have h4 : ¬ (i = 128 + s) := by omega
          simp [h1, h3, h4]
        · by_cases h4 : i = 128 + s
          · subst h4
            simp [h1, h3]
          · have h5 : ¬ (i - 128 = s) := by omega
            simp [h1, h3, h4, h5]

/-! ## Calls and replay build the same tables -/

theorem slotCall_of_ok (cfg : Config) (F : Mapper) (c : Call) (h : c.ok cfg F) :
    slotCall c.slot c.value = c := by
  cases c with
  | selectPrg s p =>
    have h1 : s < 64 := h.1
    simp [slotCall, Call.slot, Call.value, h1]
  | selectChr s p =>
    have h1 : s < 64 := h.1
    have h2 : ¬ (64 + s < 64) := by omega
    have h3 : 64 + s < 128 := by omega
    simp [slotCall, Call.slot, Call.value, h3]
  | setNametable s v =>
    have h2 : ¬ (128 + s < 64) := by omega
    have h3 : ¬ (128 + s < 128) := by omega
    simp [slotCall, Call.slot, Call.value, h2, h3]

theorem slotCall_slot (i v : Nat) : (slotCall i v).slot = i ∧ (slotCall i v).value = v := by
  unfold slotCall
  by_cases h1 : i < 64
  · simp [h1, Call.slot, Call.value]
  · by_cases h2 : i < 128
    · simp only [h1, h2, if_true, if_false, Call.slot, Call.value, and_true]
      omega
    · simp only [h1, h2, if_false, Call.slot, Call.value, and_true]
      omega

theorem replayLive_of_ok (cfg : Config) (F : Mapper) (c : Call) (h : c.ok cfg F) :
    replayLive c.slot c.value = true := by
  cases c with
  | selectPrg s p =>
    have h1 : s < 128 := by have := h.1; omega
    have h2 : p ≠ pageSentinel := by
      have := h.2.1
      unfold pageSentinel
      omega
    simp [replayLive, Call.slot, Call.value, h1, h2]
  | selectChr s p =>
    have h1 : 64 + s < 128 := by have := h.1; omega
    have h2 : p ≠ pageSentinel := by
      have := h.2.1
      unfold pageSentinel
      omega
    simp [replayLive, Call.slot, Call.value, h1, h2]
  | setNametable s v =>
    simp [replayLive, Call.slot, Call.value]

theorem Call.slot_lt (cfg : Config) (F : Mapper) (c : Call) (h : c.ok cfg F) : c.slot < 132 := by
  cases c with
  | selectPrg s p => have := h.1; simp only [Call.slot]; omega
  | selectChr s p => have := h.1; simp only [Call.slot]; omega
  | setNametable s v => have := h.1; simp only [Call.slot]; omega

/-- The page tables after any sequence of admissible calls are the ascending replay of the
recorded values over the tables of `F`. -/
theorem runCalls_tables (cfg : Config) (F : Mapper) (hc : ReplayConfig cfg F)
    (calls : List Call) : ∀ (m : Mapper), SameCartridge F m → (∀ c ∈ calls, c.ok cfg F) →
    NumbersOk cfg F m →
    m.tables = tableReplay (replayPatch cfg F) replayLive m.replayNumbers 132 0 F.tables →
    ∃ S, runCalls cfg calls m = some S ∧ SameCartridge F S ∧ NumbersOk cfg F S ∧
      S.tables = tableReplay (replayPatch cfg F) replayLive S.replayNumbers 132 0 F.tables := by
  induction calls with
  | nil =>
    intro m hm _ hn hinv
    exact ⟨m, rfl, hm, hn, hinv⟩
  | cons c cs ih =>
    intro m hm hok hn hinv
    have hcok := hok c (List.mem_cons_self c cs)
    obtain ⟨m2, e, hm2, ht, hnum⟩ := Call.step cfg F m c hc hm hcok
    have hn2 : NumbersOk cfg F m2 := by
      intro i hi hl
      rw [hnum] at hl ⊢
      by_cases h : i = c.slot
      · subst h
        simp only [upd, if_true]
        rw [slotCall_of_ok cfg F c hcok]
        exact hcok
      · simp only [upd, h, if_false] at hl ⊢
        exact hn i hi hl
    have hinv2 : m2.tables =
        tableReplay (replayPatch cfg F) replayLive m2.replayNumbers 132 0 F.tables := by
      rw [ht, hinv, hnum]
      exact (tableReplay_upd (replayPatch cfg F) replayLive (replayPatch_family cfg F hc)
        m.replayNumbers c.slot c.value (replayLive_of_ok cfg F c hcok) 132 0 F.tables
        (Nat.zero_le _) (by have := Call.slot_lt cfg F c hcok; omega)).symm
    obtain ⟨S, e2, h1, h2, h3⟩ := ih m2 hm2
      (fun x hx => hok x (List.mem_cons_of_mem c hx)) hn2 hinv2
    exact ⟨S, by simp [runCalls, e, e2], h1, h2, h3⟩

/-- One iteration of a replay loop on a live slot. -/
theorem replay_step (cfg : Config) (F m : Mapper) (i : Nat) (hc : ReplayConfig cfg F)
    (hm : SameCartridge F m) (hi : i < 132) (hn : NumbersOk cfg F m)
    (hl : replayLive i (m.replayNumbers i) = true) :
    ∃ m2, (slotCall i (m.replayNumbers i)).run cfg m = some m2 ∧ SameCartridge F m2 ∧
      m2.replayNumbers = m.replayNumbers ∧
      m2.tables = (replayPatch cfg F i (m.replayNumbers i)).apply m.tables := by
  obtain ⟨m2, e, h1, h2, h3⟩ := Call.step cfg F m (slotCall i (m.replayNumbers i)) hc hm
    (hn i hi hl)
  obtain ⟨s1, s2⟩ := slotCall_slot i (m.replayNumbers i)
  rw [s1, s2] at h2 h3
  refine ⟨m2, e, h1, ?_, h2⟩
  rw [h3]
  funext k
  by_cases hk : k = i
  · subst hk
    simp [upd]
  · simp [upd, hk]

theorem NumbersOk_congr (cfg : Config) (F m m2 : Mapper)
    (h : ∀ i, i < 132 → m2.replayNumbers i = m.replayNumbers i) (hn : NumbersOk cfg F m) :
    NumbersOk cfg F m2 := by
  intro i hi hl
  rw [h i hi] at hl ⊢
  exact hn i hi hl

theorem replayPrgPages_tables (cfg : Config) (F : Mapper) (hc : ReplayConfig cfg F) (n : Nat) :
    ∀ (i : Nat) (m : Mapper), i + n ≤ 64 → SameCartridge F m → NumbersOk cfg F m →
    ∃ m2, replayPrgPages cfg n i m = some m2 ∧ SameCartridge F m2 ∧
      m2.replayNumbers = m.replayNumbers ∧
      m2.tables = tableReplay (replayPatch cfg F) replayLive m.replayNumbers n i m.tables := by
  induction n with
  | zero =>
    intro i m _ hm _
    exact ⟨m, rfl, hm, rfl, rfl⟩
  | succ n ih =>
    intro i m hi hm hn
    have hi64 : i < 64 := by omega
    have hnum : m.replayNumbers i = m._prgPageNumbers i := by
      simp [Mapper.replayNumbers, hi64]
    have hcall : slotCall i (m.replayNumbers i) = Call.selectPrg i (m._prgPageNumbers i) := by
      simp [slotCall, hi64, hnum]
    rw [replayPrgPages, tableReplay]
    by_cases hs : m._prgPageNumbers i = pageSentinel
    · have hl : replayLive i (m.replayNumbers i) = false := by
        have : i < 128 := by omega
        simp [replayLive, hnum, hs, this]
      rw [if_neg (by simpa using hs), hl]
      exact ih (i + 1) m (by omega) hm hn
    · have hl : replayLive i (m.replayNumbers i) = true := by
        have : i < 128 := by omega
        simp [replayLive, hnum, hs, this]
      obtain ⟨m2, e, h1, h2, h3⟩ := replay_step cfg F m i hc hm (by omega) hn hl
      have hok := hn i (by omega) hl
      rw [hcall] at e hok
      have hp : m._prgPageNumbers i % 65536 = m._prgPageNumbers i :=
        Nat.mod_eq_of_lt hok.2.1
      obtain ⟨m3, e3, g1, g2, g3⟩ := ih (i + 1) m2 (by omega) h1
        (NumbersOk_congr cfg F m m2 (fun k _ => by rw [h2]) hn)
      refine ⟨m3, ?_, g1, g2.trans h2, ?_⟩
      · rw [if_pos hs, hp]
        simp only [Call.run] at e
        rw [e]
        exact e3
      · rw [g3, h2, h3, hl]
        rfl

theorem replayChrPages_tables (cfg : Config) (F : Mapper) (hc : ReplayConfig cfg F) (n : Nat) :
    ∀ (i : Nat) (m : Mapper), i + n ≤ 64 → SameCartridge F m → NumbersOk cfg F m →
    ∃ m2, replayChrPages cfg n i m = some m2 ∧ SameCartridge F m2 ∧
      m2.replayNumbers = m.replayNumbers ∧
      m2.tables =
        tableReplay (replayPatch cfg F) replayLive m.replayNumbers n (64 + i) m.tables := by
  induction n with
  | zero =>
    intro i m _ hm _
    exact ⟨m, rfl, hm, rfl, rfl⟩
  | succ n ih =>
    intro i m hi hm hn
    have h1 : ¬ (64 + i < 64) := by omega
    have h2 : 64 + i < 128 := by omega
    have hnum : m.replayNumbers (64 + i) = m._chrPageNumbers i := by
      simp [Mapper.replayNumbers, h2]
    have hcall : slotCall (64 + i) (m.replayNumbers (64 + i))
        = Call.selectChr i (m._chrPageNumbers i) := by
      simp [slotCall, h2, hnum]
    rw [replayChrPages, tableReplay]
    by_cases hs : m._chrPageNumbers i = pageSentinel
    · have hl : replayLive (64 + i) (m.replayNumbers (64 + i)) = false := by
        simp [replayLive, hnum, hs, h2]
      rw [if_neg (by simpa using hs), hl]
      have := ih (i + 1) m (by omega) hm hn
      rw [show 64 + (i + 1) = 64 + i + 1 by omega] at this
      exact this
    · have hl : replayLive (64 + i) (m.replayNumbers (64 + i)) = true := by
        simp [replayLive, hnum, hs, h2]
      obtain ⟨m2, e, g1, g2, g3⟩ := replay_step cfg F m (64 + i) hc hm (by omega) hn hl
      have hok := hn (64 + i) (by omega) hl
      rw [hcall] at e hok
      have hp : m._chrPageNumbers i % 65536 = m._chrPageNumbers i :=
        Nat.mod_eq_of_lt hok.2.1
      obtain ⟨m3, e3, k1, k2, k3⟩ := ih (i + 1) m2 (by omega) g1
        (NumbersOk_congr cfg F m m2 (fun k _ => by rw [g2]) hn)
      refine ⟨m3, ?_, k1, k2.trans g2, ?_⟩
      · rw [if_pos hs, hp]
        simp only [Call.run] at e
        rw [e]
        exact e3
      · rw [k3, g2, g3, hl, show 64 + (i + 1) = 64 + i + 1 by omega]
        rfl

theorem replayNametables_tables (cfg : Config) (F : Mapper) (hc : ReplayConfig cfg F) (n : Nat) :
    ∀ (i : Nat) (m : Mapper), i + n ≤ 4 → SameCartridge F m → NumbersOk cfg F m →
    ∃ m2, replayNametables n i m = some m2 ∧ SameCartridge F m2 ∧
      m2.replayNumbers = m.replayNumbers ∧
      m2.tables =
        tableReplay (replayPatch cfg F) replayLive m.replayNumbers n (128 + i) m.tables := by
  induction n with
  | zero =>
    intro i m _ hm _
    exact ⟨m, rfl, hm, rfl, rfl⟩
  | succ n ih =>
    intro i m hi hm hn
    have h1 : ¬ (128 + i < 64) := by omega
    have h2 : ¬ (128 + i < 128) := by omega
    have hnum : m.replayNumbers (128 + i) = m._nametableIndexes i := by
      simp [Mapper.replayNumbers, h1, h2]
    have hcall : slotCall (128 + i) (m.replayNumbers (128 + i))
        = Call.setNametable i (m._nametableIndexes i) := by
      simp [slotCall, hnum, h1, h2]
    have hl : replayLive (128 + i) (m.replayNumbers (128 + i)) = true := by
      simp [replayLive, h2]
    rw [replayNametables, tableReplay]
    obtain ⟨m2, e, g1, g2, g3⟩ := replay_step cfg F m (128 + i) hc hm (by omega) hn hl
    rw [hcall] at e
    obtain ⟨m3, e3, k1, k2, k3⟩ := ih (i + 1) m2 (by omega) g1
      (NumbersOk_congr cfg F m m2 (fun k _ => by rw [g2]) hn)
    refine ⟨m3, ?_, k1, k2.trans g2, ?_⟩
    · simp only [Call.run] at e
      rw [e]
      exact e3
    · rw [k3, g2, g3, hl, show 128 + (i + 1) = 128 + i + 1 by omega]
      rfl

/-! ## The freshly initialised mapper -/

theorem tableReplay_fixed (patchOf : Nat → Nat → Patch) (live : Nat → Nat → Bool)
    (num : Nat → Nat) (t : Tables) (n : Nat) : ∀ (i : Nat),
    (∀ k, i ≤ k → k < i + n → live k (num k) = true → (patchOf k (num k)).apply t = t) →
    tableReplay patchOf live num n i t = t := by
  induction n with
  | zero => intro i _; rfl
  | succ n ih =>
    intro i h
    have hstep : (if live i (num i) then (patchOf i (num i)).apply t else t) = t := by
      by_cases hl : live i (num i) = true
      · rw [if_pos hl]
        exact h i (Nat.le_refl _) (by omega) hl
      · rw [if_neg hl]
    unfold tableReplay
    rw [hstep]
    exact ih (i + 1) (fun k h1 h2 => h k (by omega) (by omega))

theorem NametableStep.core_eq {m m2 : Mapper} {index nt : Nat}
    (st : NametableStep m m2 index nt) : m2.core = m.core :=
  (congrArg Mapper.core st.rest :)

theorem SetNametables_keeps_core (m m4 : Mapper) (a b c d : Nat) (ha : a < 4) (hb : b < 4)
    (hc : c < 4) (hd : d < 4) (ho : CartNametablesOwned m)
    (h : SetNametables m a b c d = some m4) : m4.core = m.core := by
  obtain ⟨m1, e1, s1⟩ := SetNametable_spec m 0 a (by decide) (Or.inr ⟨ha, ho⟩)
  obtain ⟨m2, e2, s2⟩ := SetNametable_spec m1 1 b (by decide) (Or.inr ⟨hb, s1.owned ho⟩)
  obtain ⟨m3, e3, s3⟩ := SetNametable_spec m2 2 c (by decide)
    (Or.inr ⟨hc, s2.owned (s1.owned ho)⟩)
  obtain ⟨m5, e4, s4⟩ := SetNametable_spec m3 3 d (by decide)
    (Or.inr ⟨hd, s3.owned (s2.owned (s1.owned ho))⟩)
  have h5 : m4 = m5 := by
    simp [SetNametables, e1, e2, e3, e4] at h
    exact h.symm
  rw [h5, s4.core_eq, s3.core_eq, s2.core_eq, s1.core_eq]

theorem SetMirroringType_indexes (m : Mapper) (t : MirroringType) :
    ∃ a b c d, a < 4 ∧ b < 4 ∧ c < 4 ∧ d < 4 ∧
      SetMirroringType m t = SetNametables { m with _mirroringType := t } a b c d := by
  cases t with
  | Vertical => exact ⟨0, 1, 0, 1, by decide, by decide, by decide, by decide, rfl⟩
  | Horizontal => exact ⟨0, 0, 1, 1, by decide, by decide, by decide, by decide, rfl⟩
  | FourScreens => exact ⟨0, 1, 2, 3, by decide, by decide, by decide, by decide, rfl⟩
  | ScreenAOnly => exact ⟨0, 0, 0, 0, by decide, by decide, by decide, by decide, rfl⟩
  | ScreenBOnly => exact ⟨1, 1, 1, 1, by decide, by decide, by decide, by decide, rfl⟩

/-- A nametable slot that already shows the page its index selects is not changed by the
replay of that index. -/
theorem ntPatch_fixed (cfg : Config) (F : Mapper) (s base v : Nat) (t : Tables) (hs : s < 4)
    (hbase : base = 0x20 + 4 * s)
    (hp : ∀ k, k < 4 →
      t true (base + k) = ((nametablePointer F v).map (fun p => p.add (k * 0x100)),
        MemoryAccessType.ReadWrite)) :
    (replayPatch cfg F (128 + s) v).apply t = t := by
  funext b j
  have h1 : ¬ (128 + s < 64) := by omega
  have h2 : ¬ (128 + s < 128) := by omega
  unfold Patch.apply replayPatch
  simp only [h1, h2, if_false, Nat.add_sub_cancel_left]
  cases b with
  | false => simp
  | true =>
    simp only [if_true, ntPatch, hs, windowPatch]
    by_cases hj : 0x20 + 4 * s ≤ j ∧ j ≤ 0x23 + 4 * s
    · have hk := hp (j - base) (by omega)
      rw [show base + (j - base) = j by omega] at hk
      rw [if_pos hj, hk, hbase]
    · rw [if_neg hj]

theorem SetCpuMemoryMapping_frame (cfg : Config) (m m2 : Mapper) (s e : Nat) (pn : Int)
    (type : PrgMemoryType) (acc : Int)
    (h : SetCpuMemoryMapping cfg m s e pn type acc = some m2) : m2.frame = m.frame := by
  cases h1 : prgTypeInfo cfg m type with
  | none => simp [SetCpuMemoryMapping, h1] at h
  | some info =>
    obtain ⟨src, cnt, psz, dflt⟩ := info
    cases h2 : effectivePage cnt pn with
    | none => simp [SetCpuMemoryMapping, h1, h2] at h
    | some page =>
      rw [SetCpuMemoryMapping_eq cfg m s e pn type acc src cnt psz dflt page h1 h2] at h
      rw [← Option.some.inj h]
      rfl

theorem Fresh_of_frame (m m2 : Mapper) (h : m2.frame = m.frame) (hm : Fresh m) : Fresh m2 := by
  have e1 : m2._prgPageNumbers = m._prgPageNumbers := (congrArg (fun x => x.1) h :)
  have e2 : m2._chrPageNumbers = m._chrPageNumbers := (congrArg (fun x => x.2.1) h :)
  have e3 : m2._cartNametableRam = m._cartNametableRam := (congrArg (fun x => x.2.2.1) h :)
  have e4 : m2._onlyChrRam = m._onlyChrRam := (congrArg (fun x => x.2.2.2.1) h :)
  have e5 : m2._chrRam = m._chrRam := (congrArg (fun x => x.2.2.2.2.1) h :)
  have e6 : m2._chrRomSize = m._chrRomSize := (congrArg (fun x => x.2.2.2.2.2) h :)
  unfold Fresh
  rw [e1, e2, e3, e4, e5, e6]
  exact hm

theorem LoadBattery_frame (cfg : Config) (env : Env) (m m2 : Mapper)
    (h : LoadBattery cfg env m = some m2) : m2.frame = m.frame := by
  unfold LoadBattery at h
  cases hb : env.batteryFile with
  | none =>
    rw [hb] at h
    have r := SetCpuMemoryMapping_frame _ _ m2 _ _ _ _ _ h
    exact r
  | some bytes =>
    rw [hb] at h
    have r := SetCpuMemoryMapping_frame _ _ m2 _ _ _ _ _ h
    exact r

theorem Fresh_mk (m : Mapper) (h1 : m._prgPageNumbers = fun _ => pageSentinel)
    (h2 : m._chrPageNumbers = fun _ => pageSentinel) (h3 : m._cartNametableRam = fun _ => none)
    (h4 : m._onlyChrRam = false) : Fresh m := by
  refine ⟨fun i => by rw [h1], fun i => by rw [h2], fun i => by rw [h3], fun h => ?_⟩
  rw [h4] at h
  exact absurd h (by decide)

theorem InitializeChrRam_members (cfg : Config) (m : Mapper) :
    (InitializeChrRam cfg m)._prgPageNumbers = m._prgPageNumbers ∧
      (InitializeChrRam cfg m)._chrPageNumbers = m._chrPageNumbers ∧
      (InitializeChrRam cfg m)._cartNametableRam = m._cartNametableRam ∧
      ((InitializeChrRam cfg m)._chrRam = none → (InitializeChrRam cfg m)._chrRamSize = 0) := by
  unfold InitializeChrRam
  by_cases hsz : 0 < cfg.GetChrRamSize % 2 ^ 32
  · rw [if_pos hsz]
    exact ⟨rfl, rfl, rfl, fun h => Option.noConfusion h⟩
  · rw [if_neg hsz]
    exact ⟨rfl, rfl, rfl, fun _ => Nat.eq_zero_of_not_pos hsz⟩

theorem Fresh_chrRam (cfg : Config) (m : Mapper) (hm : Fresh m) :
    Fresh
      (if m._chrRomSize = 0 then
        { InitializeChrRam cfg { m with _onlyChrRam := true } with
          _chrRomSize := (InitializeChrRam cfg { m with _onlyChrRam := true })._chrRamSize }
      else m) := by
  by_cases h0 : m._chrRomSize = 0
  · rw [if_pos h0]
    obtain ⟨e1, e2, e3, e4⟩ := InitializeChrRam_members cfg { m with _onlyChrRam := true }
    refine ⟨?_, ?_, ?_, ?_⟩
    · intro i
      exact (congrFun e1 i).trans (hm.1 i)
    · intro i
      exact (congrFun e2 i).trans (hm.2.1 i)
    · intro i
      exact (congrFun e3 i).trans (hm.2.2.1 i)
    · intro _ h
      exact e4 h
  · rw [if_neg h0]
    exact hm

/-- The state `Initialize` hands to the hooks `InitMapper` has no page selected. -/
theorem initPrefix_fresh (cfg : Config) (env : Env) (romData : RomData) (P : Mapper)
    (h : initPrefix cfg env romData = some P) : Fresh P := by
  unfold initPrefix at h
  simp only [Option.bind_eq_some] at h
  obtain ⟨m2, h2, h4⟩ := h
  have f2 : Fresh m2 := by
    split at h2
    · exact Fresh_of_frame _ m2 (LoadBattery_frame _ _ _ m2 h2) (Fresh_mk _ rfl rfl rfl rfl)
    · rw [← Option.some.inj h2]
      exact Fresh_mk _ rfl rfl rfl rfl
  have f3 : Fresh (chrRamStage cfg m2) := Fresh_chrRam cfg m2 f2
  exact Fresh_of_frame _ P (SetCpuMemoryMapping_frame _ _ P _ _ _ _ _ h4) f3

/-- Loading the saved state of `S` into `F` rebuilds the page tables of `S`, when they are the
replay of the recorded numbers over the tables of `F`. -/
theorem restore_tables (cfg : Config) (F S : Mapper) (hc : ReplayConfig cfg F)
    (hFF : SameCartridge F F) (hn : NumbersOk cfg F S)
    (hinv : S.tables =
      tableReplay (replayPatch cfg F) replayLive S.replayNumbers 132 0 F.tables) :
    ∃ R, StreamState cfg false F (saveSnapshot cfg S) = some (R, saveSnapshot cfg S) ∧
      R.tables = S.tables := by
  have hL : SameCartridge F (loadSnapshot cfg F (saveSnapshot cfg S)) :=
    ⟨rfl, rfl, rfl, rfl, rfl, hFF.owned⟩
  have hnum : ∀ i, i < 132 →
      (loadSnapshot cfg F (saveSnapshot cfg S)).replayNumbers i = S.replayNumbers i := by
    intro i hi
    unfold Mapper.replayNumbers
    by_cases h1 : i < 64
    · rw [if_pos h1, if_pos h1]
      show (if i < 64 then (if i < 64 then S._prgPageNumbers i else 0)
        else F._prgPageNumbers i) = S._prgPageNumbers i
      rw [if_pos h1, if_pos h1]
    · by_cases h2 : i < 128
      · have h3 : i - 64 < 64 := by omega
        rw [if_neg h1, if_neg h1, if_pos h2, if_pos h2]
        generalize i - 64 = k at h3 ⊢
        show (if k < 64 then (if k < 64 then S._chrPageNumbers k else 0)
          else F._chrPageNumbers k) = S._chrPageNumbers k
        rw [if_pos h3, if_pos h3]
      · have h3 : i - 128 < 4 := by omega
        rw [if_neg h1, if_neg h1, if_neg h2, if_neg h2]
        generalize i - 128 = k at h3 ⊢
        show (if k < 4 then (if k < 4 then S._nametableIndexes k else 0)
          else F._nametableIndexes k) = S._nametableIndexes k
        rw [if_pos h3, if_pos h3]
  have hnL : NumbersOk cfg F (loadSnapshot cfg F (saveSnapshot cfg S)) :=
    NumbersOk_congr cfg F S _ hnum hn
  obtain ⟨m2, e2, hm2, n2, t2⟩ := replayPrgPages_tables cfg F hc 64 0 _ (by decide) hL hnL
  have hn2 : NumbersOk cfg F m2 := NumbersOk_congr cfg F _ m2 (fun i _ => by rw [n2]) hnL
  obtain ⟨m3, e3, hm3, n3, t3⟩ := replayChrPages_tables cfg F hc 64 0 m2 (by decide) hm2 hn2
  have hn3 : NumbersOk cfg F m3 := NumbersOk_congr cfg F m2 m3 (fun i _ => by rw [n3]) hn2
  obtain ⟨m4, e4, _, _, t4⟩ := replayNametables_tables cfg F hc 4 0 m3 (by decide) hm3 hn3
  refine ⟨m4, ?_, ?_⟩
  · simp [StreamState, e2, e3, e4]
  · have hLt : (loadSnapshot cfg F (saveSnapshot cfg S)).tables = F.tables := rfl
    have a1 := tableReplay_add (replayPatch cfg F) replayLive
      (loadSnapshot cfg F (saveSnapshot cfg S)).replayNumbers 128 4 0 F.tables
    have a2 := tableReplay_add (replayPatch cfg F) replayLive
      (loadSnapshot cfg F (saveSnapshot cfg S)).replayNumbers 64 64 0 F.tables
    rw [t4, t3, t2, n3, n2, hLt, hinv,
      ← tableReplay_congr _ _ _ _ 132 0 F.tables (fun k _ hk => hnum k (by omega)),
      show 132 = 128 + 4 from rfl, a1, show 128 = 64 + 64 from rfl, a2]

/-- The restrictions on the mapper class under which the replay is order independent hold for
a mapper that `Initialize` and `SetDefaultNametables` produced. -/
theorem ReplayConfig_of_fresh (cfg : Config) (F0 F : Mapper) (hf : Fresh F0)
    (hcore : F.core = F0.core)
    (hprg0 : 0 < InternalGetPrgPageSize cfg F)
    (hprgA : 0x8000 ≤ F._prgSize → InternalGetPrgPageSize cfg F % 256 = 0)
    (hchr0 : 0 < InternalGetChrPageSize cfg F)
    (hchrA : InternalGetChrPageSize cfg F % 256 = 0) : ReplayConfig cfg F := by
  refine ⟨hprg0, hprgA, hchr0, hchrA, ?_⟩
  have e1 : F._chrRomSize = F0._chrRomSize := (congrArg (fun x => x.2.1) hcore :)
  have e2 : F._onlyChrRam = F0._onlyChrRam := (congrArg (fun x => x.2.2.1) hcore :)
  have e3 : F._chrRam = F0._chrRam := (congrArg (fun x => x.2.2.2.1) hcore :)
  intro h1 h2
  rw [e2] at h1
  rw [e3] at h2
  have h3 := hf.2.2.2 h1 h2
  unfold InternalGetChrPageSize at hchr0
  rw [e1, h3] at hchr0
  simp at hchr0

theorem registerLoop_eq (value : Bool) (n : Nat) : ∀ (i : Nat) (f : Nat → Bool) (a : Nat),
    registerLoop value n i f a = if i ≤ a ∧ a < i + n then value else f a := by
  induction n with
  | zero =>
    intro i f a
    have h : ¬ (i ≤ a ∧ a < i + 0) := by omega
    rw [if_neg h]
    rfl
  | succ n ih =>
    intro i f a
    unfold registerLoop
    rw [ih]
    by_cases h1 : i + 1 ≤ a ∧ a < i + 1 + n
    · have h2 : i ≤ a ∧ a < i + (n + 1) := by omega
      rw [if_pos h1, if_pos h2]
    · rw [if_neg h1]
      unfold upd
      by_cases h3 : a = i
      · have h2 : i ≤ a ∧ a < i + (n + 1) := by omega
        rw [if_pos h3, if_pos h2]
      · have h2 : ¬ (i ≤ a ∧ a < i + (n + 1)) := by omega
        rw [if_neg h3, if_neg h2]

theorem toInt32_of_small (x : Nat) (h : x < 2 ^ 31) : toInt32 (x : Int) = x := by
  unfold toInt32
  have h1 : ((x : Int)) % 2 ^ 32 = x := by omega
  simp only [h1]
  rw [if_pos (by omega)]

/-- The value `FromAbsoluteAddress` returns at a hit in slot `i < 256`. -/
theorem fromAbsolute_hit_value (i d : Nat) (hi : i < 256) (hd : d ≤ 0xFF) :
    toInt32 ((((i <<< 8) + d % 2 ^ 32) % 2 ^ 32 : Nat) : Int) = ((i * 256 + d : Nat) : Int) := by
  have h1 : i <<< 8 = i * 256 := by
    rw [Nat.shiftLeft_eq]
  rw [h1]
  have h2 : (i * 256 + d % 2 ^ 32) % 2 ^ 32 = i * 256 + d := by omega
  rw [h2]
  exact toInt32_of_small _ (by omega)

/-- The loop of `FromAbsoluteAddress` returns the address built from the first slot that
covers the byte. -/
theorem fromAbsoluteLoop_first (m : Mapper) (addr : Nat) (n : Nat) : ∀ (i k : Nat) (p : Ptr),
    i ≤ k → k < i + n → k < 256 → m._prgPages k = some p → p.arena = Arena.PrgRom →
    p.off ≤ addr → addr ≤ p.off + 0xFF → (∀ j, i ≤ j → j < k → ¬ coversByte m addr j) →
    fromAbsoluteLoop m addr n i = ((k * 256 + (addr - p.off) : Nat) : Int) := by
  induction n with
  | zero => intro i k p h1 h2; omega
  | succ n ih =>
    intro i k p h1 h2 hk hp ha hlo hhi hfirst
    unfold fromAbsoluteLoop
    by_cases hik : i = k
    · subst hik
      rw [hp]
      simp only
      rw [if_pos ⟨ha, hlo, hhi⟩]
      exact fromAbsolute_hit_value i (addr - p.off) hk (by omega)
    · have hno := hfirst i (Nat.le_refl _) (by omega)
      have hrec := ih (i + 1) k p (by omega) (by omega) hk hp ha hlo hhi
        (fun j hj1 hj2 => hfirst j (by omega) hj2)
      cases hq : m._prgPages i with
      | none => exact hrec
      | some q =>
        simp only
        by_cases hc : q.arena = Arena.PrgRom ∧ q.off ≤ addr ∧ addr ≤ q.off + 0xFF
        · exact absurd ⟨q, hq, hc⟩ hno
        · rw [if_neg hc]
          exact hrec

/-- The loop of `FromAbsoluteAddress` returns -1 when no slot covers the byte. -/
theorem fromAbsoluteLoop_none (m : Mapper) (addr : Nat) (n : Nat) : ∀ (i : Nat),
    (∀ j, i ≤ j → j < i + n → ¬ coversByte m addr j) → fromAbsoluteLoop m addr n i = -1 := by
  induction n with
  | zero => intro i _; rfl
  | succ n ih =>
    intro i h
    unfold fromAbsoluteLoop
    have hno := h i (Nat.le_refl _) (by omega)
    have hrec := ih (i + 1) (fun j hj1 hj2 => h j (by omega) (by omega))
    cases hq : m._prgPages i with
    | none => exact hrec
    | some q =>
      simp only
      by_cases hc : q.arena = Arena.PrgRom ∧ q.off ≤ addr ∧ addr ≤ q.off + 0xFF
      · exact absurd ⟨q, hq, hc⟩ hno
      · rw [if_neg hc]
        exact hrec

/-- Among the slots below `n` that cover the byte there is a lowest one. -/
theorem coversByte_first (m : Mapper) (off : Nat) (n : Nat) :
    (∃ i, i < n ∧ coversByte m off i) →
    ∃ k, k < n ∧ coversByte m off k ∧ ∀ j, j < k → ¬ coversByte m off j := by
  classical
  intro h
  refine ⟨Nat.find h, (Nat.find_spec h).1, (Nat.find_spec h).2, ?_⟩
  intro j hj hc
  exact Nat.find_min h hj ⟨lt_trans hj (Nat.find_spec h).1, hc⟩

/-- The stages of `Initialize`: everything up to the hooks, the hooks, the cheats. -/
theorem Initialize_hooks (cfg : Config) (env : Env) (romData : RomData) :
    Initialize cfg env romData =
      (initPrefix cfg env romData).bind fun m4 =>
        (runHooks cfg romData m4).map (ApplyCheats env) := by
  have h : Initialize cfg env romData =
      ((if (initialMembers cfg romData)._hasBattery then
          LoadBattery cfg env (initialMembers cfg romData)
        else some (initialMembers cfg romData)).bind fun m2 =>
      (SetCpuMemoryMapping cfg (chrRamStage cfg m2) 0x6000 0x7FFF 0
        (if (chrRamStage cfg m2)._hasBattery then PrgMemoryType.SaveRam
          else PrgMemoryType.WorkRam) (-1)).bind fun m4 =>
      (cfg.InitMapper m4).bind fun m5 =>
      (cfg.InitMapperRom romData m5).bind fun m6 =>
      some (ApplyCheats env m6)) := rfl
  rw [h]
  unfold initPrefix runHooks
  cases (if (initialMembers cfg romData)._hasBattery then
      LoadBattery cfg env (initialMembers cfg romData)
    else some (initialMembers cfg romData)) with
  | none => rfl
  | some m2 =>
    simp only [Option.some_bind]
    cases SetCpuMemoryMapping cfg (chrRamStage cfg m2) 0x6000 0x7FFF 0
      (if (chrRamStage cfg m2)._hasBattery then PrgMemoryType.SaveRam
        else PrgMemoryType.WorkRam) (-1) with
    | none => rfl
    | some m4 =>
      simp only [Option.some_bind]
      cases cfg.InitMapper m4 with
      | none => rfl
      | some m5 =>
        simp only [Option.some_bind]
        cases cfg.InitMapperRom romData m5 with
        | none => rfl
        | some m6 => rfl

/-- The default mapping `SetCpuMemoryMapping(0x6000, 0x7FFF, 0, type)` of a memory type with
at least one page: slots `0x60..0x7F` get the first 8 KiB of the arena. -/
theorem SetCpuMemoryMapping_default (cfg : Config) (m : Mapper) (type : PrgMemoryType)
    (src : Ptr) (cnt psz dflt : Nat)
    (h1 : prgTypeInfo cfg m type = some (src, cnt, psz, dflt)) (hc : 0 < cnt) :
    SetCpuMemoryMapping cfg m 0x6000 0x7FFF 0 type (-1) =
      some { m with
        _prgPages := fun j =>
          if 0x60 ≤ j ∧ j ≤ 0x7F then some ⟨src.arena, src.off + (j - 0x60) * 256⟩
          else m._prgPages j
        _prgPageAccessType := fun j =>
          if 0x60 ≤ j ∧ j ≤ 0x7F then dflt else m._prgPageAccessType j } := by
  rw [SetCpuMemoryMapping_eq cfg m 0x6000 0x7FFF 0 type (-1) src cnt psz dflt 0 h1
    (effectivePage_zero cnt hc)]
  have e1 : (0x6000 : Nat) / 256 = 0x60 := by decide
  have e2 : (0x7FFF : Nat) / 256 = 0x7F := by decide
  simp only [e1, e2, zero_mul, Int.zero_emod, Int.toNat_zero, add_zero]
  rfl

theorem prgTypeInfo_SaveRam (cfg : Config) (m : Mapper) (h : cfg.GetSaveRamPageSize ≠ 0) :
    prgTypeInfo cfg m PrgMemoryType.SaveRam =
      some (saveRamPtr, m._saveRamSize / cfg.GetSaveRamPageSize, cfg.GetSaveRamPageSize,
        MemoryAccessType.ReadWrite) := by
  unfold prgTypeInfo
  rw [if_neg h]
  rfl

theorem prgTypeInfo_WorkRam (cfg : Config) (m : Mapper) (h : cfg.GetWorkRamPageSize ≠ 0) :
    prgTypeInfo cfg m PrgMemoryType.WorkRam =
      some (workRamPtr, cfg.GetWorkRamSize / cfg.GetWorkRamPageSize, cfg.GetWorkRamPageSize,
        MemoryAccessType.ReadWrite) := by
  unfold prgTypeInfo
  rw [if_neg h]
  rfl

theorem chrRamStage_busView (cfg : Config) (m : Mapper) :
    (chrRamStage cfg m).busView = m.busView ∧ (chrRamStage cfg m)._prgPages = m._prgPages ∧
      (chrRamStage cfg m)._prgPageAccessType = m._prgPageAccessType := by
  unfold chrRamStage
  by_cases h0 : m._chrRomSize = 0
  · rw [if_pos h0]
    unfold InitializeChrRam
    by_cases hsz : 0 < cfg.GetChrRamSize % 2 ^ 32
    · rw [if_pos hsz]
      exact ⟨rfl, rfl, rfl⟩
    · rw [if_neg hsz]
      exact ⟨rfl, rfl, rfl⟩
  · rw [if_neg h0]
    exact ⟨rfl, rfl, rfl⟩

/-- The default mapping as a change of the page table alone. -/
theorem SetCpuMemoryMapping_default_spec (cfg : Config) (m : Mapper) (type : PrgMemoryType)
    (src : Ptr) (cnt psz dflt : Nat)
    (h1 : prgTypeInfo cfg m type = some (src, cnt, psz, dflt)) (hc : 0 < cnt) :
    ∃ m4, SetCpuMemoryMapping cfg m 0x6000 0x7FFF 0 type (-1) = some m4 ∧
      m4.busView = m.busView ∧
      (∀ j, m4._prgPages j =
        if 0x60 ≤ j ∧ j ≤ 0x7F then some ⟨src.arena, src.off + (j - 0x60) * 256⟩
        else m._prgPages j) ∧
      (∀ j, m4._prgPageAccessType j =
        if 0x60 ≤ j ∧ j ≤ 0x7F then dflt else m._prgPageAccessType j) :=
  ⟨_, SetCpuMemoryMapping_default cfg m type src cnt psz dflt h1 hc, rfl, fun _ => rfl,
    fun _ => rfl⟩

theorem LoadBattery_spec (cfg : Config) (env : Env) (m : Mapper)
    (hp : cfg.GetSaveRamPageSize ≠ 0) (hc : 0 < m._saveRamSize / cfg.GetSaveRamPageSize)
    (hzero : ∀ o, m.mem Arena.SaveRam o = 0) :
    ∃ m2, LoadBattery cfg env m = some m2 ∧
      m2.busView = (m._isRegisterAddr, m._allowRegisterRead, m._hasBattery, m._saveRamSize,
        m._prgSize, m.size Arena.PrgRom, m.size Arena.SaveRam, m.size Arena.WorkRam,
        batteryContents env.batteryFile m._saveRamSize) ∧
      (∀ j, ¬ (0x60 ≤ j ∧ j ≤ 0x7F) →
        m2._prgPages j = m._prgPages j ∧ m2._prgPageAccessType j = m._prgPageAccessType j) := by
  unfold LoadBattery
  cases hb : env.batteryFile with
  | none =>
    simp only
    obtain ⟨m2, e, v, hpg, hac⟩ := SetCpuMemoryMapping_default_spec cfg m PrgMemoryType.SaveRam
      _ _ _ _ (prgTypeInfo_SaveRam cfg m hp) hc
    refine ⟨m2, e, ?_, fun j hj => ?_⟩
    · rw [v]
      have hmem : m.mem Arena.SaveRam = batteryContents none m._saveRamSize := by
        funext o
        exact hzero o
      unfold Mapper.busView
      rw [hmem]
    · rw [hpg, hac, if_neg hj, if_neg hj]
      exact ⟨rfl, rfl⟩
  | some bytes =>
    simp only
    have e0 := SetCpuMemoryMapping_default_spec cfg
      { m with mem := fun a o =>
          if a = Arena.SaveRam ∧ o < min bytes.size m._saveRamSize then bytes.get o
          else m.mem a o }
      PrgMemoryType.SaveRam _ _ _ _ (prgTypeInfo_SaveRam cfg _ hp) hc
    obtain ⟨m2, e, v, hpg, hac⟩ := e0
    refine ⟨m2, e, ?_, fun j hj => ?_⟩
    · rw [v]
      unfold Mapper.busView
      simp only [Prod.mk.injEq, true_and]
      funext o
      simp [batteryContents, hzero o]
    · rw [hpg, hac, if_neg hj, if_neg hj]
      exact ⟨rfl, rfl⟩

theorem initialMembers_busView (cfg : Config) (romData : RomData) :
    (initialMembers cfg romData).busView =
      ((initialMembers cfg romData)._isRegisterAddr, cfg.AllowRegisterRead,
        (romData.HasBattery || cfg.ForceBattery), cfg.GetSaveRamSize % 2 ^ 32,
        romData.PrgRom.size % 2 ^ 32, romData.PrgRom.size % 2 ^ 32, cfg.GetSaveRamSize % 2 ^ 32,
        cfg.GetWorkRamSize, fun _ => 0) := rfl

theorem ApplyCheats_busView (env : Env) (m : Mapper) :
    (ApplyCheats env m).busView = m.busView ∧ (ApplyCheats env m)._prgPages = m._prgPages ∧
      (ApplyCheats env m)._prgPageAccessType = m._prgPageAccessType :=
  ⟨rfl, rfl, rfl⟩

/-- What `Initialize` hands to the hooks `InitMapper` when the default RAM can be mapped: the
register bitmap of the class, arenas of the configured sizes, the save RAM holding the battery
file (zero without a battery or without a file), the first 8 KiB of the default RAM mapped
read/write at `0x6000-0x7FFF`, and no other CPU mapping. -/
theorem initPrefix_spec (cfg : Config) (env : Env) (romData : RomData)
    (hram : DefaultRamOk cfg romData) :
    ∃ F, initPrefix cfg env romData = some F ∧
      F.busView =
        ((initialMembers cfg romData)._isRegisterAddr, cfg.AllowRegisterRead,
          (romData.HasBattery || cfg.ForceBattery), cfg.GetSaveRamSize % 2 ^ 32,
          romData.PrgRom.size % 2 ^ 32, romData.PrgRom.size % 2 ^ 32,
          cfg.GetSaveRamSize % 2 ^ 32, cfg.GetWorkRamSize,
          if (romData.HasBattery || cfg.ForceBattery) = true then
            batteryContents env.batteryFile (cfg.GetSaveRamSize % 2 ^ 32)
          else fun _ => 0) ∧
      (∀ j, 0x60 ≤ j → j ≤ 0x7F →
        F._prgPages j =
          some ⟨if (romData.HasBattery || cfg.ForceBattery) = true then Arena.SaveRam
            else Arena.WorkRam, (j - 0x60) * 256⟩ ∧
        F._prgPageAccessType j = MemoryAccessType.ReadWrite) ∧
      (∀ j, ¬ (0x60 ≤ j ∧ j ≤ 0x7F) →
        F._prgPages j = none ∧ F._prgPageAccessType j = MemoryAccessType.NoAccess) := by
  have hv0 := initialMembers_busView cfg romData
  by_cases hb : (romData.HasBattery || cfg.ForceBattery) = true
  · have hok : cfg.GetSaveRamPageSize ≠ 0 ∧
        0 < cfg.GetSaveRamSize % 2 ^ 32 / cfg.GetSaveRamPageSize := by
      unfold DefaultRamOk at hram
      rw [if_pos hb] at hram
      exact hram
    obtain ⟨m2, e2, v2, f2⟩ := LoadBattery_spec cfg env (initialMembers cfg romData) hok.1 hok.2
      (fun _ => rfl)
    obtain ⟨v3, p3, a3⟩ := chrRamStage_busView cfg m2
    have hv := v3.trans v2
    have h4 : (chrRamStage cfg m2)._saveRamSize = cfg.GetSaveRamSize % 2 ^ 32 :=
      (congrArg (fun x => x.2.2.2.1) hv :)
    have h5 : (chrRamStage cfg m2)._hasBattery = true :=
      ((congrArg (fun x => x.2.2.1) hv :) : (chrRamStage cfg m2)._hasBattery = _).trans hb
    have hc4 : 0 < (chrRamStage cfg m2)._saveRamSize / cfg.GetSaveRamPageSize := by
      rw [h4]
      exact hok.2
    obtain ⟨m4, e4, v4, hpg, hac⟩ := SetCpuMemoryMapping_default_spec cfg (chrRamStage cfg m2)
      PrgMemoryType.SaveRam _ _ _ _ (prgTypeInfo_SaveRam cfg _ hok.1) hc4
    have hb1 : (initialMembers cfg romData)._hasBattery = true := hb
    refine ⟨m4, ?_, ?_, ?_, ?_⟩
    · unfold initPrefix
      rw [if_pos hb1, e2, Option.some_bind, if_pos h5, e4]
    · rw [v4, hv, if_pos hb]
      rfl
    · intro j hj1 hj2
      have hw : 0x60 ≤ j ∧ j ≤ 0x7F := ⟨hj1, hj2⟩
      rw [hpg, hac, if_pos hw, if_pos hw, if_pos hb]
      simp [saveRamPtr]
    · intro j hj
      rw [hpg, hac, if_neg hj, if_neg hj, p3, a3, (f2 j hj).1, (f2 j hj).2]
      exact ⟨rfl, rfl⟩
  · have hok : cfg.GetWorkRamPageSize ≠ 0 ∧ 0 < cfg.GetWorkRamSize / cfg.GetWorkRamPageSize := by
      unfold DefaultRamOk at hram
      rw [if_neg hb] at hram
      exact hram
    obtain ⟨v3, p3, a3⟩ := chrRamStage_busView cfg (initialMembers cfg romData)
    have h3 : (chrRamStage cfg (initialMembers cfg romData))._hasBattery =
        (romData.HasBattery || cfg.ForceBattery) := (congrArg (fun x => x.2.2.1) v3 :)
    have h5 : ¬ ((chrRamStage cfg (initialMembers cfg romData))._hasBattery = true) := by
      rw [h3]
      exact hb
    obtain ⟨m4, e4, v4, hpg, hac⟩ := SetCpuMemoryMapping_default_spec cfg
      (chrRamStage cfg (initialMembers cfg romData)) PrgMemoryType.WorkRam _ _ _ _
      (prgTypeInfo_WorkRam cfg _ hok.1) hok.2
    have hb0 : ¬ ((initialMembers cfg romData)._hasBattery = true) := hb
    refine ⟨m4, ?_, ?_, ?_, ?_⟩
    · unfold initPrefix
      rw [if_neg hb0, Option.some_bind, if_neg h5, e4]
    · rw [v4, v3, hv0, if_neg hb]
    · intro j hj1 hj2
      have hw : 0x60 ≤ j ∧ j ≤ 0x7F := ⟨hj1, hj2⟩
      rw [hpg, hac, if_pos hw, if_pos hw, if_neg hb]
      simp [workRamPtr]
    · intro j hj
      rw [hpg, hac, if_neg hj, if_neg hj, p3, a3]
      exact ⟨rfl, rfl⟩
theorem initialMembers_isRegisterAddr (cfg : Config) (romData : RomData) (a : Nat) :
    (initialMembers cfg romData)._isRegisterAddr a =
      decide (cfg.RegisterStartAddress ≤ a ∧ a ≤ cfg.RegisterEndAddress) := by
  show registerLoop true (cfg.RegisterEndAddress + 1 - cfg.RegisterStartAddress)
    cfg.RegisterStartAddress (fun _ => false) a = _
  rw [registerLoop_eq]
  by_cases h : cfg.RegisterStartAddress ≤ a ∧ a ≤ cfg.RegisterEndAddress
  · have h2 : cfg.RegisterStartAddress ≤ a ∧ a < cfg.RegisterStartAddress +
        (cfg.RegisterEndAddress + 1 - cfg.RegisterStartAddress) := by omega
    rw [if_pos h2]
    simp [h]
  · have h2 : ¬ (cfg.RegisterStartAddress ≤ a ∧ a < cfg.RegisterStartAddress +
        (cfg.RegisterEndAddress + 1 - cfg.RegisterStartAddress)) := by omega
    rw [if_neg h2]
    simp [h]

/-- Reading an address of `0x6000-0x7FFF` that is not a register address, on a mapper whose
slot maps the matching 256 bytes of an 8 KiB save RAM. -/
theorem ReadRAM_saveRam (cfg : Config) (G : Mapper) (A : Nat) (hA1 : 0x6000 ≤ A)
    (hA2 : A ≤ 0x7FFF) (hreg : G._isRegisterAddr A = false)
    (hsz : G.size Arena.SaveRam = 8192)
    (hp : G._prgPages (A >>> 8) = some ⟨Arena.SaveRam, (A >>> 8 - 0x60) * 256⟩)
    (ha : G._prgPageAccessType (A >>> 8) = MemoryAccessType.ReadWrite) :
    ReadRAM cfg G A = some (G.mem Arena.SaveRam (A - 0x6000)) := by
  have hidx : (A >>> 8 - 0x60) * 256 + (A &&& 0xFF) = A - 0x6000 := by
    rw [shr_8, and_255]
    omega
  unfold ReadRAM
  rw [hreg, Bool.and_false, ha, hp]
  simp only [Mapper.load, hidx, hsz]
  have hin : A - 0x6000 < 8192 := by omega
  simp [hasAccess, MemoryAccessType.ReadWrite, MemoryAccessType.Read, hin]

/-- Writing such an address stores the value in save RAM. -/
theorem WriteRAM_saveRam (cfg : Config) (G : Mapper) (A v : Nat) (hA1 : 0x6000 ≤ A)
    (hA2 : A ≤ 0x7FFF) (hreg : G._isRegisterAddr A = false)
    (hsz : G.size Arena.SaveRam = 8192)
    (hp : G._prgPages (A >>> 8) = some ⟨Arena.SaveRam, (A >>> 8 - 0x60) * 256⟩)
    (ha : G._prgPageAccessType (A >>> 8) = MemoryAccessType.ReadWrite) :
    WriteRAM cfg G A v =
      some { G with mem := fun a o =>
        if a = Arena.SaveRam ∧ o = A - 0x6000 then v else G.mem a o } := by
  have hidx : (A >>> 8 - 0x60) * 256 + (A &&& 0xFF) = A - 0x6000 := by
    rw [shr_8, and_255]
    omega
  unfold WriteRAM WritePrgRam
  rw [hreg, ha, hp]
  simp only [Mapper.store, hidx, hsz]
  have hin : A - 0x6000 < 8192 := by omega
  simp [hasAccess, MemoryAccessType.ReadWrite, MemoryAccessType.Write, hin]

theorem pageOk_effective (cnt p : Nat) (hc : 0 < cnt) (hp : pageOk cnt p) :
    ∃ q : Nat, q < cnt ∧ effectivePage cnt (toInt16 (p : Int)) = some (q : Int) := by
  by_cases h : p < 32768
  · refine ⟨p % cnt, Nat.mod_lt _ hc, ?_⟩
    rw [toInt16_of_small _ (by positivity) (by omega)]
    exact effectivePage_nonneg cnt p hc h
  · rcases hp with h1 | ⟨h1, h2, h3⟩
    · exact absurd h1 h
    · refine ⟨cnt - (65536 - p), by omega, ?_⟩
      have e1 : ((p : Nat) : Int) = (((65536 - (65536 - p) : Nat)) : Int) := by
        congr 1
        omega
      rw [e1, toInt16_neg (65536 - p) (by omega) (by omega)]
      exact effectivePage_negative cnt (65536 - p) (by omega) h2 h3

/-- `SetCpuMemoryMapping` on PRG-ROM keeps the page table valid when the window it writes
stays inside the ROM. -/
theorem SetCpuMemoryMapping_valid (cfg : Config) (m : Mapper) (s e : Nat) (pn : Int) (q : Nat)
    (hsize : m.size Arena.PrgRom = m._prgSize) (h32 : m._prgSize < 2 ^ 32)
    (h0 : 0 < InternalGetPrgPageSize cfg m)
    (hq : q < m._prgSize / InternalGetPrgPageSize cfg m)
    (hpage : effectivePage (m._prgSize / InternalGetPrgPageSize cfg m) pn = some (q : Int))
    (hoff : ∀ j, s / 256 ≤ j → j ≤ e / 256 →
      q * InternalGetPrgPageSize cfg m + (j - s / 256) * 256 + 0xFF < m._prgSize)
    (hv : PrgTableValid m) :
    ∃ m2, SetCpuMemoryMapping cfg m s e pn PrgMemoryType.PrgRom (-1) = some m2 ∧
      m2.size = m.size ∧ m2._prgSize = m._prgSize ∧ PrgTableValid m2 := by
  have hcnt : GetPRGPageCount cfg m = some (m._prgSize / InternalGetPrgPageSize cfg m) := by
    unfold GetPRGPageCount
    rw [if_neg (by omega)]
  have hmul : q * InternalGetPrgPageSize cfg m < 2 ^ 32 := by
    have h1 : q * InternalGetPrgPageSize cfg m
        ≤ m._prgSize / InternalGetPrgPageSize cfg m * InternalGetPrgPageSize cfg m :=
      Nat.mul_le_mul_right _ (le_of_lt hq)
    have h2 := Nat.div_mul_le_self m._prgSize (InternalGetPrgPageSize cfg m)
    omega
  have htoNat : (((q : Int) * (InternalGetPrgPageSize cfg m : Int)) % 2 ^ 32).toNat
      = q * InternalGetPrgPageSize cfg m := by
    have h2 : ((q : Nat) : Int) * ((InternalGetPrgPageSize cfg m : Nat) : Int)
        = ((q * InternalGetPrgPageSize cfg m : Nat) : Int) := by push_cast; ring
    rw [h2, Int.emod_eq_of_lt (by positivity) (by exact_mod_cast hmul)]
    exact Int.toNat_ofNat _
  refine ⟨_, SetCpuMemoryMapping_eq cfg m s e pn PrgMemoryType.PrgRom (-1) _ _ _ _ _
    (prgTypeInfo_PrgRom cfg m _ hcnt) hpage, rfl, rfl, ?_⟩
  intro i hi hacc
  by_cases hw : s / 256 ≤ i ∧ i ≤ e / 256
  · refine ⟨⟨Arena.PrgRom, q * InternalGetPrgPageSize cfg m + (i - s / 256) * 256⟩, ?_,
      Or.inl rfl, ?_⟩
    · simp only [hw, and_self, if_true, htoNat, prgRomPtr, Nat.zero_add]
    · show q * InternalGetPrgPageSize cfg m + (i - s / 256) * 256 + 0xFF < m.size Arena.PrgRom
      rw [hsize]
      exact hoff i hw.1 hw.2
  · simp only [hw, if_false] at hacc
    obtain ⟨p, hp, ha, hb⟩ := hv i hi hacc
    refine ⟨p, ?_, ha, hb⟩
    simp only [hw, if_false]
    exact hp
theorem InternalGetPrgPageSize_of (cfg : Config) (n : Nat) (m : Mapper) (h : m._prgSize = n) :
    InternalGetPrgPageSize cfg m = prgPageSizeOf cfg n := by
  unfold InternalGetPrgPageSize prgPageSizeOf
  rw [h]

theorem prgPageSizeOf_le (cfg : Config) (n : Nat) : prgPageSizeOf cfg n ≤ n := by
  unfold prgPageSizeOf
  exact le_trans (Nat.mod_le _ _) (Nat.min_le_right _ _)

/-- The small-ROM loop of `SelectPRGPage` keeps the page table valid. -/
theorem prgRepeatLoop_valid (cfg : Config) (n : Nat) (h32 : n < 2 ^ 32)
    (hP0 : 0 < prgPageSizeOf cfg n) (hn256 : n % 256 = 0) (k : Nat) :
    ∀ (slot : Nat) (m : Mapper), PrgInv n m → (slot + k) * n ≤ 0x8000 →
      ∃ m2, prgRepeatLoop cfg PrgMemoryType.PrgRom k slot m = some m2 ∧ PrgInv n m2 := by
  induction k with
  | zero =>
    intro slot m hm _
    exact ⟨m, rfl, hm⟩
  | succ k ih =>
    intro slot m hm hk
    have hips := InternalGetPrgPageSize_of cfg n m hm.prgSize
    have hle := prgPageSizeOf_le cfg n
    have hcnt0 : 0 < n / prgPageSizeOf cfg n := Nat.div_pos hle hP0
    have ht : (slot * n) % 256 = 0 := by
      rw [Nat.mul_mod, hn256, Nat.mul_zero, Nat.zero_mod]
    have hbound : slot * n + n ≤ 0x8000 := by
      have h1 : (slot + 1) * n ≤ (slot + (k + 1)) * n := Nat.mul_le_mul_right _ (by omega)
      have h2 : (slot + 1) * n = slot * n + n := by ring
      omega
    obtain ⟨m1, e1, hs1, hp1, hv1⟩ := SetCpuMemoryMapping_valid cfg m
      ((0x8000 + slot * m._prgSize) % 65536)
      (((0x8000 + slot * m._prgSize) % 65536 + m._prgSize - 1) % 65536) 0 0
      (by rw [hm.romSize, hm.prgSize]) (by rw [hm.prgSize]; exact h32)
      (by rw [hips]; exact hP0) (by rw [hips, hm.prgSize]; exact hcnt0)
      (by rw [hips, hm.prgSize]; exact effectivePage_zero _ hcnt0)
      (by
        intro j hj1 hj2
        rw [hm.prgSize] at hj1 hj2 ⊢
        generalize slot * n = t at ht hbound hj1 hj2
        omega)
      hm.valid
    have hm1 : PrgInv n m1 := ⟨hp1.trans hm.prgSize, by rw [hs1]; exact hm.romSize, hv1⟩
    obtain ⟨m2, e2, hm2⟩ := ih (slot + 1) m1 hm1 (by
      have h2 : slot + 1 + k = slot + (k + 1) := by omega
      rw [h2]
      exact hk)
    refine ⟨m2, ?_, hm2⟩
    rw [prgRepeatLoop]
    simp only [e1]
    exact e2

/-- `SelectPRGPage` on PRG-ROM keeps the page table valid. -/
theorem SelectPRGPage_valid (cfg : Config) (n : Nat) (m : Mapper) (s p : Nat)
    (h32 : n < 2 ^ 32) (hP0 : 0 < prgPageSizeOf cfg n) (hP256 : prgPageSizeOf cfg n % 256 = 0)
    (hn256 : n % 256 = 0) (hm : PrgInv n m) (hs : s < 64)
    (hp : 0x8000 ≤ n → pageOk (n / prgPageSizeOf cfg n) p) :
    ∃ m2, SelectPRGPage cfg m s p PrgMemoryType.PrgRom = some m2 ∧ PrgInv n m2 := by
  have hm1 : PrgInv n { m with _prgPageNumbers := upd m._prgPageNumbers s p } :=
    ⟨hm.prgSize, hm.romSize, hm.valid⟩
  have hle := prgPageSizeOf_le cfg n
  have hn0 : 0 < n := by omega
  have h64 : ¬ (64 ≤ s) := by omega
  unfold SelectPRGPage
  simp only [h64, if_false]
  by_cases hsmall : n < PrgAddressRangeSize
  · have hsmall1 : m._prgSize < PrgAddressRangeSize := by rw [hm.prgSize]; exact hsmall
    have hne : ¬ (m._prgSize = 0) := by rw [hm.prgSize]; omega
    simp only [hsmall1, if_true, hne, if_false]
    refine prgRepeatLoop_valid cfg n h32 hP0 hn256 _ 0 _ hm1 ?_
    rw [hm.prgSize, Nat.zero_add]
    exact Nat.div_mul_le_self _ _
  · have hbig1 : ¬ (m._prgSize < PrgAddressRangeSize) := by rw [hm.prgSize]; exact hsmall
    have hbig : 0x8000 ≤ n := by
      unfold PrgAddressRangeSize at hsmall
      omega
    simp only [hbig1, if_false]
    have hcnt0 : 0 < n / prgPageSizeOf cfg n := Nat.div_pos hle hP0
    obtain ⟨q, hq, hpage⟩ := pageOk_effective _ p hcnt0 (hp hbig)
    have hips := InternalGetPrgPageSize_of cfg n
      { m with _prgPageNumbers := upd m._prgPageNumbers s p } hm.prgSize
    have hlt : prgPageSizeOf cfg n < 65536 := Nat.mod_lt _ (by decide)
    have ht : (s * prgPageSizeOf cfg n) % 256 = 0 := by
      rw [Nat.mul_mod, hP256, Nat.mul_zero, Nat.zero_mod]
    have hqP : q * prgPageSizeOf cfg n + prgPageSizeOf cfg n ≤ n := by
      have h1 : (q + 1) * prgPageSizeOf cfg n
          ≤ n / prgPageSizeOf cfg n * prgPageSizeOf cfg n := Nat.mul_le_mul_right _ hq
      have h2 := Nat.div_mul_le_self n (prgPageSizeOf cfg n)
      have h3 : (q + 1) * prgPageSizeOf cfg n
          = q * prgPageSizeOf cfg n + prgPageSizeOf cfg n := by ring
      omega
    obtain ⟨m2, e2, hs2, hp2, hv2⟩ := SetCpuMemoryMapping_valid cfg
      { m with _prgPageNumbers := upd m._prgPageNumbers s p }
      ((0x8000 + s * InternalGetPrgPageSize cfg
        { m with _prgPageNumbers := upd m._prgPageNumbers s p }) % 65536)
      (((0x8000 + s * InternalGetPrgPageSize cfg
          { m with _prgPageNumbers := upd m._prgPageNumbers s p }) % 65536
        + InternalGetPrgPageSize cfg { m with _prgPageNumbers := upd m._prgPageNumbers s p }
        - 1) % 65536)
      (toInt16 p) q
      (by rw [hm1.romSize, hm1.prgSize]) (by rw [hm1.prgSize]; exact h32)
      (by rw [hips]; exact hP0) (by rw [hips, hm1.prgSize]; exact hq)
      (by rw [hips, hm1.prgSize]; exact hpage)
      (by
        intro j hj1 hj2
        rw [hips] at hj1 hj2 ⊢
        rw [hm1.prgSize]
        generalize s * prgPageSizeOf cfg n = t at ht hj1 hj2
        generalize q * prgPageSizeOf cfg n = u at hqP
        omega)
      hm1.valid
    exact ⟨m2, e2, hp2.trans hm1.prgSize, by rw [hs2]; exact hm1.romSize, hv2⟩
theorem SelectPrgPage2x_valid (cfg : Config) (n : Nat) (m : Mapper) (s p : Nat)
    (h32 : n < 2 ^ 32) (hP0 : 0 < prgPageSizeOf cfg n) (hP256 : prgPageSizeOf cfg n % 256 = 0)
    (hn256 : n % 256 = 0) (hm : PrgInv n m) (hs : 2 * s + 1 < 64)
    (hp : 0x8000 ≤ n → pageOk (n / prgPageSizeOf cfg n) p ∧
      pageOk (n / prgPageSizeOf cfg n) ((p + 1) % 65536)) :
    ∃ m2, SelectPrgPage2x cfg m s p PrgMemoryType.PrgRom = some m2 ∧ PrgInv n m2 := by
  have e1 : s * 2 % 65536 = s * 2 := Nat.mod_eq_of_lt (by omega)
  have e2 : (s * 2 + 1) % 65536 = s * 2 + 1 := Nat.mod_eq_of_lt (by omega)
  obtain ⟨m1, c1, hm1⟩ := SelectPRGPage_valid cfg n m (s * 2) p h32 hP0 hP256 hn256 hm
    (by omega) (fun h => (hp h).1)
  obtain ⟨m2, c2, hm2⟩ := SelectPRGPage_valid cfg n m1 (s * 2 + 1) ((p + 1) % 65536) h32 hP0
    hP256 hn256 hm1 (by omega) (fun h => (hp h).2)
  refine ⟨m2, ?_, hm2⟩
  unfold SelectPrgPage2x
  rw [e1, e2, c1, Option.some_bind, c2]

theorem SelectPrgPage4x_valid (cfg : Config) (n : Nat) (m : Mapper) (s p : Nat)
    (h32 : n < 2 ^ 32) (hP0 : 0 < prgPageSizeOf cfg n) (hP256 : prgPageSizeOf cfg n % 256 = 0)
    (hn256 : n % 256 = 0) (hm : PrgInv n m) (hs : 4 * s + 3 < 64)
    (hp : 0x8000 ≤ n → pageOk (n / prgPageSizeOf cfg n) p ∧
      pageOk (n / prgPageSizeOf cfg n) ((p + 1) % 65536) ∧
      pageOk (n / prgPageSizeOf cfg n) ((p + 2) % 65536) ∧
      pageOk (n / prgPageSizeOf cfg n) (((p + 2) % 65536 + 1) % 65536)) :
    ∃ m2, SelectPrgPage4x cfg m s p PrgMemoryType.PrgRom = some m2 ∧ PrgInv n m2 := by
  have e1 : s * 2 % 65536 = s * 2 := Nat.mod_eq_of_lt (by omega)
  have e2 : (s * 2 + 1) % 65536 = s * 2 + 1 := Nat.mod_eq_of_lt (by omega)
  obtain ⟨m1, c1, hm1⟩ := SelectPrgPage2x_valid cfg n m (s * 2) p h32 hP0 hP256 hn256 hm
    (by omega) (fun h => ⟨(hp h).1, (hp h).2.1⟩)
  obtain ⟨m2, c2, hm2⟩ := SelectPrgPage2x_valid cfg n m1 (s * 2 + 1) ((p + 2) % 65536) h32 hP0
    hP256 hn256 hm1 (by omega) (fun h => ⟨(hp h).2.2.1, (hp h).2.2.2⟩)
  refine ⟨m2, ?_, hm2⟩
  unfold SelectPrgPage4x
  rw [e1, e2, c1, Option.some_bind, c2]

theorem runPrgCalls_valid (cfg : Config) (n : Nat) (h32 : n < 2 ^ 32)
    (hP0 : 0 < prgPageSizeOf cfg n) (hP256 : prgPageSizeOf cfg n % 256 = 0)
    (hn256 : n % 256 = 0) (calls : List PrgCall) :
    ∀ (m : Mapper), PrgInv n m → (∀ c ∈ calls, c.ok n (n / prgPageSizeOf cfg n)) →
      ∃ S, runPrgCalls cfg calls m = some S ∧ PrgInv n S := by
  induction calls with
  | nil =>
    intro m hm _
    exact ⟨m, rfl, hm⟩
  | cons c cs ih =>
    intro m hm hok
    have hc := hok c (List.mem_cons_self c cs)
    have hstep : ∃ m1, c.run cfg m = some m1 ∧ PrgInv n m1 := by
      cases c with
      | select s p =>
        exact SelectPRGPage_valid cfg n m s p h32 hP0 hP256 hn256 hm hc.1 hc.2
      | select2x s p =>
        exact SelectPrgPage2x_valid cfg n m s p h32 hP0 hP256 hn256 hm hc.1 hc.2
      | select4x s p =>
        exact SelectPrgPage4x_valid cfg n m s p h32 hP0 hP256 hn256 hm hc.1 hc.2
    obtain ⟨m1, e1, hm1⟩ := hstep
    obtain ⟨S, e2, hS⟩ := ih m1 hm1 (fun d hd => hok d (List.mem_cons_of_mem c hd))
    refine ⟨S, ?_, hS⟩
    rw [runPrgCalls, e1, Option.some_bind, e2]

/-- `ReadRAM` on a valid page table returns a byte at every 16-bit address. -/
theorem ReadRAM_of_valid (cfg : Config) (m : Mapper) (A : Nat) (hA : A < 65536)
    (hv : PrgTableValid m) : ∃ b, ReadRAM cfg m A = some b := by
  unfold ReadRAM
  by_cases hreg : (m._allowRegisterRead && m._isRegisterAddr A) = true
  · rw [if_pos hreg]
    exact ⟨_, rfl⟩
  · rw [if_neg hreg]
    by_cases hacc : hasAccess (m._prgPageAccessType (A >>> 8)) MemoryAccessType.Read = true
    · rw [if_pos hacc]
      have hslot : A >>> 8 < 256 := by
        rw [shr_8]
        omega
      obtain ⟨p, hp, _, hin⟩ := hv (A >>> 8) hslot hacc
      have hlow : A &&& 0xFF ≤ 0xFF := by
        rw [and_255]
        omega
      rw [hp]
      unfold Mapper.load
      simp only
      rw [if_pos (by omega)]
      exact ⟨_, rfl⟩
    · rw [if_neg hacc]
      exact ⟨_, rfl⟩

/-- The mapper `Initialize` hands to the hooks `InitMapper` has a valid PRG page table when
the default RAM covers the window `0x6000-0x7FFF`. -/
theorem initPrefix_valid (cfg : Config) (env : Env) (romData : RomData)
    (hram : DefaultRamOk cfg romData) (hwin : DefaultRamCoversWindow cfg romData) :
    ∃ F, initPrefix cfg env romData = some F ∧ PrgInv (romData.PrgRom.size % 2 ^ 32) F := by
  obtain ⟨F, eF, hv, hpg, hout⟩ := initPrefix_spec cfg env romData hram
  have r1 : F._prgSize = romData.PrgRom.size % 2 ^ 32 :=
    (congrArg (fun x => x.2.2.2.2.1) hv :)
  have r2 : F.size Arena.PrgRom = romData.PrgRom.size % 2 ^ 32 :=
    (congrArg (fun x => x.2.2.2.2.2.1) hv :)
  have r3 : F.size Arena.SaveRam = cfg.GetSaveRamSize % 2 ^ 32 :=
    (congrArg (fun x => x.2.2.2.2.2.2.1) hv :)
  have r4 : F.size Arena.WorkRam = cfg.GetWorkRamSize :=
    (congrArg (fun x => x.2.2.2.2.2.2.2.1) hv :)
  refine ⟨F, eF, r1, r2, ?_⟩
  intro i _ hacc
  by_cases hw : 0x60 ≤ i ∧ i ≤ 0x7F
  · obtain ⟨hp, _⟩ := hpg i hw.1 hw.2
    refine ⟨_, hp, ?_, ?_⟩
    · by_cases hb : (romData.HasBattery || cfg.ForceBattery) = true
      · rw [if_pos hb]
        exact Or.inr (Or.inl rfl)
      · rw [if_neg hb]
        exact Or.inr (Or.inr rfl)
    · unfold DefaultRamCoversWindow at hwin
      by_cases hb : (romData.HasBattery || cfg.ForceBattery) = true
      · rw [if_pos hb] at hwin
        simp only [if_pos hb]
        rw [r3]
        omega
      · rw [if_neg hb] at hwin
        simp only [if_neg hb]
        rw [r4]
        omega
  · rw [(hout i hw).2] at hacc
    exact absurd hacc (by decide)

/-- The typed `SetPpuMemoryMapping` in terms of the source, page count and page size its
`switch` selects. -/
theorem SetPpuMemoryMapping_eq (cfg : Config) (m : Mapper) (s e page : Nat)
    (type : ChrMemoryType) (src : Ptr) (cnt psz dflt : Nat)
    (h1 : chrTypeInfo cfg m type = some (some src, cnt, psz, dflt)) (hc : 0 < cnt)
    (hd : dflt < 128) :
    SetPpuMemoryMapping cfg m s e page type (-1) =
      some { m with
        _chrPages := fun j =>
          if s / 256 ≤ j ∧ j ≤ e / 256 then
            some ⟨src.arena, src.off + (page % cnt) * psz % 2 ^ 32 + (j - s / 256) * 0x100⟩
          else m._chrPages j
        _chrPageAccessType := fun j =>
          if s / 256 ≤ j ∧ j ≤ e / 256 then dflt else m._chrPageAccessType j } := by
  unfold SetPpuMemoryMapping
  rw [h1]
  have hc0 : ¬ (cnt = 0) := by omega
  have h2 : ((dflt : Nat) : Int) ≠ -1 := by omega
  have h3 : toUInt8 ((dflt : Nat) : Int) = dflt := by
    unfold toUInt8
    omega
  simp only [hc0, if_false, ptrAdd, if_true, SetPpuMemoryMappingPtr_eq]
  congr 2
  funext j
  by_cases hw : s / 256 ≤ j ∧ j ≤ e / 256
  · rw [if_pos hw, if_pos hw, if_pos h2, h3]
  · rw [if_neg hw, if_neg hw]

theorem chrTypeInfo_Default (cfg : Config) (m : Mapper) (src : Ptr)
    (h0 : 0 < InternalGetChrPageSize cfg m)
    (hsrc : (if m._onlyChrRam then m._chrRam else some chrRomPtr) = some src) :
    chrTypeInfo cfg m ChrMemoryType.Default =
      some (some src, m._chrRomSize / InternalGetChrPageSize cfg m,
        InternalGetChrPageSize cfg m, chrDefaultAccess m) := by
  have hne : ¬ (InternalGetChrPageSize cfg m = 0) := by omega
  simp only [chrTypeInfo, GetCHRPageCount, hne, if_false, Option.map_some', hsrc,
    chrDefaultAccess]

theorem chrCore_congr (cfg : Config) (m m0 : Mapper) (h : m.chrCore = m0.chrCore) :
    InternalGetChrPageSize cfg m = InternalGetChrPageSize cfg m0 ∧
      chrDefaultAccess m = chrDefaultAccess m0 ∧
      (if m._onlyChrRam then m._chrRam else some chrRomPtr) =
        (if m0._onlyChrRam then m0._chrRam else some chrRomPtr) ∧
      m._chrRomSize = m0._chrRomSize := by
  have e1 : m._chrRomSize = m0._chrRomSize := (congrArg (fun x => x.1) h :)
  have e2 : m._onlyChrRam = m0._onlyChrRam := (congrArg (fun x => x.2.1) h :)
  have e3 : m._chrRam = m0._chrRam := (congrArg (fun x => x.2.2) h :)
  unfold InternalGetChrPageSize chrDefaultAccess
  rw [e1, e2, e3]
  exact ⟨rfl, rfl, rfl, rfl⟩

/-- The typed `SetPpuMemoryMapping` with the `Default` type on a mapper with the CHR members
of `m0`. -/
theorem SetPpuMemoryMapping_Default (cfg : Config) (m0 m1 : Mapper) (s e p : Nat) (src : Ptr)
    (hcore : m1.chrCore = m0.chrCore) (h0 : 0 < InternalGetChrPageSize cfg m0)
    (hsrc : (if m0._onlyChrRam then m0._chrRam else some chrRomPtr) = some src) :
    SetPpuMemoryMapping cfg m1 s e p ChrMemoryType.Default (-1) =
      some { m1 with
        _chrPages := fun j =>
          if s / 256 ≤ j ∧ j ≤ e / 256 then
            some ⟨src.arena, src.off +
              (p % (m0._chrRomSize / InternalGetChrPageSize cfg m0)) *
                InternalGetChrPageSize cfg m0 % 2 ^ 32 + (j - s / 256) * 0x100⟩
          else m1._chrPages j
        _chrPageAccessType := fun j =>
          if s / 256 ≤ j ∧ j ≤ e / 256 then chrDefaultAccess m0 else m1._chrPageAccessType j } := by
  obtain ⟨c1, c2, c3, c4⟩ := chrCore_congr cfg m1 m0 hcore
  have hle := InternalGetChrPageSize_le cfg m0
  have hcnt0 : 0 < m0._chrRomSize / InternalGetChrPageSize cfg m0 := Nat.div_pos hle h0
  have hinfo := chrTypeInfo_Default cfg m1 src (by rw [c1]; exact h0) (by rw [c3]; exact hsrc)
  rw [c1, c2, c4] at hinfo
  have hd : chrDefaultAccess m0 < 128 := by
    unfold chrDefaultAccess
    split_ifs <;> decide
  exact SetPpuMemoryMapping_eq cfg m1 s e p ChrMemoryType.Default src _ _ _ hinfo hcnt0 hd

/-- One `SelectCHRPage` with the `Default` type on a mapper with the CHR members of `m0`:
the page number is recorded and the window of the slot is mapped. -/
theorem SelectCHRPage_spec (cfg : Config) (m0 m : Mapper) (s p : Nat) (src : Ptr)
    (hcore : m.chrCore = m0.chrCore) (h0 : 0 < InternalGetChrPageSize cfg m0) (hs : s < 64)
    (hsrc : (if m0._onlyChrRam then m0._chrRam else some chrRomPtr) = some src) :
    ∃ m2, SelectCHRPage cfg m s p ChrMemoryType.Default = some m2 ∧
      m2.chrCore = m0.chrCore ∧ m2._chrPageNumbers = upd m._chrPageNumbers s p ∧
      (∀ j, chrWindow cfg m0 s j →
        m2._chrPages j = some ⟨src.arena, src.off +
          (p % (m0._chrRomSize / InternalGetChrPageSize cfg m0)) *
            InternalGetChrPageSize cfg m0 % 2 ^ 32 +
          (j - s * InternalGetChrPageSize cfg m0 % 65536 / 256) * 0x100⟩ ∧
        m2._chrPageAccessType j = chrDefaultAccess m0) ∧
      (∀ j, ¬ chrWindow cfg m0 s j →
        m2._chrPages j = m._chrPages j ∧ m2._chrPageAccessType j = m._chrPageAccessType j) := by
  have hcore1 : Mapper.chrCore { m with _chrPageNumbers := upd m._chrPageNumbers s p }
      = m0.chrCore := hcore
  have c1 := (chrCore_congr cfg _ m0 hcore1).1
  have h64 : ¬ (64 ≤ s) := by omega
  have e := SetPpuMemoryMapping_Default cfg m0
    { m with _chrPageNumbers := upd m._chrPageNumbers s p }
    (s * InternalGetChrPageSize cfg m0 % 65536)
    ((s * InternalGetChrPageSize cfg m0 % 65536 + InternalGetChrPageSize cfg m0 + 65535)
      % 65536)
    p src hcore1 h0 hsrc
  have hsel : SelectCHRPage cfg m s p ChrMemoryType.Default =
      SetPpuMemoryMapping cfg { m with _chrPageNumbers := upd m._chrPageNumbers s p }
        (s * InternalGetChrPageSize cfg m0 % 65536)
        ((s * InternalGetChrPageSize cfg m0 % 65536 + InternalGetChrPageSize cfg m0 + 65535)
          % 65536)
        p ChrMemoryType.Default (-1) := by
    unfold SelectCHRPage
    simp only [h64, if_false, c1]
  exact ⟨_, hsel.trans e, hcore1, rfl,
    fun j hj => by
      unfold chrWindow at hj
      simp only [hj, and_self, if_true],
    fun j hj => by
      unfold chrWindow at hj
      simp only [hj, if_false, and_self]⟩
/-- A sequence of `SelectCHRPage` calls with slots below 64: it succeeds; a slot no call names
keeps its page number and a table entry outside every window keeps its value; when the slots
are pairwise different every call's page number is recorded, and when the windows are pairwise
disjoint every window holds the page of its call. -/
theorem runChrSelections_spec (cfg : Config) (m0 : Mapper) (src : Ptr)
    (h0 : 0 < InternalGetChrPageSize cfg m0)
    (hsrc : (if m0._onlyChrRam then m0._chrRam else some chrRomPtr) = some src)
    (l : List (Nat × Nat)) :
    ∀ (m : Mapper), m.chrCore = m0.chrCore → (∀ sp ∈ l, sp.1 < 64) →
      ∃ m2, runChrSelections cfg l m = some m2 ∧ m2.chrCore = m0.chrCore ∧
        (∀ i, (∀ sp ∈ l, sp.1 ≠ i) → m2._chrPageNumbers i = m._chrPageNumbers i) ∧
        (l.Pairwise (fun a b => a.1 ≠ b.1) → ∀ sp ∈ l, m2._chrPageNumbers sp.1 = sp.2) ∧
        (∀ j, (∀ sp ∈ l, ¬ chrWindow cfg m0 sp.1 j) →
          m2._chrPages j = m._chrPages j ∧ m2._chrPageAccessType j = m._chrPageAccessType j) ∧
        (l.Pairwise (fun a b => ∀ j, ¬ (chrWindow cfg m0 a.1 j ∧ chrWindow cfg m0 b.1 j)) →
          ∀ sp ∈ l, ∀ j, chrWindow cfg m0 sp.1 j →
            m2._chrPages j = some ⟨src.arena, src.off +
              (sp.2 % (m0._chrRomSize / InternalGetChrPageSize cfg m0)) *
                InternalGetChrPageSize cfg m0 % 2 ^ 32 +
              (j - sp.1 * InternalGetChrPageSize cfg m0 % 65536 / 256) * 0x100⟩ ∧
            m2._chrPageAccessType j = chrDefaultAccess m0) := by
  induction l with
  | nil =>
    intro m hm _
    exact ⟨m, rfl, hm, fun _ _ => rfl, fun _ sp hsp => absurd hsp (List.not_mem_nil sp),
      fun _ _ => ⟨rfl, rfl⟩, fun _ sp hsp => absurd hsp (List.not_mem_nil sp)⟩
  | cons x rest ih =>
    intro m hm hslots
    obtain ⟨m1, e1, hc1, hn1, hin1, hout1⟩ := SelectCHRPage_spec cfg m0 m x.1 x.2 src hm h0
      (hslots x (List.mem_cons_self x rest)) hsrc
    obtain ⟨m2, e2, hc2, hnum, hrec, hkeep, hwin⟩ := ih m1 hc1
      (fun sp hsp => hslots sp (List.mem_cons_of_mem x hsp))
    refine ⟨m2, ?_, hc2, ?_, ?_, ?_, ?_⟩
    · rw [runChrSelections, e1, Option.some_bind, e2]
    · intro i hi
      rw [hnum i (fun sp hsp => hi sp (List.mem_cons_of_mem x hsp)), hn1]
      have hx : i ≠ x.1 := fun h => hi x (List.mem_cons_self x rest) h.symm
      simp [upd, hx]
    · intro hpw sp hsp
      rw [List.pairwise_cons] at hpw
      rcases List.mem_cons.mp hsp with h | h
      · subst h
        rw [hnum sp.1 (fun b hb heq => hpw.1 b hb heq.symm), hn1]
        simp [upd]
      · exact hrec hpw.2 sp h
    · intro j hj
      obtain ⟨k1, k2⟩ := hkeep j (fun sp hsp => hj sp (List.mem_cons_of_mem x hsp))
      obtain ⟨o1, o2⟩ := hout1 j (hj x (List.mem_cons_self x rest))
      exact ⟨k1.trans o1, k2.trans o2⟩
    · intro hpw sp hsp j hj
      rw [List.pairwise_cons] at hpw
      rcases List.mem_cons.mp hsp with h | h
      · subst h
        obtain ⟨k1, k2⟩ := hkeep j (fun b hb hb2 => hpw.1 b hb j ⟨hj, hb2⟩)
        obtain ⟨i1, i2⟩ := hin1 j hj
        exact ⟨k1.trans i1, k2.trans i2⟩
      · exact hwin hpw.2 sp h j hj

/-- `SelectChrPage8x(slot, page)` is the eight `SelectCHRPage` calls of `chr8xSelections`. -/
theorem SelectChrPage8x_selections (cfg : Config) (m : Mapper) (slot page : Nat)
    (hslot : 8 * slot + 7 < 64) (hpage : page < 65536) :
    SelectChrPage8x cfg m slot page ChrMemoryType.Default =
      runChrSelections cfg (chr8xSelections slot page) m := by
  have s0 : slot * 2 % 65536 = 2 * slot := by omega
  have s1 : (slot * 2 + 1) % 65536 = 2 * slot + 1 := by omega
  have a0 : 2 * slot * 2 % 65536 = 4 * slot := by omega
  have a1 : (2 * slot * 2 + 1) % 65536 = 4 * slot + 1 := by omega
  have a2 : (2 * slot + 1) * 2 % 65536 = 4 * slot + 2 := by omega
  have a3 : ((2 * slot + 1) * 2 + 1) % 65536 = 4 * slot + 3 := by omega
  have b0 : (4 * slot + 2) * 2 % 65536 = 8 * slot + 4 := by omega
  have b1 : ((4 * slot + 2) * 2 + 1) % 65536 = 8 * slot + 5 := by omega
  have b2 : (4 * slot + 3) * 2 % 65536 = 8 * slot + 6 := by omega
  have b3 : ((4 * slot + 3) * 2 + 1) % 65536 = 8 * slot + 7 := by omega
  have p0 : page % 65536 = page := by omega
  have p3 : ((page + 2) % 65536 + 1) % 65536 = (page + 3) % 65536 := by omega
  have p5 : ((page + 4) % 65536 + 1) % 65536 = (page + 5) % 65536 := by omega
  have p6 : ((page + 4) % 65536 + 2) % 65536 = (page + 6) % 65536 := by omega
  have p7 : ((page + 6) % 65536 + 1) % 65536 = (page + 7) % 65536 := by omega
  unfold SelectChrPage8x
  simp only [SelectChrPage4x, SelectChrPage2x, s0, s1, a0, a1, a2, a3, b0, b1, b2, b3, p0, p3,
    p5, p6, p7, chr8xSelections, runChrSelections, Option.bind_assoc, Option.bind_some]
theorem chr8xSelections_slots (slot page : Nat) :
    (chr8xSelections slot page).Pairwise (fun a b => a.1 ≠ b.1) ∧
      ∀ sp ∈ chr8xSelections slot page, sp.1 ≤ 8 * slot + 7 := by
  constructor
  · simp only [chr8xSelections, List.pairwise_cons, List.mem_cons, List.mem_singleton,
      List.not_mem_nil, forall_eq_or_imp, forall_eq, List.Pairwise.nil, IsEmpty.forall_iff,
      implies_true, and_true, ne_eq]
    omega
  · intro sp hsp
    simp only [chr8xSelections, List.mem_cons, List.mem_singleton, List.not_mem_nil,
      or_false] at hsp
    rcases hsp with h | h | h | h | h | h | h | h <;> subst h <;> simp only [] <;> omega

/-- Without 16-bit wrap-around the window of a CHR slot is the block of `pageSize / 256` table
entries from `slot * pageSize / 256`. -/
theorem chrWindow_iff (cfg : Config) (m : Mapper) (t j : Nat)
    (h0 : 0 < InternalGetChrPageSize cfg m)
    (hw : (t + 1) * InternalGetChrPageSize cfg m ≤ 0x10000) :
    chrWindow cfg m t j ↔
      ((0 * 256 + t * InternalGetChrPageSize cfg m) / 256 ≤ j ∧
        j ≤ (0 * 256 + t * InternalGetChrPageSize cfg m + InternalGetChrPageSize cfg m - 1)
          / 256) := by
  have e1 : (t + 1) * InternalGetChrPageSize cfg m
      = t * InternalGetChrPageSize cfg m + InternalGetChrPageSize cfg m := by ring
  rw [e1] at hw
  unfold chrWindow
  generalize t * InternalGetChrPageSize cfg m = u at hw
  have h1 : u % 65536 = u := Nat.mod_eq_of_lt (by omega)
  have h2 : (u + InternalGetChrPageSize cfg m + 65535) % 65536
      = u + InternalGetChrPageSize cfg m - 1 := by omega
  rw [h1, h2, Nat.zero_mul, Nat.zero_add]

/-- On PRG-ROM with a non-zero page size in use, `SetCpuMemoryMapping` is defined for every
range, page number and access type, and changes only the page-table entries of the range. -/
theorem SetCpuMemoryMapping_PrgRom_isSome (cfg : Config) (m : Mapper) (s e : Nat) (pn : Int)
    (acc : Int) (h0 : 0 < InternalGetPrgPageSize cfg m) :
    ∃ m2, SetCpuMemoryMapping cfg m s e pn PrgMemoryType.PrgRom acc = some m2 ∧
      (∀ j, ¬ (s / 256 ≤ j ∧ j ≤ e / 256) →
        m2._prgPages j = m._prgPages j ∧ m2._prgPageAccessType j = m._prgPageAccessType j) ∧
      m2 = { m with
        _prgPages := m2._prgPages
        _prgPageAccessType := m2._prgPageAccessType } := by
  have hle := InternalGetPrgPageSize_le cfg m
  have hcnt0 : 0 < m._prgSize / InternalGetPrgPageSize cfg m := Nat.div_pos hle h0
  have hcnt : GetPRGPageCount cfg m = some (m._prgSize / InternalGetPrgPageSize cfg m) := by
    unfold GetPRGPageCount
    rw [if_neg (by omega)]
  obtain ⟨page, hpage⟩ := effectivePage_isSome _ pn hcnt0
  refine ⟨_, SetCpuMemoryMapping_eq cfg m s e pn PrgMemoryType.PrgRom acc _ _ _ _ page
    (prgTypeInfo_PrgRom cfg m _ hcnt) hpage, ?_, rfl⟩
  intro j hj
  simp only [hj, if_false, and_self]

/-- The cheats change PRG-ROM bytes only. -/
theorem ApplyCheats_PrgInv (env : Env) (n : Nat) (m : Mapper) (h : PrgInv n m) :
    PrgInv n (ApplyCheats env m) :=
  ⟨h.prgSize, h.romSize, h.valid⟩

theorem SaveRamKept.trans {a b c : Mapper} (h1 : SaveRamKept a b) (h2 : SaveRamKept b c) :
    SaveRamKept a c :=
  ⟨h2.1.trans h1.1, h2.2.1.trans h1.2.1, h2.2.2.1.trans h1.2.2.1,
    fun i hi1 hi2 => ⟨(h2.2.2.2.1 i hi1 hi2).1.trans (h1.2.2.2.1 i hi1 hi2).1,
      (h2.2.2.2.1 i hi1 hi2).2.trans (h1.2.2.2.1 i hi1 hi2).2⟩,
    fun x hx1 hx2 => (h2.2.2.2.2 x hx1 hx2).trans (h1.2.2.2.2 x hx1 hx2)⟩

/-- `SelectPRGPage` on a ROM of at least 32 KiB with a non-zero page size in use returns, and
changes only the page number of the slot and the page-table entries of its window. -/
theorem SelectPRGPage_window (cfg : Config) (m : Mapper) (slot page : Nat)
    (hbig : 0x8000 ≤ m._prgSize) (hslot : slot < 64)
    (h0 : 0 < InternalGetPrgPageSize cfg m) :
    ∃ m2, SelectPRGPage cfg m slot page PrgMemoryType.PrgRom = some m2 ∧
      (∀ i, ¬ ((0x8000 + slot * InternalGetPrgPageSize cfg m) % 65536 / 256 ≤ i ∧
          i ≤ ((0x8000 + slot * InternalGetPrgPageSize cfg m) % 65536
            + InternalGetPrgPageSize cfg m - 1) % 65536 / 256) →
        m2._prgPages i = m._prgPages i ∧ m2._prgPageAccessType i = m._prgPageAccessType i) ∧
      m2 = { m with
        _prgPageNumbers := upd m._prgPageNumbers slot page
        _prgPages := m2._prgPages
        _prgPageAccessType := m2._prgPageAccessType } := by
  have h64 : ¬ (64 ≤ slot) := by omega
  have hbig1 : ¬ (m._prgSize < PrgAddressRangeSize) := by
    unfold PrgAddressRangeSize
    omega
  obtain ⟨m2, e2, hkeep, hm2⟩ := SetCpuMemoryMapping_PrgRom_isSome cfg
    { m with _prgPageNumbers := upd m._prgPageNumbers slot page }
    ((0x8000 + slot * InternalGetPrgPageSize cfg m) % 65536)
    (((0x8000 + slot * InternalGetPrgPageSize cfg m) % 65536
      + InternalGetPrgPageSize cfg m - 1) % 65536)
    (toInt16 page) (-1) h0
  refine ⟨m2, ?_, hkeep, hm2⟩
  unfold SelectPRGPage
  simp only [h64, if_false, hbig1]
  exact e2

/-- The save RAM window of a mapper that `SelectPRGPage` was called on, when the window of the
slot starts at or after `0x8000`. -/
theorem SelectPRGPage_keepsSaveRam (cfg : Config) (m : Mapper) (slot page : Nat)
    (hbig : 0x8000 ≤ m._prgSize) (hslot : slot < 64)
    (h0 : 0 < InternalGetPrgPageSize cfg m)
    (hwin : 0x8000 ≤ (0x8000 + slot * InternalGetPrgPageSize cfg m) % 65536) :
    ∃ m2, SelectPRGPage cfg m slot page PrgMemoryType.PrgRom = some m2 ∧ SaveRamKept m m2 ∧
      m2._prgSize = m._prgSize := by
  obtain ⟨m2, e, hout, hm2⟩ := SelectPRGPage_window cfg m slot page hbig hslot h0
  have f1 : m2._saveRamSize = m._saveRamSize := (congrArg Mapper._saveRamSize hm2 :)
  have f2 : m2.size = m.size := (congrArg Mapper.size hm2 :)
  have f3 : m2.mem = m.mem := (congrArg Mapper.mem hm2 :)
  have f4 : m2._isRegisterAddr = m._isRegisterAddr := (congrArg Mapper._isRegisterAddr hm2 :)
  have f5 : m2._prgSize = m._prgSize := (congrArg Mapper._prgSize hm2 :)
  refine ⟨m2, e, ⟨f1, by rw [f2], by rw [f3], fun i _ hi2 => hout i (by omega),
    fun a _ _ => by rw [f4]⟩, f5⟩

/-- A patch that changes nothing in `t` changes nothing in tables that agree with `t` where
the patch writes. -/
theorem Patch.apply_fixed_of_agree (P : Patch) (t t2 : Tables) (h : P.apply t = t)
    (hag : ∀ b j, P b j ≠ none → t2 b j = t b j) : P.apply t2 = t2 := by
  funext b j
  have hbj := congrFun (congrFun h b) j
  unfold Patch.apply at hbj ⊢
  cases hP : P b j with
  | none => rfl
  | some e =>
    rw [hP] at hbj
    rw [hag b j (by rw [hP]; exact Option.some_ne_none e)]
    exact hbj

/-- One admissible call keeps every recorded selection visible. -/
theorem Replayed_step (cfg : Config) (F m m2 : Mapper) (c : Call) (hc : ReplayConfig cfg F)
    (hok : c.ok cfg F)
    (ht : m2.tables = (replayPatch cfg F c.slot c.value).apply m.tables)
    (hnum : m2.replayNumbers = upd m.replayNumbers c.slot c.value) (lim : Nat)
    (h : Replayed cfg F m lim) : Replayed cfg F m2 lim := by
  intro k hk hl
  rw [hnum] at hl ⊢
  by_cases hks : k = c.slot
  · subst hks
    simp only [upd, if_true]
    rw [slotCall_of_ok cfg F c hok, ht]
    exact ⟨hok, Patch.apply_absorb _ _ _ (fun _ _ hne => hne)⟩
  · simp only [upd, hks, if_false] at hl ⊢
    obtain ⟨h1, h2⟩ := h k hk hl
    refine ⟨h1, ?_⟩
    rw [ht, Patch.apply_comm _ _ m.tables
      (fun b j => (replayPatch_family cfg F hc).1 k c.slot (m.replayNumbers k) c.value b j hks),
      h2]

/-- Any sequence of admissible calls succeeds and keeps every recorded selection visible. -/
theorem runCalls_replayed (cfg : Config) (F : Mapper) (hc : ReplayConfig cfg F) (lim : Nat)
    (calls : List Call) : ∀ (m : Mapper), SameCartridge F m → (∀ c ∈ calls, c.ok cfg F) →
    Replayed cfg F m lim →
    ∃ S, runCalls cfg calls m = some S ∧ SameCartridge F S ∧ Replayed cfg F S lim := by
  induction calls with
  | nil =>
    intro m hm _ hr
    exact ⟨m, rfl, hm, hr⟩
  | cons c cs ih =>
    intro m hm hok hr
    have hcok := hok c (List.mem_cons_self c cs)
    obtain ⟨m2, e, hm2, ht, hnum⟩ := Call.step cfg F m c hc hm hcok
    obtain ⟨S, e2, h1, h2⟩ := ih m2 hm2 (fun x hx => hok x (List.mem_cons_of_mem c hx))
      (Replayed_step cfg F m m2 c hc hcok ht hnum lim hr)
    exact ⟨S, by simp [runCalls, e, e2], h1, h2⟩

theorem prgPatch_congr (cfg : Config) (F G : Mapper) (h : F._prgSize = G._prgSize) :
    prgPatch cfg F = prgPatch cfg G := by
  funext s p
  unfold prgPatch prgPageOffset GetPRGPageCount InternalGetPrgPageSize
  rw [h]

theorem chrPatch_congr (cfg : Config) (F G : Mapper) (h : F.chrCore = G.chrCore) :
    chrPatch cfg F = chrPatch cfg G := by
  have e1 : F._chrRomSize = G._chrRomSize := (congrArg (fun x => x.1) h :)
  have e2 : F._onlyChrRam = G._onlyChrRam := (congrArg (fun x => x.2.1) h :)
  have e3 : F._chrRam = G._chrRam := (congrArg (fun x => x.2.2) h :)
  funext s p
  unfold chrPatch chrSource chrTypeInfo GetCHRPageCount chrDefaultAccess InternalGetChrPageSize
  rw [e1, e2, e3]

/-- The PRG and CHR patches depend on the sizes and the CHR memory of the cartridge only. -/
theorem replayPatch_congr (cfg : Config) (F G : Mapper) (h1 : F._prgSize = G._prgSize)
    (h2 : F.chrCore = G.chrCore) (k v : Nat) (hk : k < 128) :
    replayPatch cfg F k v = replayPatch cfg G k v := by
  funext b j
  unfold replayPatch
  rw [prgPatch_congr cfg F G h1, chrPatch_congr cfg F G h2]
  by_cases hk1 : k < 64
  · rw [if_pos hk1, if_pos hk1]
  · rw [if_neg hk1, if_neg hk1, if_pos hk, if_pos hk]

theorem Call.ok_congr (cfg : Config) (F G : Mapper) (h1 : F._prgSize = G._prgSize)
    (h2 : F._chrRomSize = G._chrRomSize) (c : Call) (h : c.ok cfg F) : c.ok cfg G := by
  have e1 : InternalGetPrgPageSize cfg F = InternalGetPrgPageSize cfg G := by
    unfold InternalGetPrgPageSize
    rw [h1]
  have e2 : InternalGetChrPageSize cfg F = InternalGetChrPageSize cfg G := by
    unfold InternalGetChrPageSize
    rw [h2]
  cases c with
  | selectPrg s p =>
    unfold Call.ok at h ⊢
    rw [← h1, ← e1]
    exact h
  | selectChr s p =>
    unfold Call.ok at h ⊢
    rw [← e2]
    exact h
  | setNametable s v => exact h

theorem ReplayConfig_congr (cfg : Config) (F G : Mapper) (h1 : F._prgSize = G._prgSize)
    (h2 : F.chrCore = G.chrCore) (hc : ReplayConfig cfg G) : ReplayConfig cfg F := by
  have e1 : F._chrRomSize = G._chrRomSize := (congrArg (fun x => x.1) h2 :)
  have e2 : F._onlyChrRam = G._onlyChrRam := (congrArg (fun x => x.2.1) h2 :)
  have e3 : F._chrRam = G._chrRam := (congrArg (fun x => x.2.2) h2 :)
  have p1 : InternalGetPrgPageSize cfg F = InternalGetPrgPageSize cfg G := by
    unfold InternalGetPrgPageSize
    rw [h1]
  have p2 : InternalGetChrPageSize cfg F = InternalGetChrPageSize cfg G := by
    unfold InternalGetChrPageSize
    rw [e1]
  refine ⟨?_, ?_, ?_, ?_, ?_⟩
  · rw [p1]
    exact hc.prgPos
  · rw [p1, h1]
    exact hc.prgAligned
  · rw [p2]
    exact hc.chrPos
  · rw [p2]
    exact hc.chrAligned
  · rw [e2, e3]
    exact hc.chrSrc

/-- The state after `SetNametables` on a mapper whose recorded page selections are visible:
all its recorded selections, nametables included, are visible. -/
theorem nametables_replayed (cfg : Config) (B0 M F : Mapper) (a b c d : Nat) (ha : a < 4)
    (hb : b < 4) (hc : c < 4) (hd : d < 4)
    (hsz : M._prgSize = B0._prgSize) (hchr : M.chrCore = B0.chrCore)
    (hrep : Replayed cfg B0 M 128)
    (ho : CartNametablesOwned M) (hF : SetNametables M a b c d = some F) :
    SameCartridge F F ∧ F.core = M.core ∧ Replayed cfg F F 132 := by
  obtain ⟨m4, e, hown, hnes, _, _, _, hidx, hpages, hacc, hout⟩ :=
    SetNametables_spec M a b c d ha hb hc hd ho
  have hm4 : m4 = F := by
    rw [e] at hF
    exact Option.some.inj hF
  subst hm4
  have hcore : m4.core = M.core := SetNametables_keeps_core M m4 a b c d ha hb hc hd ho e
  have c1 : m4._prgSize = M._prgSize := (congrArg (fun x => x.1) hcore :)
  have c2 : m4._chrRomSize = M._chrRomSize := (congrArg (fun x => x.2.1) hcore :)
  have c3 : m4._onlyChrRam = M._onlyChrRam := (congrArg (fun x => x.2.2.1) hcore :)
  have c4 : m4._chrRam = M._chrRam := (congrArg (fun x => x.2.2.2.1) hcore :)
  have hprg : m4._prgPageNumbers = M._prgPageNumbers := (congrArg (fun x => x.2.2.2.2.1) hcore :)
  have hchrn : m4._chrPageNumbers = M._chrPageNumbers :=
    (congrArg (fun x => x.2.2.2.2.2.1) hcore :)
  have c7 : m4._prgPages = M._prgPages := (congrArg (fun x => x.2.2.2.2.2.2.1) hcore :)
  have c8 : m4._prgPageAccessType = M._prgPageAccessType :=
    (congrArg (fun x => x.2.2.2.2.2.2.2) hcore :)
  have hchr4 : m4.chrCore = B0.chrCore := by
    rw [← hchr]
    unfold Mapper.chrCore
    rw [c2, c3, c4]
  have hptr : ∀ v, nametablePointer m4 v = nametablePointer M v :=
    fun v => nametablePointer_congr M m4 hnes v
  have hnumlow : ∀ k, k < 128 → m4.replayNumbers k = M.replayNumbers k := by
    intro k hk
    unfold Mapper.replayNumbers
    rw [hprg, hchrn]
    by_cases h1 : k < 64
    · rw [if_pos h1, if_pos h1]
    · rw [if_neg h1, if_neg h1, if_pos hk, if_pos hk]
  have hn : ∀ s, s < 4 → m4.replayNumbers (128 + s) = m4._nametableIndexes s := by
    intro s _
    have h1 : ¬ (128 + s < 64) := by omega
    have h2 : ¬ (128 + s < 128) := by omega
    simp [Mapper.replayNumbers, h1, h2]
  refine ⟨⟨rfl, rfl, rfl, rfl, rfl, hown⟩, hcore, ?_⟩
  intro k hk hl
  by_cases h1 : k < 128
  · rw [hnumlow k h1] at hl ⊢
    obtain ⟨g1, g2⟩ := hrep k h1 hl
    refine ⟨Call.ok_congr cfg B0 m4 (hsz.symm.trans c1.symm)
      (((congrArg (fun x => x.1) hchr4 :) : m4._chrRomSize = B0._chrRomSize).symm) _ g1, ?_⟩
    rw [replayPatch_congr cfg m4 B0 (c1.trans hsz) hchr4 k _ h1]
    refine Patch.apply_fixed_of_agree _ M.tables m4.tables g2 ?_
    intro b j hne
    cases b with
    | false =>
      show (m4._prgPages j, m4._prgPageAccessType j) = (M._prgPages j, M._prgPageAccessType j)
      rw [c7, c8]
    | true =>
      have hj : j < 0x20 := by
        by_contra hge
        apply hne
        unfold replayPatch
        by_cases hk1 : k < 64
        · rw [if_pos hk1]
          rfl
        · rw [if_neg hk1, if_pos h1]
          exact chrPatch_below cfg B0 _ _ j (by omega)
      obtain ⟨o1, o2⟩ := hout j (by omega)
      show (m4._chrPages j, m4._chrPageAccessType j) = (M._chrPages j, M._chrPageAccessType j)
      rw [o1, o2]
  · have h2 : ¬ (k < 64) := by omega
    have h3 : (k = 128 + 0 ∨ k = 128 + 1) ∨ (k = 128 + 2 ∨ k = 128 + 3) := by omega
    constructor
    · simp only [slotCall, Mapper.replayNumbers, h1, h2, if_false, Call.ok]
      rcases h3 with (h | h) | (h | h) <;> subst h <;> simp [hidx, ha, hb, hc, hd]
    · rcases h3 with (h | h) | (h | h) <;> subst h
      · rw [hn 0 (by decide), hidx.1]
        refine ntPatch_fixed cfg m4 0 0x20 a m4.tables (by decide) rfl (fun j hj => ?_)
        have := (hpages j hj).1
        simp only [Mapper.tables, if_true, this, hptr, hacc (0x20 + j) (by omega) (by omega)]
      · rw [hn 1 (by decide), hidx.2.1]
        refine ntPatch_fixed cfg m4 1 0x24 b m4.tables (by decide) rfl (fun j hj => ?_)
        have := (hpages j hj).2.1
        simp only [Mapper.tables, if_true, this, hptr, hacc (0x24 + j) (by omega) (by omega)]
      · rw [hn 2 (by decide), hidx.2.2.1]
        refine ntPatch_fixed cfg m4 2 0x28 c m4.tables (by decide) rfl (fun j hj => ?_)
        have := (hpages j hj).2.2.1
        simp only [Mapper.tables, if_true, this, hptr, hacc (0x28 + j) (by omega) (by omega)]
      · rw [hn 3 (by decide), hidx.2.2.2]
        refine ntPatch_fixed cfg m4 3 0x2C d m4.tables (by decide) rfl (fun j hj => ?_)
        have := (hpages j hj).2.2.2
        simp only [Mapper.tables, if_true, this, hptr, hacc (0x2C + j) (by omega) (by omega)]

/-- The state after `SetDefaultNametables` on a mapper whose recorded page selections are
visible: all its recorded selections, nametables included, are visible. -/
theorem defaultNametables_replayed (cfg : Config) (B0 F0 F : Mapper) (A B : Option Ptr)
    (hsz : F0._prgSize = B0._prgSize) (hchr : F0.chrCore = B0.chrCore)
    (hrep : Replayed cfg B0 F0 128)
    (ho : CartNametablesOwned F0) (hF : SetDefaultNametables F0 A B = some F) :
    SameCartridge F F ∧ F.core = F0.core ∧ Replayed cfg F F 132 := by
  obtain ⟨a, b, c, d, ha, hb, hc, hd, hset⟩ := SetMirroringType_indexes
    { F0 with _nesNametableRam := upd (upd F0._nesNametableRam 0 A) 1 B } F0._mirroringType
  unfold SetDefaultNametables at hF
  rw [hset] at hF
  have key := fun M (h : SetNametables M a b c d = some F) h1 h2 h3 h4 =>
    nametables_replayed cfg B0 M F a b c d ha hb hc hd h1 h2 h3 h4 h
  have r := key _ hF hsz hchr hrep ho
  exact r

theorem runCalls_two (cfg : Config) (c1 c2 : Call) (m : Mapper) :
    runCalls cfg [c1, c2] m = (c1.run cfg m).bind (c2.run cfg) := by
  unfold runCalls
  cases c1.run cfg m with
  | none => rfl
  | some m1 =>
    simp only [Option.some_bind]
    unfold runCalls
    cases c2.run cfg m1 with
    | none => rfl
    | some m2 => rfl

/-! ## Theorems -/

/-- C3: a write to an address that is not a register address.  With the Write bit it is the
store `prgPages[A>>8][A & 0xFF] = v`: when that byte exists the new state holds `v` there,
every other byte and every other member is unchanged, and `ReadRAM(A)` returns `v` if the Read
bit is set too.  Without the Write bit the mapper state is unchanged.  With `NoAccess` at slot
`0x50`, `ReadRAM(0x50A0)` is `0x50` and `WriteRAM(0x50A0, 0xFF)` changes nothing. -/
theorem C3_WriteRAM_plain (cfg : Config) (m : Mapper) (A v : Nat)
    (hreg : m._isRegisterAddr A = false) :
    (m._prgPageAccessType (A >>> 8) &&& MemoryAccessType.Write ≠ 0 →
        WriteRAM cfg m A v = m.store (m._prgPages (A >>> 8)) (A &&& 0xFF) v ∧
        ∀ q, m._prgPages (A >>> 8) = some q → q.off + (A &&& 0xFF) < m.size q.arena →
          ∃ m2, WriteRAM cfg m A v = some m2 ∧
            m2.mem q.arena (q.off + (A &&& 0xFF)) = v ∧
            (∀ a o, ¬ (a = q.arena ∧ o = q.off + (A &&& 0xFF)) → m2.mem a o = m.mem a o) ∧
            m2 = { m with mem := m2.mem } ∧
            (m._prgPageAccessType (A >>> 8) &&& MemoryAccessType.Read ≠ 0 →
              ReadRAM cfg m2 A = some v))
      ∧ (m._prgPageAccessType (A >>> 8) &&& MemoryAccessType.Write = 0 →
        WriteRAM cfg m A v = some m)
      ∧ (A = 0x50A0 → m._prgPageAccessType 0x50 = MemoryAccessType.NoAccess →
        ReadRAM cfg m 0x50A0 = some 0x50 ∧ WriteRAM cfg m 0x50A0 0xFF = some m) := by
  have hw : WriteRAM cfg m A v = WritePrgRam m A v := by
    unfold WriteRAM
    simp [hreg]
  refine ⟨fun hbit => ⟨?_, ?_⟩, ?_, ?_⟩
  · rw [hw]
    unfold WritePrgRam hasAccess
    simp [hbit]
  · intro q hq hin
    refine ⟨{ m with mem := fun a o =>
        if a = q.arena ∧ o = q.off + (A &&& 0xFF) then v else m.mem a o }, ?_, ?_, ?_, ?_, ?_⟩
    · rw [hw]
      unfold WritePrgRam hasAccess Mapper.store
      simp [hbit, hq, hin]
    · simp
    · intro a o hne
      simp [hne]
    · rfl
    · intro hr
      unfold ReadRAM hasAccess Mapper.load
      simp [hreg, hr, hq, hin]
  · intro hbit
    rw [hw]
    unfold WritePrgRam hasAccess
    simp [hbit]
  · intro hA hno
    subst hA
    have h50 : (0x50A0 : Nat) >>> 8 = 0x50 := by decide
    have hob : ((0x50A0 : Nat) &&& 0xFF00) >>> 8 = 0x50 := by decide
    constructor
    · unfold ReadRAM hasAccess
      simp [hreg, h50, hob, hno, MemoryAccessType.NoAccess]
    · unfold WriteRAM WritePrgRam hasAccess
      simp [hreg, h50, hno, MemoryAccessType.NoAccess]

/-- Scenario S4 and a work-RAM round trip on `workRamMapper`: writing `0x42` at `0x6005`
is read back, and the unmapped slot `0x50` reads `0x50` and drops the write. -/
theorem C3_WriteRAM_plain_witness :
    workRamMapper._isRegisterAddr 0x50A0 = false ∧
      (ReadRAM demoConfig workRamMapper 0x50A0 = some 0x50 ∧
        WriteRAM demoConfig workRamMapper 0x50A0 0xFF = some workRamMapper) ∧
      ∃ m2, WriteRAM demoConfig workRamMapper 0x6005 0x42 = some m2 ∧
        ReadRAM demoConfig m2 0x6005 = some 0x42 := by
  refine ⟨rfl, (C3_WriteRAM_plain demoConfig workRamMapper 0x50A0 0xFF rfl).2.2 rfl rfl, ?_⟩
  obtain ⟨m2, h1, _, _, _, h5⟩ :=
    ((C3_WriteRAM_plain demoConfig workRamMapper 0x6005 0x42 rfl).1 (by decide)).2
      workRamPtr rfl (by decide)
  exact ⟨m2, h1, h5 (by decide)⟩

/-- C4: round trip of `SetCpuMemoryMapping` on PRG-ROM.  For an aligned range `[s, e]`, a
page number `0 <= p` (an `int16_t`) and `N = GetPRGPageCount() > 0`, the call with the default
access type succeeds, every slot of the range gets access Read, and every address `A` of the
range that is not dispatched to `ReadRegister` reads
`_prgRom[(p mod N) * pageSize + (A - s)]` whenever that index is inside the PRG-ROM arena. -/
theorem C4_SetCpuMemoryMapping_roundtrip (cfg : Config) (m : Mapper) (s e p N : Nat)
    (hs : s &&& 0xFF = 0) (he : e &&& 0xFF = 0xFF) (hp : p < 32768)
    (hN : GetPRGPageCount cfg m = some N) (hN0 : 0 < N) :
    ∃ m2, SetCpuMemoryMapping cfg m s e (p : Int) PrgMemoryType.PrgRom (-1) = some m2 ∧
      (∀ i, s >>> 8 ≤ i → i ≤ e >>> 8 → m2._prgPageAccessType i = MemoryAccessType.Read) ∧
      (∀ A, s ≤ A → A ≤ e →
        ¬ (m._allowRegisterRead = true ∧ m._isRegisterAddr A = true) →
        (p % N) * InternalGetPrgPageSize cfg m + (A - s) < m.size Arena.PrgRom →
        ReadRAM cfg m2 A =
          some (m.mem Arena.PrgRom ((p % N) * InternalGetPrgPageSize cfg m + (A - s)))) := by
  have hmod : p % N < 32768 := lt_of_le_of_lt (Nat.mod_le p N) hp
  refine ⟨_, SetCpuMemoryMapping_eq cfg m s e p PrgMemoryType.PrgRom (-1) _ _ _ _ _
    (prgTypeInfo_PrgRom cfg m N hN) (effectivePage_nonneg N p hN0 hp), ?_, ?_⟩
  · intro i h1 h2
    rw [shr_8] at h1 h2
    simp [h1, h2]
  · intro A hsA hAe hreg hin
    rw [and_255] at hs he
    have hslot : s / 256 ≤ A / 256 ∧ A / 256 ≤ e / 256 := by omega
    have hidx : prgRomPtr.off + (p % N) * InternalGetPrgPageSize cfg m
        + (A / 256 - s / 256) * 256 + A % 256
        = (p % N) * InternalGetPrgPageSize cfg m + (A - s) := by
      simp only [prgRomPtr]
      omega
    unfold ReadRAM hasAccess Mapper.load
    simp only [shr_8, and_255, hslot, and_self, if_true,
      offset_toNat _ _ hmod (InternalGetPrgPageSize_lt cfg m), hidx]
    have hreg2 : (m._allowRegisterRead && m._isRegisterAddr A) = false := by
      cases h1 : m._allowRegisterRead <;> cases h2 : m._isRegisterAddr A <;> simp_all
    simp [hreg2, MemoryAccessType.Read, prgRomPtr, hin]

/-- On the 128 KiB cartridge with 16 KiB pages (8 pages), page 10 mapped at `0x8000-0xBFFF`
is page 2: `ReadRAM(0x8001)` is the PRG byte at offset `2 * 16384 + 1`. -/
theorem C4_SetCpuMemoryMapping_roundtrip_witness :
    ∃ m2, SetCpuMemoryMapping demoConfig prg128Mapper 0x8000 0xBFFF 10 PrgMemoryType.PrgRom (-1)
        = some m2 ∧
      m2._prgPageAccessType 0x80 = MemoryAccessType.Read ∧
      ReadRAM demoConfig m2 0x8001 = some (prg128Mapper.mem Arena.PrgRom 32769) := by
  obtain ⟨m2, h1, h2, h3⟩ := C4_SetCpuMemoryMapping_roundtrip demoConfig prg128Mapper
    0x8000 0xBFFF 10 8 (by decide) (by decide) (by decide) (by decide) (by decide)
  exact ⟨m2, h1, h2 0x80 (by decide) (by decide),
    h3 0x8001 (by decide) (by decide) (by decide) (by decide)⟩

/-- C5 fails for `k > pageCount`: on the 128 KiB cartridge (8 pages of 16 KiB) page `-9`
becomes page `8 + (-9) = -1`, whose offset `(-1) * 16384` taken as a `uint32_t` lies far
outside the ROM, while page `8 - 9 = -1` becomes page 7. -/
theorem C5_negative_page_counterexample :
    GetPRGPageCount demoConfig prg128Mapper = some 8 ∧
      (SetCpuMemoryMapping demoConfig prg128Mapper 0x8000 0xBFFF (-9) PrgMemoryType.PrgRom
          (-1)).map (fun m => m._prgPages 0x80) = some (some ⟨Arena.PrgRom, 4294950912⟩) ∧
      (SetCpuMemoryMapping demoConfig prg128Mapper 0x8000 0xBFFF (8 - 9) PrgMemoryType.PrgRom
          (-1)).map (fun m => m._prgPages 0x80) = some (some ⟨Arena.PrgRom, 114688⟩) ∧
      SetCpuMemoryMapping demoConfig prg128Mapper 0x8000 0xBFFF (-9) PrgMemoryType.PrgRom (-1) ≠
        SetCpuMemoryMapping demoConfig prg128Mapper 0x8000 0xBFFF (8 - 9) PrgMemoryType.PrgRom
          (-1) := by
  have hl : (SetCpuMemoryMapping demoConfig prg128Mapper 0x8000 0xBFFF (-9) PrgMemoryType.PrgRom
      (-1)).map (fun m => m._prgPages 0x80) = some (some ⟨Arena.PrgRom, 4294950912⟩) := by
    decide
  have hr : (SetCpuMemoryMapping demoConfig prg128Mapper 0x8000 0xBFFF (8 - 9)
      PrgMemoryType.PrgRom (-1)).map (fun m => m._prgPages 0x80)
      = some (some ⟨Arena.PrgRom, 114688⟩) := by
    decide
  refine ⟨by decide, hl, hr, fun h => ?_⟩
  rw [h, hr] at hl
  revert hl
  decide

/-- C5, amended: for `1 <= k <= pageCount` (with `pageCount - k` an `int16_t` value) the
calls with page `-k` and with page `pageCount - k` produce the same state, for every range and
access type; the effective page is `pageCount - k`: slot `i` of the range points at
`_prgRom + (pageCount - k) * pageSize + (i - (s >> 8)) * 256`. -/
theorem C5_negative_page (cfg : Config) (m : Mapper) (s e k N : Nat) (accessType : Int)
    (hN : GetPRGPageCount cfg m = some N) (hk1 : 1 ≤ k) (hkN : k ≤ N) (h16 : N - k < 32768) :
    SetCpuMemoryMapping cfg m s e (-(k : Int)) PrgMemoryType.PrgRom accessType =
        SetCpuMemoryMapping cfg m s e ((N : Int) - (k : Int)) PrgMemoryType.PrgRom accessType ∧
      ∃ m2, SetCpuMemoryMapping cfg m s e (-(k : Int)) PrgMemoryType.PrgRom accessType = some m2 ∧
        ∀ i, s >>> 8 ≤ i → i ≤ e >>> 8 →
          m2._prgPages i =
            some ⟨Arena.PrgRom, (N - k) * InternalGetPrgPageSize cfg m + (i - s >>> 8) * 256⟩ := by
  have hcast : (N : Int) - (k : Int) = ((N - k : Nat) : Int) := by omega
  have hmod : (N - k) % N = N - k := Nat.mod_eq_of_lt (by omega)
  have hpos := effectivePage_nonneg N (N - k) (by omega) h16
  rw [hmod] at hpos
  have hneg := SetCpuMemoryMapping_eq cfg m s e (-(k : Int)) PrgMemoryType.PrgRom accessType
    _ _ _ _ _ (prgTypeInfo_PrgRom cfg m N hN) (effectivePage_negative N k hk1 hkN h16)
  refine ⟨?_, _, hneg, ?_⟩
  · rw [hneg, hcast]
    exact (SetCpuMemoryMapping_eq cfg m s e _ PrgMemoryType.PrgRom accessType
      _ _ _ _ _ (prgTypeInfo_PrgRom cfg m N hN) hpos).symm
  · intro i h1 h2
    rw [shr_8] at h1 h2
    have hoff := offset_toNat _ _ h16 (InternalGetPrgPageSize_lt cfg m)
    simp only [h1, h2, and_self, if_true, hoff, prgRomPtr, shr_8, Nat.zero_add]

/-- On the 128 KiB cartridge, page `-1` and page `8 - 1` give the same state and slot `0x80`
points at the last 16 KiB page. -/
theorem C5_negative_page_witness :
    SetCpuMemoryMapping demoConfig prg128Mapper 0x8000 0xBFFF (-1) PrgMemoryType.PrgRom (-1) =
        SetCpuMemoryMapping demoConfig prg128Mapper 0x8000 0xBFFF (8 - 1) PrgMemoryType.PrgRom
          (-1) ∧
      ∃ m2, SetCpuMemoryMapping demoConfig prg128Mapper 0x8000 0xBFFF (-1) PrgMemoryType.PrgRom
          (-1) = some m2 ∧ m2._prgPages 0x80 = some ⟨Arena.PrgRom, 114688⟩ := by
  obtain ⟨h1, m2, h2, h3⟩ := C5_negative_page demoConfig prg128Mapper 0x8000 0xBFFF 1 8 (-1)
    (by decide) (by decide) (by decide) (by decide)
  exact ⟨h1, m2, h2, h3 0x80 (by decide) (by decide)⟩

/-- C7 fails as stated in three ways.  With 32769 pages of 256 bytes the last page number
32768 does not fit the `int16_t` variable: slot `0x80` is pointed `0x800000` bytes before the
ROM (offset taken as a `uint32_t`) and the read is outside the arena.  A slot of 64 or more,
admitted by the claim for 256-byte pages, indexes past `_prgPageNumbers[64]`.  And an address
dispatched to `ReadRegister` returns the register value, not the ROM byte. -/
theorem C7_last_bank_counterexample :
    ((SelectPRGPage smallPageConfig prgHugeMapper 0 0xFFFF PrgMemoryType.PrgRom).map
        (fun m => m._prgPages 0x80) = some (some ⟨Arena.PrgRom, 4286578688⟩) ∧
      (SelectPRGPage smallPageConfig prgHugeMapper 0 0xFFFF PrgMemoryType.PrgRom).bind
        (fun m => ReadRAM smallPageConfig m 0x8000) = none) ∧
      SelectPRGPage smallPageConfig prgHugeMapper 64 0xFFFF PrgMemoryType.PrgRom = none ∧
      ((SelectPRGPage readableConfig prg128ReadableMapper 1 0xFFFF PrgMemoryType.PrgRom).bind
          (fun m => ReadRAM readableConfig m 0xC001) = some 0xAB ∧
        prg128ReadableMapper.mem Arena.PrgRom 114689 ≠ 0xAB) :=
  ⟨⟨by decide, by decide⟩, rfl, by decide, by decide⟩

/-- C7, amended: PRG-ROM of `N` pages of `pageSize = GetPRGPageSize()` bytes, at least
32 KiB, `pageSize` a multiple of 256, a slot below 64 whose window ends at or before `0x10000`,
and `1 <= k <= N` with `-k` and `N - k` values of `int16_t`.  Then
`SelectPRGPage(slot, -k, PrgRom)` (page passed as `65536 - k`) succeeds and every address
`0x8000 + slot*pageSize + o`, `o < pageSize`, that is not dispatched to `ReadRegister` reads
`prg[(N-k)*pageSize + o]`. -/
theorem C7_last_bank (cfg : Config) (m : Mapper) (N slot k : Nat)
    (hsz : m._prgSize = N * cfg.GetPRGPageSize) (hbig : 0x8000 ≤ m._prgSize)
    (hal : cfg.GetPRGPageSize % 256 = 0) (hsize : m.size Arena.PrgRom = m._prgSize)
    (hslot : 0x8000 + slot * cfg.GetPRGPageSize + cfg.GetPRGPageSize ≤ 0x10000)
    (hslot64 : slot < 64) (hk1 : 1 ≤ k) (hkN : k ≤ N) (hk16 : k ≤ 32768)
    (hNk : N - k < 32768) :
    ∃ m2, SelectPRGPage cfg m slot (65536 - k) PrgMemoryType.PrgRom = some m2 ∧
      ∀ o, o < cfg.GetPRGPageSize →
        ¬ (m._allowRegisterRead = true ∧
          m._isRegisterAddr (0x8000 + slot * cfg.GetPRGPageSize + o) = true) →
        ReadRAM cfg m2 (0x8000 + slot * cfg.GetPRGPageSize + o) =
          some (m.mem Arena.PrgRom ((N - k) * cfg.GetPRGPageSize + o)) := by
  obtain ⟨ps, hps⟩ : ∃ ps, cfg.GetPRGPageSize = ps := ⟨_, rfl⟩
  rw [hps] at hsz hal hslot ⊢
  have hps0 : 0 < ps := by
    rcases Nat.eq_zero_or_pos ps with h | h
    · subst h; omega
    · exact h
  have hN1 : 1 ≤ N := by omega
  have hle : ps ≤ N * ps := Nat.le_mul_of_pos_left ps hN1
  set m1 : Mapper := { m with _prgPageNumbers := upd m._prgPageNumbers slot (65536 - k) } with hm1
  have hips : InternalGetPrgPageSize cfg m1 = ps := by
    unfold InternalGetPrgPageSize
    have h1 : ps % 2 ^ 32 = ps := Nat.mod_eq_of_lt (by omega)
    rw [hps, h1, show m1._prgSize = N * ps from hsz, Nat.min_eq_left hle]
    exact Nat.mod_eq_of_lt (by omega)
  have hcnt : GetPRGPageCount cfg m1 = some N := by
    unfold GetPRGPageCount
    rw [hips, if_neg (by omega), show m1._prgSize = N * ps from hsz,
      Nat.mul_div_cancel _ hps0]
  have hstart : (0x8000 + slot * ps) % 65536 = 0x8000 + slot * ps :=
    Nat.mod_eq_of_lt (by omega)
  have hend : (0x8000 + slot * ps + ps - 1) % 65536 = 0x8000 + slot * ps + ps - 1 :=
    Nat.mod_eq_of_lt (by omega)
  have hsel : SelectPRGPage cfg m slot (65536 - k) PrgMemoryType.PrgRom =
      SetCpuMemoryMapping cfg m1 (0x8000 + slot * ps) (0x8000 + slot * ps + ps - 1)
        (-(k : Int)) PrgMemoryType.PrgRom (-1) := by
    unfold SelectPRGPage
    have h64 : ¬ (64 ≤ slot) := by omega
    have hbig2 : ¬ (m._prgSize < PrgAddressRangeSize) := by
      unfold PrgAddressRangeSize; omega
    simp only [h64, if_false, hbig2]
    rw [hips, hstart, hend, toInt16_neg k hk1 hk16]
  have hmap := SetCpuMemoryMapping_eq cfg m1 (0x8000 + slot * ps) (0x8000 + slot * ps + ps - 1)
    (-(k : Int)) PrgMemoryType.PrgRom (-1) _ _ _ _ _ (prgTypeInfo_PrgRom cfg m1 N hcnt)
    (effectivePage_negative N k hk1 hkN hNk)
  rw [hips, offset_toNat _ _ hNk (by omega)] at hmap
  refine ⟨_, hsel.trans hmap, ?_⟩
  intro o ho hreg
  obtain ⟨t, ht⟩ : ∃ t, slot * ps = 256 * t := by
    have h1 : 256 ∣ slot * ps := Dvd.dvd.mul_left (Nat.dvd_of_mod_eq_zero hal) slot
    exact h1
  have hbound : (N - k) * ps + ps ≤ N * ps := by
    have h1 : (N - k) * ps + ps = (N - k + 1) * ps := by ring
    rw [h1]
    exact Nat.mul_le_mul_right ps (by omega)
  have hslotA : (0x8000 + slot * ps) / 256 ≤ (0x8000 + slot * ps + o) / 256 ∧
      (0x8000 + slot * ps + o) / 256 ≤ (0x8000 + slot * ps + ps - 1) / 256 := by
    omega
  have hidx : prgRomPtr.off + (N - k) * ps
      + ((0x8000 + slot * ps + o) / 256 - (0x8000 + slot * ps) / 256) * 256
      + (0x8000 + slot * ps + o) % 256 = (N - k) * ps + o := by
    simp only [prgRomPtr]
    omega
  have hreg2 : (m._allowRegisterRead && m._isRegisterAddr (0x8000 + slot * ps + o)) = false := by
    cases h1 : m._allowRegisterRead <;>
      cases h2 : m._isRegisterAddr (0x8000 + slot * ps + o) <;> simp_all
  have hin : (N - k) * ps + o < m.size Arena.PrgRom := by
    rw [hsize, hsz]; omega
  unfold ReadRAM hasAccess Mapper.load
  simp only [shr_8, and_255, hslotA, and_self, if_true, hidx]
  simp [m1, hreg2, MemoryAccessType.Read, prgRomPtr, hin]

/-- Scenario S2: PRG 128 KiB in 16 KiB pages, `SelectPRGPage(1, -1)`, then the read at
`0xC001` is the PRG byte at offset `114689`. -/
theorem C7_last_bank_witness :
    ∃ m2, SelectPRGPage demoConfig prg128Mapper 1 0xFFFF PrgMemoryType.PrgRom = some m2 ∧
      ReadRAM demoConfig m2 0xC001 = some (prg128Mapper.mem Arena.PrgRom 114689) := by
  obtain ⟨m2, h1, h2⟩ := C7_last_bank demoConfig prg128Mapper 8 1 1 (by decide) (by decide)
    (by decide) (by decide) (by decide) (by decide) (by decide) (by decide) (by decide)
    (by decide)
  exact ⟨m2, h1, h2 1 (by decide) (by decide)⟩

/-- C6: small-ROM repetition.  A PRG-ROM smaller than 32 KiB whose size is a multiple of 256
and divides `0x8000`, a mapper class with a non-zero 16-bit `GetPRGPageSize()`, a slot of the
64-entry array `_prgPageNumbers` and any page.  `SelectPRGPage(slot, page, PrgRom)` succeeds, records `_prgPageNumbers[slot] = page` for
the slot the caller passed, gives every slot of `0x8000..0xFFFF` access Read, and every
address `A` of that range not dispatched to `ReadRegister` reads
`prg[(A - 0x8000) mod _prgSize]`. -/
theorem C6_small_rom_repetition (cfg : Config) (m : Mapper) (slot page : Nat)
    (hlt : m._prgSize < 0x8000) (hal : m._prgSize % 256 = 0) (hdvd : m._prgSize ∣ 0x8000)
    (hsize : m.size Arena.PrgRom = m._prgSize)
    (hps0 : 0 < cfg.GetPRGPageSize) (hps16 : cfg.GetPRGPageSize < 65536) (hslot : slot < 64) :
    ∃ m2, SelectPRGPage cfg m slot page PrgMemoryType.PrgRom = some m2 ∧
      m2._prgPageNumbers slot = page ∧
      (∀ A, 0x8000 ≤ A → A ≤ 0xFFFF →
        m2._prgPageAccessType (A >>> 8) = MemoryAccessType.Read) ∧
      ∀ A, 0x8000 ≤ A → A ≤ 0xFFFF →
        ¬ (m._allowRegisterRead = true ∧ m._isRegisterAddr A = true) →
        ReadRAM cfg m2 A = some (m.mem Arena.PrgRom ((A - 0x8000) % m._prgSize)) := by
  obtain ⟨c, hc⟩ := hdvd
  obtain ⟨q, hq⟩ : ∃ q, m._prgSize = 256 * q := ⟨m._prgSize / 256, by omega⟩
  have hq0 : 0 < q := by
    rcases Nat.eq_zero_or_pos q with h | h
    · subst h
      rw [hq] at hc
      simp at hc
    · exact h
  have hcq : (0 + c) * q = 0x80 := by
    rw [hq] at hc
    have h1 : 256 * q * c = 256 * (c * q) := by ring
    rw [h1] at hc
    rw [Nat.zero_add]
    omega
  have hdiv : PrgAddressRangeSize / m._prgSize = c := by
    unfold PrgAddressRangeSize
    rw [hc]
    exact Nat.mul_div_cancel_left c (by omega)
  set m1 : Mapper := { m with _prgPageNumbers := upd m._prgPageNumbers slot page } with hm1
  have hips : InternalGetPrgPageSize cfg m1 = min cfg.GetPRGPageSize m._prgSize := by
    unfold InternalGetPrgPageSize
    rw [Nat.mod_eq_of_lt (show cfg.GetPRGPageSize < 2 ^ 32 by omega)]
    exact Nat.mod_eq_of_lt (by simp only [m1]; omega)
  have hips0 : 0 < InternalGetPrgPageSize cfg m1 := by
    rw [hips]; omega
  have hcnt : GetPRGPageCount cfg m1 = some (m._prgSize / InternalGetPrgPageSize cfg m1) := by
    unfold GetPRGPageCount
    rw [if_neg (by omega)]
  have hcnt0 : 0 < m._prgSize / InternalGetPrgPageSize cfg m1 :=
    Nat.div_pos (by rw [hips]; exact Nat.min_le_right _ _) hips0
  have hloop := prgRepeatLoop_eq cfg q _ hq0 hcnt0 c 0 m1 hq hcnt (le_of_eq hcq)
  have hsel : SelectPRGPage cfg m slot page PrgMemoryType.PrgRom =
      prgRepeatLoop cfg PrgMemoryType.PrgRom c 0 m1 := by
    unfold SelectPRGPage
    have h64 : ¬ (64 ≤ slot) := by omega
    have hsmall : m._prgSize < PrgAddressRangeSize := by
      unfold PrgAddressRangeSize; omega
    have hne : ¬ (m._prgSize = 0) := by omega
    simp only [h64, if_false, hsmall, if_true, hne, hdiv]
  rw [hcq] at hloop
  refine ⟨_, hsel.trans hloop, ?_, ?_, ?_⟩
  · simp [m1, upd]
  · intro A h1 h2
    have hslotA : 0x80 + 0 * q ≤ A / 256 ∧ A / 256 < 0x80 + 0x80 := by omega
    simp only [shr_8, hslotA, and_self, if_true]
  · intro A h1 h2 hreg
    have hslotA : 0x80 + 0 * q ≤ A / 256 ∧ A / 256 < 0x80 + 0x80 := by omega
    have hreg2 : (m._allowRegisterRead && m._isRegisterAddr A) = false := by
      cases h3 : m._allowRegisterRead <;> cases h4 : m._isRegisterAddr A <;> simp_all
    have hidx : (A / 256 - 0x80) % q * 256 + A % 256 = (A - 0x8000) % m._prgSize := by
      rw [hq, Nat.mod_mul]
      have e1 : (A - 0x8000) % 256 = A % 256 := by omega
      have e2 : (A - 0x8000) / 256 = A / 256 - 0x80 := by omega
      rw [e1, e2]
      ring
    have hin : (A - 0x8000) % m._prgSize < m.size Arena.PrgRom := by
      rw [hsize]
      exact Nat.mod_lt _ (by omega)
    unfold ReadRAM hasAccess Mapper.load
    simp only [shr_8, and_255, hslotA, and_self, if_true, hidx]
    simp [m1, hreg2, MemoryAccessType.Read, hin]

/-- Scenario S1: PRG 16 KiB, `SelectPRGPage(0, 0)`: `ReadRAM(0x8000) = prg[0]`,
`ReadRAM(0xC000) = prg[0]`, `ReadRAM(0xFFFF) = prg[16383]`. -/
theorem C6_small_rom_repetition_witness :
    ∃ m2, SelectPRGPage demoConfig prg16Mapper 0 0 PrgMemoryType.PrgRom = some m2 ∧
      ReadRAM demoConfig m2 0x8000 = some (prg16Mapper.mem Arena.PrgRom 0) ∧
      ReadRAM demoConfig m2 0xC000 = some (prg16Mapper.mem Arena.PrgRom 0) ∧
      ReadRAM demoConfig m2 0xFFFF = some (prg16Mapper.mem Arena.PrgRom 16383) := by
  obtain ⟨m2, h1, _, _, h3⟩ := C6_small_rom_repetition demoConfig prg16Mapper 0 0
    (by decide) (by decide) (by decide) (by decide) (by decide) (by decide) (by decide)
  exact ⟨m2, h1, h3 0x8000 (by decide) (by decide) (by decide),
    h3 0xC000 (by decide) (by decide) (by decide),
    h3 0xFFFF (by decide) (by decide) (by decide)⟩

/-- C9: mirroring laws.  After `SetDefaultNametables(A, B)` with distinct host buffers `A` and
`B`, `SetMirroringType(t)` stores `t`, sets `_nametableIndexes` to `(0,1,0,1)` for Vertical,
`(0,0,1,1)` for Horizontal, `(0,1,2,3)` for FourScreens, `(0,0,0,0)` for ScreenAOnly and
`(1,1,1,1)` for ScreenBOnly, and the page-table entries of the nametable slots satisfy:
Vertical 0 = 2 and 1 = 3; Horizontal 0 = 1 and 2 = 3; FourScreens four pairwise distinct pages;
ScreenAOnly / ScreenBOnly all four equal. -/
theorem C9_mirroring_laws (m0 : Mapper) (A B : Ptr) (t : MirroringType)
    (hAB : A ≠ B) (hhA : A.isHost) (hhB : B.isHost) (hcart : CartNametablesOwned m0) :
    ∃ m1 m2, SetDefaultNametables m0 (some A) (some B) = some m1 ∧
      SetMirroringType m1 t = some m2 ∧ m2._mirroringType = t ∧
      match t with
      | MirroringType.Vertical =>
        (m2._nametableIndexes 0 = 0 ∧ m2._nametableIndexes 1 = 1 ∧
          m2._nametableIndexes 2 = 0 ∧ m2._nametableIndexes 3 = 1) ∧
        sameNametableSlot m2 0 2 ∧ sameNametableSlot m2 1 3
      | MirroringType.Horizontal =>
        (m2._nametableIndexes 0 = 0 ∧ m2._nametableIndexes 1 = 0 ∧
          m2._nametableIndexes 2 = 1 ∧ m2._nametableIndexes 3 = 1) ∧
        sameNametableSlot m2 0 1 ∧ sameNametableSlot m2 2 3
      | MirroringType.FourScreens =>
        (m2._nametableIndexes 0 = 0 ∧ m2._nametableIndexes 1 = 1 ∧
          m2._nametableIndexes 2 = 2 ∧ m2._nametableIndexes 3 = 3) ∧
        ∀ i j, i < 4 → j < 4 → i ≠ j →
          m2._chrPages (0x20 + 4 * i) ≠ none ∧
          m2._chrPages (0x20 + 4 * i) ≠ m2._chrPages (0x20 + 4 * j)
      | MirroringType.ScreenAOnly =>
        (m2._nametableIndexes 0 = 0 ∧ m2._nametableIndexes 1 = 0 ∧
          m2._nametableIndexes 2 = 0 ∧ m2._nametableIndexes 3 = 0) ∧
        ∀ i j, i < 4 → j < 4 → sameNametableSlot m2 i j
      | MirroringType.ScreenBOnly =>
        (m2._nametableIndexes 0 = 1 ∧ m2._nametableIndexes 1 = 1 ∧
          m2._nametableIndexes 2 = 1 ∧ m2._nametableIndexes 3 = 1) ∧
        ∀ i j, i < 4 → j < 4 → sameNametableSlot m2 i j := by
  obtain ⟨m1, e1, ho, hA, hB, _, _⟩ := SetDefaultNametables_spec m0 (some A) (some B) hcart
  obtain ⟨m2, e2, h⟩ := mirroring_laws_of_state m1 A B t hA hB hAB hhA hhB ho
  exact ⟨m1, m2, e1, e2, h⟩

/-- The zero mapper handed the host buffers 0 and 1, then put in Horizontal and in
FourScreens arrangement: the indexes are `(0,0,1,1)` with slots 0 and 1 sharing their pointers,
and the FourScreens pages of slots 2 and 3 differ. -/
theorem C9_mirroring_laws_witness :
    (∃ m1 m2, SetDefaultNametables zeroMapper (some ⟨Arena.Host 0, 0⟩) (some ⟨Arena.Host 1, 0⟩)
        = some m1 ∧
      SetMirroringType m1 MirroringType.Horizontal = some m2 ∧
      (m2._nametableIndexes 0 = 0 ∧ m2._nametableIndexes 1 = 0 ∧
        m2._nametableIndexes 2 = 1 ∧ m2._nametableIndexes 3 = 1) ∧
      sameNametableSlot m2 0 1 ∧ sameNametableSlot m2 2 3) ∧
    (∃ m1 m2, SetDefaultNametables zeroMapper (some ⟨Arena.Host 0, 0⟩) (some ⟨Arena.Host 1, 0⟩)
        = some m1 ∧
      SetMirroringType m1 MirroringType.FourScreens = some m2 ∧
      m2._chrPages 0x28 ≠ m2._chrPages 0x2C) := by
  have hc : CartNametablesOwned zeroMapper := ⟨Or.inl rfl, Or.inl rfl⟩
  constructor
  · obtain ⟨m1, m2, h0, h1, _, h3⟩ := C9_mirroring_laws zeroMapper ⟨Arena.Host 0, 0⟩
      ⟨Arena.Host 1, 0⟩ MirroringType.Horizontal (by decide) ⟨0, rfl⟩ ⟨1, rfl⟩ hc
    exact ⟨m1, m2, h0, h1, h3⟩
  · obtain ⟨m1, m2, h0, h1, _, _, h3⟩ := C9_mirroring_laws zeroMapper ⟨Arena.Host 0, 0⟩
      ⟨Arena.Host 1, 0⟩ MirroringType.FourScreens (by decide) ⟨0, rfl⟩ ⟨1, rfl⟩ hc
    exact ⟨m1, m2, h0, h1, (h3 2 3 (by decide) (by decide) (by decide)).2⟩

/-- C10: horizontal mirroring seen through the PPU bus.  With the non-overlapping 1 KiB NES
nametables `A` and `B` installed, after `SetMirroringType(Horizontal)` a byte written at
`0x2000 + o` is read back at `0x2400 + o`, and the reads in `0x2800..0x2BFF` and
`0x2C00..0x2FFF` return what they returned before the write. -/
theorem C10_horizontal_bus (m : Mapper) (A B : Ptr) (o v : Nat)
    (hA : m._nesNametableRam 0 = some A) (hB : m._nesNametableRam 1 = some B)
    (hdisj : A.arena ≠ B.arena ∨ A.off + 0x400 ≤ B.off ∨ B.off + 0x400 ≤ A.off)
    (hsize : A.off + 0x400 ≤ m.size A.arena) (ho : o < 0x400) :
    ∃ m1 m2, SetMirroringType m MirroringType.Horizontal = some m1 ∧
      WriteVRAM m1 (0x2000 + o) v = some m2 ∧
      ReadVRAM m2 (0x2400 + o) = some v ∧
      ∀ o2, o2 < 0x400 →
        ReadVRAM m2 (0x2800 + o2) = ReadVRAM m1 (0x2800 + o2) ∧
        ReadVRAM m2 (0x2C00 + o2) = ReadVRAM m1 (0x2C00 + o2) := by
  obtain ⟨m1, e, _, hsz, _, _, hmem, _, _, hp, hacc, _⟩ :=
    SetNametables_core { m with _mirroringType := MirroringType.Horizontal } 0 0 1 1
      (Or.inl ⟨by decide, by decide, by decide, by decide⟩)
  have hsz1 : m1.size = m.size := hsz (by decide) (by decide) (by decide) (by decide)
  have hmem1 : m1.mem = m.mem := hmem
  have pA : nametablePointer { m with _mirroringType := MirroringType.Horizontal } 0 = some A := by
    simp [nametablePointer, hA]
  have pB : nametablePointer { m with _mirroringType := MirroringType.Horizontal } 1 = some B := by
    simp [nametablePointer, hB]
  rw [pA, pB] at hp
  have rw3 : hasAccess MemoryAccessType.ReadWrite MemoryAccessType.Write = true := by decide
  have rr3 : hasAccess MemoryAccessType.ReadWrite MemoryAccessType.Read = true := by decide
  have hk : o / 256 < 4 := by omega
  obtain ⟨p0, p1, _, _⟩ := hp (o / 256) hk
  have a0 : (0x2000 + o) / 256 = 0x20 + o / 256 := by omega
  have a1 : (0x2400 + o) / 256 = 0x24 + o / 256 := by omega
  have r0 : (0x2000 + o) % 256 = o % 256 := by omega
  have r1 : (0x2400 + o) % 256 = o % 256 := by omega
  have hin : A.off + o / 256 * 256 + o % 256 < m1.size A.arena := by
    rw [hsz1]; omega
  refine ⟨m1, { m1 with mem := fun a x =>
      if a = A.arena ∧ x = A.off + o / 256 * 256 + o % 256 then v else m1.mem a x }, e, ?_, ?_, ?_⟩
  · unfold WriteVRAM Mapper.store
    simp only [shr_8, and_255, a0, r0, hacc (0x20 + o / 256) (by omega) (by omega), rw3, if_true,
      p0, Option.map, Ptr.add, hin]
  · unfold ReadVRAM Mapper.load
    simp only [shr_8, and_255, a1, r1, hacc (0x24 + o / 256) (by omega) (by omega), rr3, if_true,
      p1, Option.map, Ptr.add, hin, and_self]
  · intro o2 ho2
    have hk2 : o2 / 256 < 4 := by omega
    obtain ⟨_, _, p2, p3⟩ := hp (o2 / 256) hk2
    have a2 : (0x2800 + o2) / 256 = 0x28 + o2 / 256 := by omega
    have a3 : (0x2C00 + o2) / 256 = 0x2C + o2 / 256 := by omega
    have r2 : (0x2800 + o2) % 256 = o2 % 256 := by omega
    have r3 : (0x2C00 + o2) % 256 = o2 % 256 := by omega
    have hne : ¬ (B.arena = A.arena ∧
        B.off + o2 / 256 * 256 + o2 % 256 = A.off + o / 256 * 256 + o % 256) := by
      rintro ⟨h1, h2⟩
      rcases hdisj with h | h | h
      · exact h h1.symm
      · omega
      · omega
    constructor
    · unfold ReadVRAM Mapper.load
      simp only [shr_8, and_255, a2, r2, hacc (0x28 + o2 / 256) (by omega) (by omega), rr3,
        if_true, p2, Option.map, Ptr.add, hne, if_false]
    · unfold ReadVRAM Mapper.load
      simp only [shr_8, and_255, a3, r3, hacc (0x2C + o2 / 256) (by omega) (by omega), rr3,
        if_true, p3, Option.map, Ptr.add, hne, if_false]

/-- Scenario S7 on the nametable mapper: a byte written at PPU `0x2000` is read at `0x2400`,
and `0x2800`, `0x2C00` still read what they read before. -/
theorem C10_horizontal_bus_witness :
    ∃ m1 m2, SetMirroringType nametableMapper MirroringType.Horizontal = some m1 ∧
      WriteVRAM m1 0x2000 0x5A = some m2 ∧ ReadVRAM m2 0x2400 = some 0x5A ∧
      ReadVRAM m2 0x2800 = ReadVRAM m1 0x2800 ∧ ReadVRAM m2 0x2C00 = ReadVRAM m1 0x2C00 := by
  obtain ⟨m1, m2, h1, h2, h3, h4⟩ := C10_horizontal_bus nametableMapper ⟨Arena.Host 0, 0⟩
    ⟨Arena.Host 1, 0⟩ 0 0x5A rfl rfl (Or.inl (by decide)) (by decide) (by decide)
  exact ⟨m1, m2, h1, h2, h3, h4 0 (by decide)⟩

/-- C11: the PPU side of the bus.  For every address and value, `ReadVRAM` returns the byte
`chrPages[addr>>8][addr & 0xFF]` when the slot has the Read bit and the open-bus value 0
otherwise; `WriteVRAM` is the store `chrPages[addr>>8][addr & 0xFF] = v` when the slot has the
Write bit (when that byte exists the new state holds `v` there, every other byte and every
other member is unchanged, and `ReadVRAM` reads `v` back if the Read bit is set too) and
leaves the whole state unchanged otherwise.  Neither function takes the mapper class (so no
`ReadRegister` / `WriteRegister` can run), and neither depends on the register bitmap or on
`_allowRegisterRead`. -/
theorem C11_VRAM_cases (m : Mapper) (addr v : Nat) :
    ReadVRAM m addr =
        (if m._chrPageAccessType (addr >>> 8) &&& MemoryAccessType.Read ≠ 0 then
          m.load (m._chrPages (addr >>> 8)) (addr &&& 0xFF)
        else some 0)
      ∧ WriteVRAM m addr v =
        (if m._chrPageAccessType (addr >>> 8) &&& MemoryAccessType.Write ≠ 0 then
          m.store (m._chrPages (addr >>> 8)) (addr &&& 0xFF) v
        else some m)
      ∧ (m._chrPageAccessType (addr >>> 8) &&& MemoryAccessType.Write ≠ 0 →
        ∀ q, m._chrPages (addr >>> 8) = some q → q.off + (addr &&& 0xFF) < m.size q.arena →
          ∃ m2, WriteVRAM m addr v = some m2 ∧
            m2.mem q.arena (q.off + (addr &&& 0xFF)) = v ∧
            (∀ a o, ¬ (a = q.arena ∧ o = q.off + (addr &&& 0xFF)) → m2.mem a o = m.mem a o) ∧
            m2 = { m with mem := m2.mem } ∧
            (m._chrPageAccessType (addr >>> 8) &&& MemoryAccessType.Read ≠ 0 →
              ReadVRAM m2 addr = some v))
      ∧ (∀ (r : Nat → Bool) (b : Bool),
        ReadVRAM { m with _isRegisterAddr := r, _allowRegisterRead := b } addr =
          ReadVRAM m addr ∧
        WriteVRAM { m with _isRegisterAddr := r, _allowRegisterRead := b } addr v =
          (WriteVRAM m addr v).map fun m2 =>
            { m2 with _isRegisterAddr := r, _allowRegisterRead := b }) := by
  refine ⟨?_, ?_, ?_, ?_⟩
  · unfold ReadVRAM hasAccess
    by_cases h : m._chrPageAccessType (addr >>> 8) &&& MemoryAccessType.Read = 0 <;> simp [h]
  · unfold WriteVRAM hasAccess
    by_cases h : m._chrPageAccessType (addr >>> 8) &&& MemoryAccessType.Write = 0 <;> simp [h]
  · intro hbit q hq hin
    refine ⟨{ m with mem := fun a o =>
        if a = q.arena ∧ o = q.off + (addr &&& 0xFF) then v else m.mem a o }, ?_, ?_, ?_, ?_, ?_⟩
    · unfold WriteVRAM hasAccess Mapper.store
      simp [hbit, hq, hin]
    · simp
    · intro a o hne
      simp [hne]
    · rfl
    · intro hr
      unfold ReadVRAM hasAccess Mapper.load
      simp [hr, hq, hin]
  · intro r b
    constructor
    · rfl
    · unfold WriteVRAM hasAccess
      by_cases h : m._chrPageAccessType (addr >>> 8) &&& MemoryAccessType.Write = 0
      · simp [h]
      · cases hq : m._chrPages (addr >>> 8) with
        | none => simp [h, hq, Mapper.store]
        | some q =>
          by_cases hin : q.off + (addr &&& 0xFF) < m.size q.arena
          · simp [h, hq, hin, Mapper.store]
          · simp [h, hq, hin, Mapper.store]

/-- The CHR RAM of `chrRamMapper`: the unmapped address `0x1005` reads 0, and `0x42` written
at `0x0005` is read back. -/
theorem C11_VRAM_cases_witness :
    ReadVRAM chrRamMapper 0x1005 = some 0 ∧
      ∃ m2, WriteVRAM chrRamMapper 5 0x42 = some m2 ∧ ReadVRAM m2 5 = some 0x42 := by
  refine ⟨(C11_VRAM_cases chrRamMapper 0x1005 0).1.trans rfl, ?_⟩
  obtain ⟨m2, h1, _, _, _, h5⟩ :=
    (C11_VRAM_cases chrRamMapper 5 0x42).2.2.1 (by decide) ⟨Arena.ChrRam, 0⟩ rfl (by decide)
  exact ⟨m2, h1, h5 (by decide)⟩

/-- C12 as stated fails: the raw `SetPpuMemoryMapping` takes the access type from its
argument whatever the source is.  With a null source and the default access type `-1` slot 0
gets `ReadWrite` (and `ReadVRAM` then reads through the null pointer, which is undefined
instead of the open-bus value 0); with the access type `Read` it gets `Read`. -/
theorem C12_null_source_counterexample :
    (SetPpuMemoryMappingPtr zeroMapper 0 0xFF none (-1))._chrPageAccessType 0
        = MemoryAccessType.ReadWrite ∧
      ReadVRAM (SetPpuMemoryMappingPtr zeroMapper 0 0xFF none (-1)) 0 = none ∧
      (SetPpuMemoryMappingPtr zeroMapper 0 0xFF none 1)._chrPageAccessType 0
        = MemoryAccessType.Read := by
  decide

/-- C12, amended: raw PPU mapping with a null source.  For every range `[s, e]` the call
`SetPpuMemoryMapping(s, e, null, accessType)` stores the null pointer in every slot of
`[s>>8, e>>8]` together with the access type of the call (`ReadWrite` for the default `-1`)
and leaves every other slot alone.  `RemovePpuMemoryMapping(s, e)` is this call with
`NoAccess`: afterwards every slot of the range has `NoAccess`, `ReadVRAM` returns 0 at every
address of the range and `WriteVRAM` there changes nothing. -/
theorem C12_null_source (m : Mapper) (s e : Nat) :
    (∀ (accessType : Int) (i : Nat), s >>> 8 ≤ i → i ≤ e >>> 8 →
        (SetPpuMemoryMappingPtr m s e none accessType)._chrPages i = none ∧
        (SetPpuMemoryMappingPtr m s e none accessType)._chrPageAccessType i =
          (if accessType ≠ -1 then toUInt8 accessType else MemoryAccessType.ReadWrite))
      ∧ (∀ (accessType : Int) (i : Nat), ¬ (s >>> 8 ≤ i ∧ i ≤ e >>> 8) →
        (SetPpuMemoryMappingPtr m s e none accessType)._chrPages i = m._chrPages i ∧
        (SetPpuMemoryMappingPtr m s e none accessType)._chrPageAccessType i =
          m._chrPageAccessType i)
      ∧ RemovePpuMemoryMapping m s e =
        SetPpuMemoryMappingPtr m s e none (MemoryAccessType.NoAccess : Nat)
      ∧ (∀ i, s >>> 8 ≤ i → i ≤ e >>> 8 →
        (RemovePpuMemoryMapping m s e)._chrPageAccessType i = MemoryAccessType.NoAccess)
      ∧ (∀ A v, s ≤ A → A ≤ e →
        ReadVRAM (RemovePpuMemoryMapping m s e) A = some 0 ∧
        WriteVRAM (RemovePpuMemoryMapping m s e) A v = some (RemovePpuMemoryMapping m s e)) := by
  have hacc : ∀ i, s >>> 8 ≤ i → i ≤ e >>> 8 →
      (RemovePpuMemoryMapping m s e)._chrPageAccessType i = MemoryAccessType.NoAccess := by
    intro i h1 h2
    unfold RemovePpuMemoryMapping
    rw [shr_8] at h1 h2
    rw [SetPpuMemoryMappingPtr_eq]
    simp [h1, h2, toUInt8, MemoryAccessType.NoAccess]
  refine ⟨?_, ?_, rfl, hacc, ?_⟩
  · intro accessType i h1 h2
    rw [shr_8] at h1 h2
    rw [SetPpuMemoryMappingPtr_eq]
    simp [h1, h2]
  · intro accessType i h
    rw [shr_8, shr_8] at h
    rw [SetPpuMemoryMappingPtr_eq]
    simp [h]
  · intro A v h1 h2
    have h3 : s >>> 8 ≤ A >>> 8 := by
      rw [shr_8, shr_8]
      exact Nat.div_le_div_right h1
    have h4 : A >>> 8 ≤ e >>> 8 := by
      rw [shr_8, shr_8]
      exact Nat.div_le_div_right h2
    have h5 := hacc (A >>> 8) h3 h4
    constructor
    · unfold ReadVRAM hasAccess
      rw [h5]
      rfl
    · unfold WriteVRAM hasAccess
      rw [h5]
      rfl

/-- Unmapping `0x0000-0x00FF` of `chrRamMapper`: slot 0 loses its access, address `0x0005`
reads 0 and a write there is dropped. -/
theorem C12_null_source_witness :
    (RemovePpuMemoryMapping chrRamMapper 0 0xFF)._chrPageAccessType 0
        = MemoryAccessType.NoAccess ∧
      ReadVRAM (RemovePpuMemoryMapping chrRamMapper 0 0xFF) 5 = some 0 ∧
      WriteVRAM (RemovePpuMemoryMapping chrRamMapper 0 0xFF) 5 0x42
        = some (RemovePpuMemoryMapping chrRamMapper 0 0xFF) :=
  ⟨(C12_null_source chrRamMapper 0 0xFF).2.2.2.1 0 (by decide) (by decide),
    (C12_null_source chrRamMapper 0 0xFF).2.2.2.2 5 0x42 (by decide) (by decide)⟩

/-- C13: register ranges are set-like.  For all `startAddr`, `endAddr` (the loop variable is
an `int`, so `endAddr = 0xFFFF` ends the loop like any other value), `AddRegisterRange` makes
`_isRegisterAddr[a]` true for `startAddr <= a <= endAddr`, `RemoveRegisterRange` makes it
false there, both leave every other entry and every other member unchanged, and with
`startAddr > endAddr` both return the mapper unchanged. -/
theorem C13_register_ranges (m : Mapper) (startAddr endAddr : Nat) :
    (∀ a, (AddRegisterRange m startAddr endAddr)._isRegisterAddr a =
        if startAddr ≤ a ∧ a ≤ endAddr then true else m._isRegisterAddr a)
      ∧ (∀ a, (RemoveRegisterRange m startAddr endAddr)._isRegisterAddr a =
        if startAddr ≤ a ∧ a ≤ endAddr then false else m._isRegisterAddr a)
      ∧ AddRegisterRange m startAddr endAddr =
        { m with _isRegisterAddr := (AddRegisterRange m startAddr endAddr)._isRegisterAddr }
      ∧ RemoveRegisterRange m startAddr endAddr =
        { m with _isRegisterAddr := (RemoveRegisterRange m startAddr endAddr)._isRegisterAddr }
      ∧ (endAddr < startAddr →
        AddRegisterRange m startAddr endAddr = m ∧ RemoveRegisterRange m startAddr endAddr = m) := by
  have hrange : ∀ a, (startAddr ≤ a ∧ a < startAddr + (endAddr + 1 - startAddr)) ↔
      (startAddr ≤ a ∧ a ≤ endAddr) := fun a => by omega
  refine ⟨?_, ?_, rfl, rfl, ?_⟩
  · intro a
    show registerLoop true (endAddr + 1 - startAddr) startAddr m._isRegisterAddr a = _
    rw [registerLoop_eq]
    simp only [hrange]
  · intro a
    show registerLoop false (endAddr + 1 - startAddr) startAddr m._isRegisterAddr a = _
    rw [registerLoop_eq]
    simp only [hrange]
  · intro h
    have h0 : endAddr + 1 - startAddr = 0 := by omega
    unfold AddRegisterRange RemoveRegisterRange
    rw [h0]
    exact ⟨rfl, rfl⟩

/-- The registers `0x8000-0xFFFF` of the zero mapper: `0xFFFF` is marked, `0x7FFF` is not, and
removing `0x9000-0x9FFF` leaves `0x8000` marked. -/
theorem C13_register_ranges_witness :
    (AddRegisterRange zeroMapper 0x8000 0xFFFF)._isRegisterAddr 0xFFFF = true ∧
      (AddRegisterRange zeroMapper 0x8000 0xFFFF)._isRegisterAddr 0x7FFF = false ∧
      (RemoveRegisterRange (AddRegisterRange zeroMapper 0x8000 0xFFFF) 0x9000 0x9FFF)._isRegisterAddr
        0x8000 = true ∧
      (RemoveRegisterRange (AddRegisterRange zeroMapper 0x8000 0xFFFF) 0x9000 0x9FFF)._isRegisterAddr
        0x9800 = false := by
  have h1 := (C13_register_ranges zeroMapper 0x8000 0xFFFF).1
  have h2 := (C13_register_ranges (AddRegisterRange zeroMapper 0x8000 0xFFFF) 0x9000 0x9FFF).2.1
  refine ⟨?_, ?_, ?_, ?_⟩
  · rw [h1]; decide
  · rw [h1]; decide
  · rw [h2, h1]; decide
  · rw [h2]; decide

/-- C17 as stated fails for a cartridge with only CHR RAM: the `Default` type counts pages of
`InternalGetChrPageSize()` bytes in `_chrRomSize`, the `ChrRam` type pages of
`GetChrRamPageSize()` bytes in `_chrRamSize`.  With 8 KiB of CHR RAM, 8 KiB CHR pages and
1 KiB CHR RAM pages, page 1 is offset 0 for `Default` (1 page) and offset `0x400` for
`ChrRam` (8 pages). -/
theorem C17_default_chr_type_counterexample :
    chrRamOnlyMapper._onlyChrRam = true ∧
      (SetPpuMemoryMapping chrRam1kConfig chrRamOnlyMapper 0 0x3FF 1 ChrMemoryType.Default
        (-1)).map (fun m2 => m2._chrPages 0) = some (some ⟨Arena.ChrRam, 0⟩) ∧
      (SetPpuMemoryMapping chrRam1kConfig chrRamOnlyMapper 0 0x3FF 1 ChrMemoryType.ChrRam
        (-1)).map (fun m2 => m2._chrPages 0) = some (some ⟨Arena.ChrRam, 0x400⟩) := by
  decide

/-- C17, amended: resolution of the `Default` CHR type.  For every range, page number and
access type, `SetPpuMemoryMapping(s, e, page, Default)` is `SetPpuMemoryMapping(s, e, page,
ChrRom)` when `_onlyChrRam` is false; when `_onlyChrRam` is true it is
`SetPpuMemoryMapping(s, e, page, ChrRam)` provided the CHR RAM page size is the CHR page size
in use and `_chrRamSize = _chrRomSize`.  With a non-zero CHR page size and a non-null source,
the `Default` call with the default access type writes, in the slots of the range, the source
plus `(page mod pageCount) * pageSize` plus 256 bytes per slot, with access Read for ROM and
Read|Write for RAM, and leaves the other slots alone. -/
theorem C17_default_chr_type (cfg : Config) (m : Mapper) (s e page : Nat) (acc : Int) :
    (m._onlyChrRam = false →
        SetPpuMemoryMapping cfg m s e page ChrMemoryType.Default acc =
          SetPpuMemoryMapping cfg m s e page ChrMemoryType.ChrRom acc)
      ∧ (m._onlyChrRam = true → cfg.GetChrRamPageSize = InternalGetChrPageSize cfg m →
        m._chrRamSize = m._chrRomSize →
        SetPpuMemoryMapping cfg m s e page ChrMemoryType.Default acc =
          SetPpuMemoryMapping cfg m s e page ChrMemoryType.ChrRam acc)
      ∧ (0 < InternalGetChrPageSize cfg m → m._chrRomSize < 2 ^ 32 →
        ∀ src, (if m._onlyChrRam then m._chrRam else some chrRomPtr) = some src →
        ∃ m2, SetPpuMemoryMapping cfg m s e page ChrMemoryType.Default (-1) = some m2 ∧
          (∀ j, s >>> 8 ≤ j → j ≤ e >>> 8 →
            m2._chrPages j = some ⟨src.arena, src.off +
              (page % (m._chrRomSize / InternalGetChrPageSize cfg m)) *
                InternalGetChrPageSize cfg m + (j - s >>> 8) * 0x100⟩ ∧
            m2._chrPageAccessType j =
              if m._onlyChrRam then MemoryAccessType.ReadWrite else MemoryAccessType.Read) ∧
          (∀ j, ¬ (s >>> 8 ≤ j ∧ j ≤ e >>> 8) →
            m2._chrPages j = m._chrPages j ∧
            m2._chrPageAccessType j = m._chrPageAccessType j)) := by
  refine ⟨?_, ?_, ?_⟩
  · intro h
    unfold SetPpuMemoryMapping chrTypeInfo
    simp only [h]
    rfl
  · intro h hps hsz
    unfold SetPpuMemoryMapping chrTypeInfo GetCHRPageCount
    simp only [h, if_true, hps, hsz]
    by_cases h0 : InternalGetChrPageSize cfg m = 0
    · simp only [h0, if_true, Option.map_none']
    · simp only [h0, if_false, Option.map_some']
  · intro h0 h32 src hsrc
    have hle := InternalGetChrPageSize_le cfg m
    have hcnt0 : 0 < m._chrRomSize / InternalGetChrPageSize cfg m := Nat.div_pos hle h0
    have hinfo : chrTypeInfo cfg m ChrMemoryType.Default =
        some (some src, m._chrRomSize / InternalGetChrPageSize cfg m,
          InternalGetChrPageSize cfg m,
          if m._onlyChrRam then MemoryAccessType.ReadWrite else MemoryAccessType.Read) := by
      have hne : ¬ (InternalGetChrPageSize cfg m = 0) := by omega
      have hrw : MemoryAccessType.Read ||| MemoryAccessType.Write = MemoryAccessType.ReadWrite := by
        decide
      simp only [chrTypeInfo, GetCHRPageCount, hne, if_false, Option.map_some', hsrc, hrw]
    have hd : (if m._onlyChrRam then MemoryAccessType.ReadWrite else MemoryAccessType.Read)
        < 128 := by
      cases m._onlyChrRam <;> decide
    have hoff : (page % (m._chrRomSize / InternalGetChrPageSize cfg m)) *
        InternalGetChrPageSize cfg m % 2 ^ 32 =
        (page % (m._chrRomSize / InternalGetChrPageSize cfg m)) *
          InternalGetChrPageSize cfg m := by
      apply Nat.mod_eq_of_lt
      have h1 : (page % (m._chrRomSize / InternalGetChrPageSize cfg m)) *
          InternalGetChrPageSize cfg m ≤
          m._chrRomSize / InternalGetChrPageSize cfg m * InternalGetChrPageSize cfg m :=
        Nat.mul_le_mul_right _ (le_of_lt (Nat.mod_lt _ hcnt0))
      have h2 := Nat.div_mul_le_self m._chrRomSize (InternalGetChrPageSize cfg m)
      omega
    refine ⟨_, SetPpuMemoryMapping_eq cfg m s e page ChrMemoryType.Default src _ _ _ hinfo
      hcnt0 hd, ?_, ?_⟩
    · intro j h1 h2
      rw [shr_8] at h1 h2 ⊢
      have hw : s / 256 ≤ j ∧ j ≤ e / 256 := ⟨h1, h2⟩
      simp only [hw, and_self, if_true, hoff]
    · intro j hj
      rw [shr_8, shr_8] at hj
      simp only [hj, if_false, and_self]

/-- On `chrRamOnlyMapper` with the demo class (8 KiB pages for CHR and for CHR RAM) the
`Default` type is the `ChrRam` type, and mapping page 0 at `0x0000-0x1FFF` gives slot 3 the
CHR RAM at offset `0x300` with Read|Write access. -/
theorem C17_default_chr_type_witness :
    SetPpuMemoryMapping demoConfig chrRamOnlyMapper 0 0x1FFF 0 ChrMemoryType.Default (-1) =
        SetPpuMemoryMapping demoConfig chrRamOnlyMapper 0 0x1FFF 0 ChrMemoryType.ChrRam (-1) ∧
      ∃ m2, SetPpuMemoryMapping demoConfig chrRamOnlyMapper 0 0x1FFF 0 ChrMemoryType.Default (-1)
          = some m2 ∧
        m2._chrPages 3 = some ⟨Arena.ChrRam, 0x300⟩ ∧
        m2._chrPageAccessType 3 = MemoryAccessType.ReadWrite := by
  have h := C17_default_chr_type demoConfig chrRamOnlyMapper 0 0x1FFF 0 (-1)
  refine ⟨h.2.1 rfl (by decide) rfl, ?_⟩
  obtain ⟨m2, e, hin, _⟩ := h.2.2 (by decide) (by decide) ⟨Arena.ChrRam, 0⟩ rfl
  have h3 := hin 3 (by decide) (by decide)
  exact ⟨m2, e, h3.1.trans (by decide), h3.2⟩

/-- C18: effect of `SelectChrPage8x`.  For a slot with `8*slot + 7 < 64`, a 16-bit page, a
non-zero CHR page size and a non-null `Default` CHR source, `SelectChrPage8x(slot, page)` is
`SelectChrPage4x(slot, page)` followed by `SelectChrPage4x(slot*2+1, page+4)`, which is the
eight `SelectCHRPage` calls of `chr8xSelections`; it succeeds, records
`_chrPageNumbers[4*slot + j] = page + j` and `_chrPageNumbers[8*slot + 4 + j] = page + 4 + j`
for `j = 0..3` in 16-bit arithmetic and leaves the other page numbers alone; for `slot = 0`
the slots 0..7 hold `page .. page+7`.  It changes no table entry outside the eight windows,
and when the page size is a multiple of 256 and the windows do not wrap around `0x10000` each
window holds the page selected for its slot. -/
theorem C18_SelectChrPage8x (cfg : Config) (m : Mapper) (slot page : Nat) (src : Ptr)
    (hslot : 8 * slot + 7 < 64) (hpage : page < 65536)
    (h0 : 0 < InternalGetChrPageSize cfg m)
    (hsrc : (if m._onlyChrRam then m._chrRam else some chrRomPtr) = some src) :
    SelectChrPage8x cfg m slot page ChrMemoryType.Default =
        (SelectChrPage4x cfg m slot page ChrMemoryType.Default).bind (fun m1 =>
          SelectChrPage4x cfg m1 (slot * 2 + 1) ((page + 4) % 65536) ChrMemoryType.Default)
      ∧ SelectChrPage8x cfg m slot page ChrMemoryType.Default =
        runChrSelections cfg (chr8xSelections slot page) m
      ∧ ∃ m2, SelectChrPage8x cfg m slot page ChrMemoryType.Default = some m2 ∧
        (∀ j, j < 4 → m2._chrPageNumbers (4 * slot + j) = (page + j) % 65536 ∧
          m2._chrPageNumbers (8 * slot + 4 + j) = (page + 4 + j) % 65536) ∧
        (∀ i, (∀ j, j < 4 → i ≠ 4 * slot + j ∧ i ≠ 8 * slot + 4 + j) →
          m2._chrPageNumbers i = m._chrPageNumbers i) ∧
        (slot = 0 → ∀ k, k < 8 → m2._chrPageNumbers k = (page + k) % 65536) ∧
        (∀ j, (∀ sp ∈ chr8xSelections slot page, ¬ chrWindow cfg m sp.1 j) →
          m2._chrPages j = m._chrPages j ∧ m2._chrPageAccessType j = m._chrPageAccessType j) ∧
        (InternalGetChrPageSize cfg m % 256 = 0 →
          (8 * slot + 8) * InternalGetChrPageSize cfg m ≤ 0x10000 →
          ∀ sp ∈ chr8xSelections slot page, ∀ j, chrWindow cfg m sp.1 j →
            m2._chrPages j = some ⟨src.arena, src.off +
              (sp.2 % (m._chrRomSize / InternalGetChrPageSize cfg m)) *
                InternalGetChrPageSize cfg m % 2 ^ 32 +
              (j - sp.1 * InternalGetChrPageSize cfg m % 65536 / 256) * 0x100⟩ ∧
            m2._chrPageAccessType j = chrDefaultAccess m) := by
  have hsel := SelectChrPage8x_selections cfg m slot page hslot hpage
  obtain ⟨hpw, hbound⟩ := chr8xSelections_slots slot page
  obtain ⟨m2, e2, _, hnum, hrec, hkeep, hwin⟩ := runChrSelections_spec cfg m src h0 hsrc
    (chr8xSelections slot page) m rfl (fun sp hsp => by
      have := hbound sp hsp
      omega)
  have hnums : ∀ j, j < 4 → m2._chrPageNumbers (4 * slot + j) = (page + j) % 65536 ∧
      m2._chrPageNumbers (8 * slot + 4 + j) = (page + 4 + j) % 65536 := by
    intro j hj
    have hcases : (j = 0 ∨ j = 1) ∨ (j = 2 ∨ j = 3) := by omega
    rcases hcases with (h | h) | (h | h) <;> subst h
    · exact ⟨hrec hpw (4 * slot + 0, (page + 0) % 65536) (by simp [chr8xSelections]),
        hrec hpw (8 * slot + 4 + 0, (page + 4 + 0) % 65536) (by simp [chr8xSelections])⟩
    · exact ⟨hrec hpw (4 * slot + 1, (page + 1) % 65536) (by simp [chr8xSelections]),
        hrec hpw (8 * slot + 4 + 1, (page + 4 + 1) % 65536) (by simp [chr8xSelections])⟩
    · exact ⟨hrec hpw (4 * slot + 2, (page + 2) % 65536) (by simp [chr8xSelections]),
        hrec hpw (8 * slot + 4 + 2, (page + 4 + 2) % 65536) (by simp [chr8xSelections])⟩
    · exact ⟨hrec hpw (4 * slot + 3, (page + 3) % 65536) (by simp [chr8xSelections]),
        hrec hpw (8 * slot + 4 + 3, (page + 4 + 3) % 65536) (by simp [chr8xSelections])⟩
  have h4x : SelectChrPage8x cfg m slot page ChrMemoryType.Default =
      (SelectChrPage4x cfg m slot page ChrMemoryType.Default).bind (fun m1 =>
        SelectChrPage4x cfg m1 (slot * 2 + 1) ((page + 4) % 65536) ChrMemoryType.Default) := by
    unfold SelectChrPage8x
    rw [show (slot * 2 + 1) % 65536 = slot * 2 + 1 by omega]
  refine ⟨h4x, hsel, m2, hsel.trans e2, hnums, ?_, ?_, hkeep, ?_⟩
  · intro i hi
    refine hnum i (fun sp hsp heq => ?_)
    simp only [chr8xSelections, List.mem_cons, List.mem_singleton, List.not_mem_nil,
      or_false] at hsp
    have i0 := hi 0 (by decide)
    have i1 := hi 1 (by decide)
    have i2 := hi 2 (by decide)
    have i3 := hi 3 (by decide)
    rcases hsp with h | h | h | h | h | h | h | h <;> subst h <;> simp only [] at heq <;> omega
  · intro hs0 k hk
    subst hs0
    have hcases : k < 4 ∨ (4 ≤ k ∧ k < 8) := by omega
    rcases hcases with h | h
    · have := (hnums k h).1
      rw [show 4 * 0 + k = k by omega] at this
      exact this
    · have := (hnums (k - 4) (by omega)).2
      rw [show 8 * 0 + 4 + (k - 4) = k by omega, show page + 4 + (k - 4) = page + k by omega]
        at this
      exact this
  · intro hal hwrap
    have hwrapOf : ∀ sp ∈ chr8xSelections slot page,
        (sp.1 + 1) * InternalGetChrPageSize cfg m ≤ 0x10000 := by
      intro sp hsp
      have h1 : (sp.1 + 1) * InternalGetChrPageSize cfg m
          ≤ (8 * slot + 8) * InternalGetChrPageSize cfg m :=
        Nat.mul_le_mul_right _ (by have := hbound sp hsp; omega)
      omega
    refine hwin (hpw.imp_of_mem (fun ha hb hne j hj => ?_))
    rw [chrWindow_iff cfg m _ j h0 (hwrapOf _ ha), chrWindow_iff cfg m _ j h0 (hwrapOf _ hb)]
      at hj
    exact window_disjoint 0 (InternalGetChrPageSize cfg m) _ _ j hal h0 hne hj
/-- Eight 1 KiB CHR pages on `chr8kMapper`: `SelectChrPage8x(0, 4)` records the pages 4 and 11
in the slots 0 and 7, and the window of slot 7 (table entry `0x1C`) holds page `11 mod 8` of
the CHR ROM with access Read. -/
theorem C18_SelectChrPage8x_witness :
    ∃ m2, SelectChrPage8x chr1kConfig chr8kMapper 0 4 ChrMemoryType.Default = some m2 ∧
      m2._chrPageNumbers 0 = 4 ∧ m2._chrPageNumbers 7 = 11 ∧
      m2._chrPages 0x1C = some ⟨Arena.ChrRom, 0xC00⟩ ∧
      m2._chrPageAccessType 0x1C = MemoryAccessType.Read := by
  obtain ⟨_, _, m2, e, _, _, hzero, _, hwin⟩ :=
    C18_SelectChrPage8x chr1kConfig chr8kMapper 0 4 chrRomPtr (by decide) (by decide)
      (by decide) rfl
  have hw := hwin (by decide) (by decide) (8 * 0 + 7, (4 + 7) % 65536)
    (by simp [chr8xSelections]) 0x1C (by decide)
  exact ⟨m2, e, hzero rfl 0 (by decide), hzero rfl 7 (by decide), hw.1.trans (by decide),
    hw.2⟩

/-- C19: page-size clamp.  For a PRG size `_prgSize > 0` and a configured 16-bit page size
`GetPRGPageSize() > 0`, `InternalGetPrgPageSize()` is `min(GetPRGPageSize(), _prgSize)`, is
non-zero and at most `_prgSize`; `GetPRGPageCount()` is defined, equals
`_prgSize / InternalGetPrgPageSize()`, is at least 1 and
`GetPRGPageCount() * InternalGetPrgPageSize() <= _prgSize`; for a ROM smaller than one page
it is 1; and `SetCpuMemoryMapping` on PRG-ROM is defined for every range, page number and
access type (no division or modulo by zero). -/
theorem C19_page_size_clamp (cfg : Config) (m : Mapper) (hprg : 0 < m._prgSize)
    (hps0 : 0 < cfg.GetPRGPageSize) (hps16 : cfg.GetPRGPageSize < 65536) :
    InternalGetPrgPageSize cfg m = min cfg.GetPRGPageSize m._prgSize ∧
      0 < InternalGetPrgPageSize cfg m ∧ InternalGetPrgPageSize cfg m ≤ m._prgSize ∧
      ∃ c, GetPRGPageCount cfg m = some c ∧
        c = m._prgSize / InternalGetPrgPageSize cfg m ∧ 1 ≤ c ∧
        c * InternalGetPrgPageSize cfg m ≤ m._prgSize ∧
        (m._prgSize < cfg.GetPRGPageSize → c = 1) ∧
        ∀ (s e : Nat) (pn acc : Int),
          ∃ m2, SetCpuMemoryMapping cfg m s e pn PrgMemoryType.PrgRom acc = some m2 := by
  have hmin : InternalGetPrgPageSize cfg m = min cfg.GetPRGPageSize m._prgSize := by
    unfold InternalGetPrgPageSize
    rw [Nat.mod_eq_of_lt (show cfg.GetPRGPageSize < 2 ^ 32 by omega)]
    exact Nat.mod_eq_of_lt (lt_of_le_of_lt (Nat.min_le_left _ _) hps16)
  have hpos : 0 < InternalGetPrgPageSize cfg m := by
    rw [hmin]
    exact lt_min hps0 hprg
  have hle : InternalGetPrgPageSize cfg m ≤ m._prgSize := by
    rw [hmin]
    exact Nat.min_le_right _ _
  refine ⟨hmin, hpos, hle, m._prgSize / InternalGetPrgPageSize cfg m, ?_, rfl,
    Nat.div_pos hle hpos, Nat.div_mul_le_self _ _, ?_, ?_⟩
  · unfold GetPRGPageCount
    rw [if_neg (by omega)]
  · intro hsmall
    rw [hmin, Nat.min_eq_right (le_of_lt hsmall)]
    exact Nat.div_self hprg
  · intro s e pn acc
    obtain ⟨m2, h, _⟩ := SetCpuMemoryMapping_PrgRom_isSome cfg m s e pn acc hpos
    exact ⟨m2, h⟩

/-- A 16 KiB ROM under a class with 32 KiB pages: the page size in use is 16 KiB and there is
one page; the 128 KiB ROM under the class with 16 KiB pages has 8 pages. -/
theorem C19_page_size_clamp_witness :
    InternalGetPrgPageSize bigPageConfig prg16Mapper = 0x4000 ∧
      GetPRGPageCount bigPageConfig prg16Mapper = some 1 ∧
      GetPRGPageCount demoConfig prg128Mapper = some 8 := by
  obtain ⟨h1, _, _, c, h2, _, _, _, h3, _⟩ :=
    C19_page_size_clamp bigPageConfig prg16Mapper (by decide) (by decide) (by decide)
  obtain ⟨_, _, _, d, k2, k3, _⟩ :=
    C19_page_size_clamp demoConfig prg128Mapper (by decide) (by decide) (by decide)
  refine ⟨h1.trans (by decide), ?_, ?_⟩
  · rw [h2, h3 (by decide)]
  · rw [k2, k3]
    decide

/-- C20 as stated fails on register reads: `ReadRAM` at a readable register address returns
`ReadRegister(addr)`, which may depend on what the bank switch changed.  With the read hook of
`bankReadConfig`, `SelectPRGPage(0, 5)` writes the window `0x8000-0xBFFF`, and `ReadRAM` at
`0xC000`, outside the window, changes from 0 to 5.  With a page size of zero the call divides
by zero. -/
theorem C20_bank_switch_frame_counterexample :
    ReadRAM bankReadConfig prg128ReadableMapper 0xC000 = some 0 ∧
      (SelectPRGPage bankReadConfig prg128ReadableMapper 0 5 PrgMemoryType.PrgRom).bind
        (fun m2 => ReadRAM bankReadConfig m2 0xC000) = some 5 ∧
      SelectPRGPage zeroPageConfig prg128Mapper 0 0 PrgMemoryType.PrgRom = none := by
  refine ⟨by decide, by decide, rfl⟩

/-- C20, amended: frame of a bank switch.  For a PRG-ROM of at least 32 KiB, a non-zero page
size in use, every slot below 64 and every page, `SelectPRGPage(slot, page)` succeeds and
changes only `_prgPageNumbers[slot]` (to `page`) and the `prgPages` / `prgAccess` entries `i`
with `start>>8 <= i <= end>>8`, where `start = (0x8000 + slot * pageSize) mod 2^16` and
`end = (start + pageSize - 1) mod 2^16`; every other member and all arena contents are
unchanged, and `ReadRAM` at an address outside that window that is not dispatched to
`ReadRegister` returns what it returned before. -/
theorem C20_bank_switch_frame (cfg : Config) (m : Mapper) (slot page : Nat)
    (hbig : 0x8000 ≤ m._prgSize) (hslot : slot < 64)
    (h0 : 0 < InternalGetPrgPageSize cfg m) :
    ∃ m2, SelectPRGPage cfg m slot page PrgMemoryType.PrgRom = some m2 ∧
      m2._prgPageNumbers slot = page ∧
      (∀ i, i ≠ slot → m2._prgPageNumbers i = m._prgPageNumbers i) ∧
      (∀ i, ¬ (((0x8000 + slot * InternalGetPrgPageSize cfg m) % 65536) >>> 8 ≤ i ∧
          i ≤ (((0x8000 + slot * InternalGetPrgPageSize cfg m) % 65536
            + InternalGetPrgPageSize cfg m - 1) % 65536) >>> 8) →
        m2._prgPages i = m._prgPages i ∧ m2._prgPageAccessType i = m._prgPageAccessType i) ∧
      m2 = { m with
        _prgPageNumbers := m2._prgPageNumbers
        _prgPages := m2._prgPages
        _prgPageAccessType := m2._prgPageAccessType } ∧
      (∀ A, ¬ (((0x8000 + slot * InternalGetPrgPageSize cfg m) % 65536) >>> 8 ≤ A >>> 8 ∧
          A >>> 8 ≤ (((0x8000 + slot * InternalGetPrgPageSize cfg m) % 65536
            + InternalGetPrgPageSize cfg m - 1) % 65536) >>> 8) →
        ¬ (m._allowRegisterRead = true ∧ m._isRegisterAddr A = true) →
        ReadRAM cfg m2 A = ReadRAM cfg m A) := by
  have h64 : ¬ (64 ≤ slot) := by omega
  have hbig1 : ¬ (m._prgSize < PrgAddressRangeSize) := by
    unfold PrgAddressRangeSize
    omega
  obtain ⟨m2, e2, hkeep, hm2⟩ := SetCpuMemoryMapping_PrgRom_isSome cfg
    { m with _prgPageNumbers := upd m._prgPageNumbers slot page }
    ((0x8000 + slot * InternalGetPrgPageSize cfg m) % 65536)
    (((0x8000 + slot * InternalGetPrgPageSize cfg m) % 65536
      + InternalGetPrgPageSize cfg m - 1) % 65536)
    (toInt16 page) (-1) h0
  have hsel : SelectPRGPage cfg m slot page PrgMemoryType.PrgRom = some m2 := by
    unfold SelectPRGPage
    simp only [h64, if_false, hbig1]
    exact e2
  have hout : ∀ i, ¬ (((0x8000 + slot * InternalGetPrgPageSize cfg m) % 65536) >>> 8 ≤ i ∧
      i ≤ (((0x8000 + slot * InternalGetPrgPageSize cfg m) % 65536
        + InternalGetPrgPageSize cfg m - 1) % 65536) >>> 8) →
      m2._prgPages i = m._prgPages i ∧ m2._prgPageAccessType i = m._prgPageAccessType i := by
    intro i hi
    rw [shr_8, shr_8] at hi
    exact hkeep i hi
  have g1 : m2._prgPageNumbers = upd m._prgPageNumbers slot page :=
    (congrArg Mapper._prgPageNumbers hm2 :)
  have f1 : m2._allowRegisterRead = m._allowRegisterRead :=
    (congrArg Mapper._allowRegisterRead hm2 :)
  have f2 : m2._isRegisterAddr = m._isRegisterAddr := (congrArg Mapper._isRegisterAddr hm2 :)
  have f3 : m2.mem = m.mem := (congrArg Mapper.mem hm2 :)
  have f4 : m2.size = m.size := (congrArg Mapper.size hm2 :)
  refine ⟨m2, hsel, ?_, ?_, hout, ?_, ?_⟩
  · rw [g1]
    simp [upd]
  · intro i hi
    rw [g1]
    simp [upd, hi]
  · rw [g1]
    exact hm2
  · intro A hA hreg
    obtain ⟨o1, o2⟩ := hout (A >>> 8) hA
    have hreg2 : (m._allowRegisterRead && m._isRegisterAddr A) = false := by
      cases h3 : m._allowRegisterRead with
      | false => rfl
      | true =>
        cases h4 : m._isRegisterAddr A with
        | false => rfl
        | true => exact absurd ⟨h3, h4⟩ hreg
    unfold ReadRAM Mapper.load
    rw [f1, f2, hreg2, o1, o2, f3, f4]
    rfl

/-- The 128 KiB cartridge with 16 KiB pages: `SelectPRGPage(0, 5)` records page 5 in slot 0
and leaves the entry `0xC0` (address `0xC000`) and the read at `0xC000` as they were. -/
theorem C20_bank_switch_frame_witness :
    ∃ m2, SelectPRGPage demoConfig prg128Mapper 0 5 PrgMemoryType.PrgRom = some m2 ∧
      m2._prgPageNumbers 0 = 5 ∧ m2._prgPages 0xC0 = prg128Mapper._prgPages 0xC0 ∧
      ReadRAM demoConfig m2 0xC000 = ReadRAM demoConfig prg128Mapper 0xC000 := by
  obtain ⟨m2, e, h1, _, h3, _, h5⟩ :=
    C20_bank_switch_frame demoConfig prg128Mapper 0 5 (by decide) (by decide) (by decide)
  exact ⟨m2, e, h1, (h3 0xC0 (by decide)).1, h5 0xC000 (by decide) (by decide)⟩

/-- C1: for every 16-bit address and every mapper state, `ReadRAM` returns `ReadRegister(addr)`
when `_allowRegisterRead` is set and the address is a register address; otherwise, when the
slot has the Read bit, the byte `prgPages[addr>>8][addr & 0xFF]`, which is the arena byte
`mem[q.arena][q.off + (addr & 0xFF)]` for a slot holding the pointer `q` with that byte inside
the arena (and undefined for a null slot); otherwise the open-bus value `(addr >> 8) & 0xFF`,
the high byte of the address.  In particular a register address is read through the page
table when `_allowRegisterRead` is false. -/
theorem C1_ReadRAM_cases (cfg : Config) (m : Mapper) (addr : Nat) (haddr : addr < 65536) :
    (m._allowRegisterRead = true → m._isRegisterAddr addr = true →
        ReadRAM cfg m addr = some (cfg.ReadRegister m addr))
      ∧ (¬ (m._allowRegisterRead = true ∧ m._isRegisterAddr addr = true) →
        (m._prgPageAccessType (addr >>> 8) &&& MemoryAccessType.Read ≠ 0 →
          (∀ q, m._prgPages (addr >>> 8) = some q →
            q.off + (addr &&& 0xFF) < m.size q.arena →
            ReadRAM cfg m addr = some (m.mem q.arena (q.off + (addr &&& 0xFF)))) ∧
          (m._prgPages (addr >>> 8) = none → ReadRAM cfg m addr = none)) ∧
        (m._prgPageAccessType (addr >>> 8) &&& MemoryAccessType.Read = 0 →
          ReadRAM cfg m addr = some ((addr >>> 8) &&& 0xFF) ∧
          (addr >>> 8) &&& 0xFF = addr / 256))
      ∧ (m._allowRegisterRead = false →
        ReadRAM cfg m addr =
          ReadRAM cfg { m with _isRegisterAddr := fun _ => false } addr) := by
  have hbus := open_bus_byte addr
  have hhigh : (addr >>> 8) &&& 0xFF = addr / 256 := by
    rw [and_255, shr_8]
    omega
  refine ⟨?_, ?_, ?_⟩
  · intro h1 h2
    unfold ReadRAM
    rw [h1, h2]
    rfl
  · intro hreg
    have hreg2 : (m._allowRegisterRead && m._isRegisterAddr addr) = false := by
      cases h3 : m._allowRegisterRead with
      | false => rfl
      | true =>
        cases h4 : m._isRegisterAddr addr with
        | false => rfl
        | true => exact absurd ⟨h3, h4⟩ hreg
    constructor
    · intro hbit
      have hacc : hasAccess (m._prgPageAccessType (addr >>> 8)) MemoryAccessType.Read = true := by
        unfold hasAccess
        simpa using hbit
      constructor
      · intro q hq hin
        unfold ReadRAM Mapper.load
        rw [hreg2, hacc, hq]
        simp only [Bool.false_eq_true, if_false, if_true]
        rw [if_pos hin]
      · intro hq
        unfold ReadRAM Mapper.load
        rw [hreg2, hacc, hq]
        rfl
    · intro hbit
      have hacc : hasAccess (m._prgPageAccessType (addr >>> 8)) MemoryAccessType.Read = false := by
        unfold hasAccess
        simpa using hbit
      refine ⟨?_, hhigh⟩
      unfold ReadRAM
      rw [hreg2, hacc, hbus]
      rfl
  · intro h1
    unfold ReadRAM
    rw [h1]
    rfl

/-- Three reads.  On `prg128MappedMapper` (last 16 KiB of the ROM readable at `0xC000`) the
address `0xC001` reads the PRG byte at offset `0x1C001`, and the unmapped address `0x50A0`
reads the open-bus value `0x50`; with readable registers the address `0x8000` reads what
`ReadRegister` answers. -/
theorem C1_ReadRAM_cases_witness :
    ReadRAM demoConfig prg128MappedMapper 0xC001 =
        some (prg128MappedMapper.mem Arena.PrgRom 0x1C001) ∧
      prg128MappedMapper.mem Arena.PrgRom 0x1C001 = 233 ∧
      ReadRAM demoConfig prg128MappedMapper 0x50A0 = some 0x50 ∧
      ReadRAM readableConfig prg128ReadableMapper 0x8000 = some 0xAB := by
  have h1 := ((C1_ReadRAM_cases demoConfig prg128MappedMapper 0xC001 (by decide)).2.1
    (by decide)).1 (by decide)
  have h2 := ((C1_ReadRAM_cases demoConfig prg128MappedMapper 0x50A0 (by decide)).2.1
    (by decide)).2 (by decide)
  have h3 := (C1_ReadRAM_cases readableConfig prg128ReadableMapper 0x8000 (by decide)).1
    rfl (by decide)
  refine ⟨h1.1 ⟨Arena.PrgRom, 0x1C000⟩ rfl (by decide), by decide, ?_, h3⟩
  rw [h2.1]
  decide

/-- C14: address translation, on a PRG-ROM whose offsets are `int32_t` values (at most `2^31`
bytes).  For every byte offset `off < _prgSize`, `FromAbsoluteAddress(off)` is -1 exactly when
no slot below 256 holds a non-null pointer whose 256-byte window contains the byte
`_prgRom + off`; when slot `i` is the lowest slot covering it, with pointer `p`, the result
is the CPU address `A = (i << 8) + (off - p)` and `ToAbsoluteAddress(A)` is `off`.  For every
`A`, `ToAbsoluteAddress(A)` is the offset of `prgPages[A>>8] + (A & 0xFF)` when that byte lies
inside PRG-ROM and -1 otherwise, a null slot included. -/
theorem C14_address_translation (m : Mapper) (off : Nat) (hsz : m._prgSize ≤ 2 ^ 31)
    (hoff : off < m._prgSize) :
    (FromAbsoluteAddress m off = -1 ↔ ¬ ∃ i, i < 256 ∧ coversByte m off i)
      ∧ (∀ i p, i < 256 → m._prgPages i = some p → p.arena = Arena.PrgRom → p.off ≤ off →
        off ≤ p.off + 0xFF → (∀ j, j < i → ¬ coversByte m off j) →
        FromAbsoluteAddress m off = ((i * 256 + (off - p.off) : Nat) : Int) ∧
        ToAbsoluteAddress m (i * 256 + (off - p.off)) = (off : Int))
      ∧ (∀ A, ToAbsoluteAddress m A =
        match m._prgPages (A >>> 8) with
        | some p =>
          if p.arena = Arena.PrgRom ∧ p.off + (A &&& 0xFF) < m._prgSize then
            ((p.off + (A &&& 0xFF) : Nat) : Int)
          else -1
        | none => -1) := by
  have hmod : off % 2 ^ 32 = off := Nat.mod_eq_of_lt (by omega)
  have hto : ∀ A, ToAbsoluteAddress m A =
      match m._prgPages (A >>> 8) with
      | some p =>
        if p.arena = Arena.PrgRom ∧ p.off + (A &&& 0xFF) < m._prgSize then
          ((p.off + (A &&& 0xFF) : Nat) : Int)
        else -1
      | none => -1 := by
    intro A
    unfold ToAbsoluteAddress
    cases hq : m._prgPages (A >>> 8) with
    | none => rfl
    | some p =>
      simp only [Ptr.add]
      by_cases hin : p.arena = Arena.PrgRom ∧ p.off + (A &&& 0xFF) < m._prgSize
      · rw [if_pos hin, if_pos hin]
        have h1 : (p.off + (A &&& 0xFF)) % 2 ^ 32 = p.off + (A &&& 0xFF) :=
          Nat.mod_eq_of_lt (by omega)
        rw [h1, toInt32_of_small _ (by omega)]
      · rw [if_neg hin, if_neg hin]
  have hfirst : ∀ i p, i < 256 → m._prgPages i = some p → p.arena = Arena.PrgRom →
      p.off ≤ off → off ≤ p.off + 0xFF → (∀ j, j < i → ¬ coversByte m off j) →
      FromAbsoluteAddress m off = ((i * 256 + (off - p.off) : Nat) : Int) := by
    intro i p hi hp ha hlo hhi hmin
    unfold FromAbsoluteAddress
    rw [hmod]
    exact fromAbsoluteLoop_first m off 256 0 i p (Nat.zero_le _) (by omega) hi hp ha hlo hhi
      (fun j _ hj => hmin j hj)
  refine ⟨⟨?_, ?_⟩, ?_, hto⟩
  · intro h hex
    obtain ⟨k, hk, ⟨p, hp, ha, hlo, hhi⟩, hmin⟩ := coversByte_first m off 256 hex
    rw [hfirst k p hk hp ha hlo hhi hmin] at h
    omega
  · intro h
    unfold FromAbsoluteAddress
    rw [hmod]
    exact fromAbsoluteLoop_none m off 256 0 (fun j _ hj hc => h ⟨j, by omega, hc⟩)
  · intro i p hi hp ha hlo hhi hmin
    refine ⟨hfirst i p hi hp ha hlo hhi hmin, ?_⟩
    have h1 : (i * 256 + (off - p.off)) >>> 8 = i := by
      rw [shr_8]
      omega
    have h2 : (i * 256 + (off - p.off)) &&& 0xFF = off - p.off := by
      rw [and_255]
      omega
    rw [hto, h1, hp]
    simp only [h2]
    have h3 : p.off + (off - p.off) = off := by omega
    rw [h3, if_pos ⟨ha, hoff⟩]

/-- The 128 KiB cartridge `prg128MappedMapper`: the byte at offset `0x1C100` is covered by
slot `0x80` and by slot `0xC1`; the lower slot wins, `FromAbsoluteAddress` is `0x8000` and
`ToAbsoluteAddress(0x8000)` gives the offset back.  Offset 0 is not mapped, and the address
`0x0001`, whose slot is null, translates to -1. -/
theorem C14_address_translation_witness :
    FromAbsoluteAddress prg128MappedMapper 0x1C100 = 0x8000 ∧
      ToAbsoluteAddress prg128MappedMapper 0x8000 = 0x1C100 ∧
      coversByte prg128MappedMapper 0x1C100 0xC1 ∧
      FromAbsoluteAddress prg128MappedMapper 0 = -1 ∧
      ToAbsoluteAddress prg128MappedMapper 0x0001 = -1 := by
  have hlow : ∀ j, j < 0x80 → prg128MappedMapper._prgPages j = none := by
    intro j hj
    have a1 : ¬ (0xC0 ≤ j ∧ j ≤ 0xFF) := by omega
    have a2 : ¬ (0x80 ≤ j ∧ j ≤ 0xBF) := by omega
    show (if 0xC0 ≤ j ∧ j ≤ 0xFF then _ else if 0x80 ≤ j ∧ j ≤ 0xBF then _ else none) = none
    rw [if_neg a1, if_neg a2]
  have h := (C14_address_translation prg128MappedMapper 0x1C100 (by decide) (by decide)).2.1
    0x80 ⟨Arena.PrgRom, 0x1C100⟩ (by decide) rfl rfl (by decide) (by decide)
    (fun j hj hc => by
      obtain ⟨p, hp, _⟩ := hc
      rw [hlow j hj] at hp
      exact Option.noConfusion hp)
  refine ⟨h.1, h.2, ⟨⟨Arena.PrgRom, 0x1C100⟩, rfl, rfl, by decide, by decide⟩, ?_,
    ((C14_address_translation prg128MappedMapper 0 (by decide) (by decide)).2.2 0x0001).trans
      rfl⟩
  refine (C14_address_translation prg128MappedMapper 0 (by decide) (by decide)).1.2 ?_
  rintro ⟨i, hi, p, hp, _, hlo, _⟩
  by_cases b1 : 0xC0 ≤ i ∧ i ≤ 0xFF
  · have e : prg128MappedMapper._prgPages i
        = some ⟨Arena.PrgRom, 0x1C000 + (i - 0xC0) * 0x100⟩ := by
      show (if 0xC0 ≤ i ∧ i ≤ 0xFF then _ else _) = _
      rw [if_pos b1]
    rw [e] at hp
    rw [← Option.some.inj hp] at hlo
    simp at hlo
  · by_cases b2 : 0x80 ≤ i ∧ i ≤ 0xBF
    · have e : prg128MappedMapper._prgPages i
          = some ⟨Arena.PrgRom, 0x1C100 + (i - 0x80) * 0x100⟩ := by
        show (if 0xC0 ≤ i ∧ i ≤ 0xFF then _ else if 0x80 ≤ i ∧ i ≤ 0xBF then _ else none) = _
        rw [if_neg b1, if_pos b2]
      rw [e] at hp
      rw [← Option.some.inj hp] at hlo
      simp at hlo
    · have e : prg128MappedMapper._prgPages i = none := by
        show (if 0xC0 ≤ i ∧ i ≤ 0xFF then _ else if 0x80 ≤ i ∧ i ≤ 0xBF then _ else none) = _
        rw [if_neg b1, if_neg b2]
      rw [e] at hp
      exact Option.noConfusion hp

set_option maxRecDepth 100000 in
/-- C15 as stated fails for a mapper class whose `InitMapper` hook changes the mapping of
`0x6000-0x7FFF`: `Initialize` runs the hook after it mapped the save RAM there.  With a hook
that takes all access from the window, `WriteRAM(0x6000, 0x42)` is ignored and
`ReadRAM(0x6000)` is the open-bus value `0x60`, on a cartridge with a battery and 8 KiB of
save RAM in one page. -/
theorem C15_battery_roundtrip_counterexample :
    lockedRamConfig.GetSaveRamSize = 8192 ∧ lockedRamConfig.GetSaveRamPageSize = 8192 ∧
      batteryRom.HasBattery = true ∧
      ¬ (lockedRamConfig.RegisterStartAddress ≤ 0x6000 ∧
        0x6000 ≤ lockedRamConfig.RegisterEndAddress) ∧
      ((Initialize lockedRamConfig batteryEnv batteryRom).bind fun F =>
        (WriteRAM lockedRamConfig F 0x6000 0x42).bind fun m2 =>
          ReadRAM lockedRamConfig m2 0x6000) = some 0x60 := by
  refine ⟨rfl, rfl, rfl, by decide, ?_⟩
  decide

/-- C15, amended: battery-backed save RAM round trip.  For a mapper class with 8 KiB of save
RAM in one 8 KiB page, on a cartridge with a battery, whose hooks `InitMapper`, run on the
state `Initialize` hands them, return and leave the save RAM, the page-table entries of
`0x6000-0x7FFF` and the register bits of these addresses as they found them: `Initialize`
succeeds; for every address `A` of `0x6000-0x7FFF` outside the register range and every value
`v`, `WriteRAM(A, v)` followed by `ReadRAM(A)` yields `v`; `SaveBattery` writes the
`_saveRamSize = 8192` bytes of save RAM; a new instance initialised against that file reads
`v` at `A`; and when there is no battery file, save RAM is all zero and `ReadRAM(A)` is 0. -/
theorem C15_battery_roundtrip (cfg : Config) (env : Env) (romData : RomData) (A v : Nat)
    (hhooks : ∀ e P, initPrefix cfg e romData = some P →
      ∃ m6, runHooks cfg romData P = some m6 ∧ SaveRamKept P m6)
    (hbat : romData.HasBattery = true) (hsize : cfg.GetSaveRamSize = 8192)
    (hpage : cfg.GetSaveRamPageSize = 8192) (hA1 : 0x6000 ≤ A) (hA2 : A ≤ 0x7FFF)
    (hreg : ¬ (cfg.RegisterStartAddress ≤ A ∧ A ≤ cfg.RegisterEndAddress)) :
    ∃ F m2, Initialize cfg env romData = some F ∧
      (env.batteryFile = none →
        (∀ o, F.mem Arena.SaveRam o = 0) ∧ ReadRAM cfg F A = some 0) ∧
      WriteRAM cfg F A v = some m2 ∧ ReadRAM cfg m2 A = some v ∧
      (SaveBattery m2).size = 8192 ∧ m2._saveRamSize = 8192 ∧
      (∀ o, (SaveBattery m2).get o = m2.mem Arena.SaveRam o) ∧
      ∃ F2, Initialize cfg { env with batteryFile := some (SaveBattery m2) } romData = some F2 ∧
        ReadRAM cfg F2 A = some v := by
  have hflag : (romData.HasBattery || cfg.ForceBattery) = true := by
    rw [hbat]
    rfl
  have hram : DefaultRamOk cfg romData := by
    unfold DefaultRamOk
    rw [if_pos hflag, hsize, hpage]
    decide
  have hslot1 : 0x60 ≤ A >>> 8 := by
    rw [shr_8]
    omega
  have hslot2 : A >>> 8 ≤ 0x7F := by
    rw [shr_8]
    omega
  have hnoreg : (initialMembers cfg romData)._isRegisterAddr A = false := by
    rw [initialMembers_isRegisterAddr]
    simp [hreg]
  -- every instance `Initialize` builds reads and writes save RAM at `A`
  have hbus : ∀ (e : Env), ∃ G, Initialize cfg e romData = some G ∧
      G._isRegisterAddr A = false ∧ G.size Arena.SaveRam = 8192 ∧ G._saveRamSize = 8192 ∧
      G.mem Arena.SaveRam = batteryContents e.batteryFile 8192 ∧
      G._prgPages (A >>> 8) = some ⟨Arena.SaveRam, (A >>> 8 - 0x60) * 256⟩ ∧
      G._prgPageAccessType (A >>> 8) = MemoryAccessType.ReadWrite := by
    intro e
    obtain ⟨P, eP, hv, hwin, _⟩ := initPrefix_spec cfg e romData hram
    obtain ⟨m6, e6, k1, k2, k3, k4, k5⟩ := hhooks e P eP
    have h8 : 8192 % 2 ^ 32 = 8192 := by decide
    rw [if_pos hflag, hsize, h8] at hv
    have r1 : P._isRegisterAddr = (initialMembers cfg romData)._isRegisterAddr :=
      (congrArg (fun x => x.1) hv :)
    have r2 : P._saveRamSize = 8192 := (congrArg (fun x => x.2.2.2.1) hv :)
    have r3 : P.size Arena.SaveRam = 8192 :=
      (congrArg (fun x => x.2.2.2.2.2.2.1) hv :)
    have r4 : P.mem Arena.SaveRam = batteryContents e.batteryFile 8192 :=
      (congrArg (fun x => x.2.2.2.2.2.2.2.2) hv :)
    have hw := hwin (A >>> 8) hslot1 hslot2
    rw [if_pos hflag] at hw
    have hk := k4 (A >>> 8) hslot1 hslot2
    refine ⟨ApplyCheats e m6, ?_, ?_, ?_, ?_, ?_, ?_, ?_⟩
    · rw [Initialize_hooks, eP, Option.some_bind, e6]
      rfl
    · show m6._isRegisterAddr A = false
      rw [k5 A hA1 hA2, r1]
      exact hnoreg
    · show m6.size Arena.SaveRam = 8192
      rw [k2, r3]
    · show m6._saveRamSize = 8192
      rw [k1, r2]
    · have hm : (ApplyCheats e m6).mem Arena.SaveRam = m6.mem Arena.SaveRam :=
        (congrArg (fun x => x.2.2.2.2.2.2.2.2) (ApplyCheats_busView e m6).1 :)
      rw [hm, k3, r4]
    · show m6._prgPages (A >>> 8) = _
      rw [hk.1]
      exact hw.1
    · show m6._prgPageAccessType (A >>> 8) = _
      rw [hk.2]
      exact hw.2
  obtain ⟨F, eF, f1, f2, f3, f4, f5, f6⟩ := hbus env
  have hwrite := WriteRAM_saveRam cfg F A v hA1 hA2 f1 f2 f5 f6
  obtain ⟨F2, eF2, g1, g2, _, g4, g5, g6⟩ := hbus
    { env with batteryFile := some (SaveBattery
      { F with mem := fun a o => if a = Arena.SaveRam ∧ o = A - 0x6000 then v else F.mem a o }) }
  have hin : A - 0x6000 < 8192 := by omega
  refine ⟨F, _, eF, ?_, hwrite, ?_, f3, f3, fun _ => rfl, F2, eF2, ?_⟩
  · intro hnone
    have hz : ∀ o, F.mem Arena.SaveRam o = 0 := by
      intro o
      rw [f4, hnone]
      rfl
    exact ⟨hz, by rw [ReadRAM_saveRam cfg F A hA1 hA2 f1 f2 f5 f6, hz]⟩
  · rw [ReadRAM_saveRam cfg
      { F with mem := fun a o => if a = Arena.SaveRam ∧ o = A - 0x6000 then v else F.mem a o }
      A hA1 hA2 f1 f2 f5 f6]
    simp
  · rw [ReadRAM_saveRam cfg F2 A hA1 hA2 g1 g2 g5 g6, g4]
    simp [batteryContents, SaveBattery, f3, hin]

/-- The class `bankHookConfig`, whose hooks select the first and the last PRG bank, on the
demo ROM with a battery and a battery file: `0x42` written at `0x6000` is read back, goes to
the battery file, and a new instance initialised against that file reads it at `0x6000`. -/
theorem C15_battery_roundtrip_witness :
    ∃ F m2, Initialize bankHookConfig batteryEnv batteryRom = some F ∧
      WriteRAM bankHookConfig F 0x6000 0x42 = some m2 ∧
      ReadRAM bankHookConfig m2 0x6000 = some 0x42 ∧
      (SaveBattery m2).size = 8192 ∧
      ∃ F2, Initialize bankHookConfig { batteryEnv with batteryFile := some (SaveBattery m2) }
          batteryRom = some F2 ∧
        ReadRAM bankHookConfig F2 0x6000 = some 0x42 := by
  have hhooks : ∀ e P, initPrefix bankHookConfig e batteryRom = some P →
      ∃ m6, runHooks bankHookConfig batteryRom P = some m6 ∧ SaveRamKept P m6 := by
    intro e P hP
    obtain ⟨P2, eP2, hv, _⟩ := initPrefix_spec bankHookConfig e batteryRom (by decide)
    rw [eP2] at hP
    have hPP := Option.some.inj hP
    subst hPP
    have hsz : P2._prgSize = 0x8000 := (congrArg (fun x => x.2.2.2.2.1) hv :)
    have hps : ∀ x : Mapper, x._prgSize = 0x8000 → InternalGetPrgPageSize bankConfig x = 0x2000 := by
      intro x hx
      unfold InternalGetPrgPageSize
      rw [hx]
      rfl
    obtain ⟨m5, e5, k5, s5⟩ := SelectPRGPage_keepsSaveRam bankConfig P2 0 0 (by rw [hsz])
      (by decide) (by rw [hps P2 hsz]; decide) (by rw [hps P2 hsz])
    have hsz5 : m5._prgSize = 0x8000 := s5.trans hsz
    obtain ⟨m6, e6, k6, _⟩ := SelectPRGPage_keepsSaveRam bankConfig m5 3 0xFFFF (by rw [hsz5])
      (by decide) (by rw [hps m5 hsz5]; decide) (by rw [hps m5 hsz5]; decide)
    refine ⟨m6, ?_, k5.trans k6⟩
    show (SelectPRGPage bankConfig P2 0 0 PrgMemoryType.PrgRom).bind
      (fun m => SelectPRGPage bankConfig m 3 0xFFFF PrgMemoryType.PrgRom) = some m6
    rw [e5, Option.some_bind, e6]
  obtain ⟨F, m2, h1, _, h3, h4, h5, _, _, h8⟩ :=
    C15_battery_roundtrip bankHookConfig batteryEnv batteryRom 0x6000 0x42 hhooks
      rfl rfl rfl (by decide) (by decide) (by decide)
  exact ⟨F, m2, h1, h3, h4, h5, h8⟩

end BaseMapper
